import Mathlib

/-!
# candy-agent: task store and task orchestrator

A shallow embedding of `biz/model/task.go`, `biz/executor/factory.go` and
`biz/service/task_manager.go`, of the synchronous path
(`biz/service/execute_task.go`), of the parameter checks of the SSH executor
(`biz/executor/ssh.go`), of the rule-type table of the alert-rule manager
(`biz/dal/alertrule/k8s_manager.go`, `biz/service/sync_alert_rule.go`) and of
the vector threshold check of the Prometheus and VictoriaMetrics executors,
followed by the properties proved (or refuted) on it.

Conventions of the embedding.

* `time.Time` is a natural number of clock ticks; `0` is the zero `Time`
  (`IsZero`).  Every call of `time.Now()` is an input of the operation.
* A `chan struct{}` that is only ever closed is `Chan`; closing a closed
  channel panics, which the fallible operations report as `none`.
* The mutex of `TaskCache` is held for the whole body of every method, so a
  method is one atomic function on the map.
* A `*Task` is identified with the id it is stored under: the sweep
  (`cleanExpiredTasks`) is a function of its own and not a step of the
  orchestrator, so the object stored under an id is the one its run holds.
* Goroutines are a step function `TaskManager.step` over `Event`s; a list of
  events is one interleaving.  A deadline may pass and a watcher may wake at
  any point of an interleaving, so the interleavings cover every timing.
* A call of `CreateTask` is one event.  In the code its lookup (line 53) and
  its insertion (line 69) take the store lock separately, so two calls for
  one id that race can both insert; such races are not among the
  interleavings of `exec`, and what is proved over `exec` is about runs in
  which the calls of `CreateTask` for one id do not overlap.
* `TaskStatus` and `ResultStatus` are string types with five and four
  declared constants; the embedding has the declared constants.
* The request and response types of the synchronous path are generated code
  (package `hertz_gen/candyAgent`); they are modelled with the fields and
  constants the services use.
* The `float64` values of the vector threshold check are taken in any ordered
  type with a zero; the closed instances use integers.
-/

namespace CandyAgent

/-! ## biz/model/task.go -/

/-- TaskStatus: the five declared task states. -/
inductive TaskStatus
  | Pending
  | Running
  | Completed
  | Failed
  | Canceled
  deriving DecidableEq

/-- ResultStatus: the four declared result states. -/
inductive ResultStatus
  | Normal
  | Warning
  | Critical
  | Failed
  deriving DecidableEq

/-- A decoded JSON value held in `Params` (`interface{}`). -/
inductive ParamValue
  | str (s : String)
  | num (x : Int)
  | bool (b : Bool)
  | null
  deriving DecidableEq

/-- TaskItem; `Typ` is the field `Type` (a reserved word here). -/
structure TaskItem where
  ID : Nat
  Name : String
  Typ : String
  Params : List (String × ParamValue)
  deriving DecidableEq

/-- TaskResult. -/
structure TaskResult where
  ItemID : Nat
  Status : ResultStatus
  Value : String
  Message : String
  Details : String
  Duration : Int
  deriving DecidableEq

/-- Clock readings; `0` is the zero `time.Time`. -/
abbrev Time := Nat

/-- State of a `chan struct{}` that is never sent on. -/
inductive Chan
  | opened
  | closed
  deriving DecidableEq

/-- The builtin `close`: closing a closed channel panics (`none`). -/
def Chan.close : Chan → Option Chan
  | .opened => some .closed
  | .closed => none

/-- Task. -/
structure Task where
  ID : String
  Status : TaskStatus
  Items : List TaskItem
  Results : List TaskResult
  Error : String
  StartTime : Time
  EndTime : Time
  Timeout : Int
  Cancel : Chan
  deriving DecidableEq

/-- TaskCallback. -/
structure TaskCallback where
  TaskID : String
  Status : TaskStatus
  Results : List TaskResult
  StartTime : Time
  EndTime : Time
  Error : String
  deriving DecidableEq

/-- The test `status == Completed || status == Failed || status == Canceled`
used by `UpdateTaskStatus` and `cleanExpiredTasks`. -/
def TaskStatus.isTerminal : TaskStatus → Bool
  | .Completed => true
  | .Failed => true
  | .Canceled => true
  | _ => false

/-- TaskCache: the map from task id to task, and the retention window. -/
structure TaskCache where
  tasks : String → Option Task
  maxAge : Nat

/-- One hour, in clock ticks (nanoseconds). -/
def Hour : Nat := 3600 * 1000000000

/-- NewTaskCache. -/
def NewTaskCache : TaskCache :=
  { tasks := fun _ => none, maxAge := 24 * Hour }

/-- Assignment `c.tasks[id] = task`. -/
def TaskCache.setTask (c : TaskCache) (id : String) (task : Task) : TaskCache :=
  { c with tasks := fun k => if k = id then some task else c.tasks k }

/-- AddTask. -/
def TaskCache.AddTask (c : TaskCache) (task : Task) : TaskCache :=
  c.setTask task.ID task

/-- GetTask: `some task` when the id is present (`exists = true`). -/
def TaskCache.GetTask (c : TaskCache) (taskID : String) : Option Task :=
  c.tasks taskID

/-- UpdateTaskStatus. -/
def TaskCache.UpdateTaskStatus (c : TaskCache) (taskID : String) (status : TaskStatus)
    (now : Time) : TaskCache × Bool :=
  match c.tasks taskID with
  | none => (c, false)
  | some task =>
    let task1 := { task with Status := status }
    let task2 := if status = .Completed ∨ status = .Failed ∨ status = .Canceled
      then { task1 with EndTime := now } else task1
    (c.setTask taskID task2, true)

/-- UpdateTaskResult. -/
def TaskCache.UpdateTaskResult (c : TaskCache) (taskID : String)
    (results : List TaskResult) : TaskCache × Bool :=
  match c.tasks taskID with
  | none => (c, false)
  | some task => (c.setTask taskID { task with Results := results }, true)

/-- CancelTask; `none` is the panic of `close` on a closed channel. -/
def TaskCache.CancelTask (c : TaskCache) (taskID : String) (now : Time) :
    Option (TaskCache × Bool) :=
  match c.tasks taskID with
  | none => some (c, false)
  | some task =>
    if task.Status ≠ .Running then some (c, false)
    else
      match task.Cancel.close with
      | none => none
      | some ch =>
        some (c.setTask taskID
          { task with Cancel := ch, Status := .Canceled, EndTime := now }, true)

/-- cleanExpiredTasks. -/
def TaskCache.cleanExpiredTasks (c : TaskCache) (now : Time) : TaskCache :=
  { c with tasks := fun id =>
      match c.tasks id with
      | none => none
      | some task =>
        if (task.Status = .Completed ∨ task.Status = .Failed ∨ task.Status = .Canceled)
            ∧ task.EndTime + c.maxAge < now
        then none else some task }

/-! ## biz/executor/executor.go, factory.go -/

/-- What an executor gets from outside during one call: the backend's answer
and how the context behaved while the call was in flight, as one code. -/
abbrev World := Nat

/-- Executor: the interface `Name()`, `Execute(ctx, item)`; `Execute` returns
the pair `(result, err)`. -/
structure Executor where
  Name : String
  Execute : World → TaskItem → TaskResult × Option String

/-- ExecutorFactory. -/
structure ExecutorFactory where
  executors : String → Option Executor

/-- NewExecutorFactory. -/
def NewExecutorFactory : ExecutorFactory :=
  { executors := fun _ => none }

/-- Register. -/
def ExecutorFactory.Register (f : ExecutorFactory) (executor : Executor) : ExecutorFactory :=
  { executors := fun k => if k = executor.Name then some executor else f.executors k }

/-- Create. -/
def ExecutorFactory.Create (f : ExecutorFactory) (executorType : String) :
    Except String Executor :=
  match f.executors executorType with
  | some executor => .ok executor
  | none => .error ("executor not found: " ++ executorType)

/-! ## biz/service/task_manager.go -/

/-- The non-nil values of `ctx.Err()`. -/
inductive CtxErr
  | Canceled
  | DeadlineExceeded
  deriving DecidableEq

/-- Program counter of one `executeTask` goroutine; the comments give the
source line the goroutine is about to execute. -/
inductive Pc
  /-- line 97: blocked on `tm.workerPool <- struct{}{}` -/
  | acquire
  /-- lines 104-126: mark Running, derive the context, fork the watcher -/
  | start
  /-- lines 128-132: next iteration of the loop over the remaining items -/
  | loopTop (rest : List TaskItem) (results : List TaskResult)
  /-- lines 135-148: `executeTaskItem` of `item` is in flight -/
  | execItem (item : TaskItem) (rest : List TaskItem) (results : List TaskResult)
  /-- line 152: `UpdateTaskResult` -/
  | persist (results : List TaskResult)
  /-- line 155: `ctx.Err() == context.Canceled` -/
  | checkCanceled
  /-- line 157: `task.Status != TaskStatusCanceled` -/
  | guardCanceled
  /-- line 158 -/
  | setCanceled
  /-- line 160: `ctx.Err() == context.DeadlineExceeded` -/
  | checkDeadline
  /-- line 162 -/
  | setFailed
  /-- line 163 -/
  | setError
  /-- line 166 -/
  | setCompleted
  /-- line 170: `sendCallback` -/
  | callback
  /-- return: the deferred `cancel()` and the release of the pool slot -/
  | deferred
  /-- the goroutine has returned -/
  | done
  deriving DecidableEq

/-- Local state of one `executeTask` goroutine.  `ctx` is `ctx.Err()`;
`err1` and `err2` remember what the two reads of `ctx.Err()` at lines 155 and
160 returned. -/
structure Run where
  pc : Pc
  ctx : Option CtxErr
  timeout : Int
  err1 : Option CtxErr
  err2 : Option CtxErr
  deriving DecidableEq

/-- TaskManager, together with the goroutines it has started (`runs`) and the
callbacks it has posted (`sent`).  `workerPool` is the number of tokens in the
buffered channel and `maxWorkers` its capacity. -/
structure TaskManager where
  cache : TaskCache
  executorFactory : ExecutorFactory
  workerPool : Nat
  maxWorkers : Nat
  callbackURL : String
  runs : String → Option Run
  sent : List TaskCallback

/-- GetTaskManager: the fresh manager built from the configuration. -/
def GetTaskManager (factory : ExecutorFactory) (confMaxWorkers : Int)
    (callbackURL : String) : TaskManager :=
  { cache := NewTaskCache
    executorFactory := factory
    workerPool := 0
    maxWorkers := if confMaxWorkers ≤ 0 then 10 else confMaxWorkers.toNat
    callbackURL := callbackURL
    runs := fun _ => none
    sent := [] }

/-- Assignment of the goroutine state of task `id`. -/
def TaskManager.setRun (tm : TaskManager) (id : String) (r : Run) : TaskManager :=
  { tm with runs := fun k => if k = id then some r else tm.runs k }

/-- The goroutine state at `go tm.executeTask(task)`. -/
def Run.init : Run :=
  { pc := .acquire, ctx := none, timeout := 0, err1 := none, err2 := none }

/-- CreateTask: the new manager state, the returned task and the returned
error. -/
def TaskManager.CreateTask (tm : TaskManager) (taskID : String) (items : List TaskItem)
    (timeout : Int) (now : Time) : TaskManager × Task × Option String :=
  match tm.cache.GetTask taskID with
  | some existingTask => (tm, existingTask, some ("任务已存在: " ++ taskID))
  | none =>
    let task : Task :=
      { ID := taskID, Status := .Pending, Items := items, Results := [], Error := "",
        StartTime := now, EndTime := 0, Timeout := timeout, Cancel := .opened }
    (({ tm with cache := tm.cache.AddTask task }).setRun taskID Run.init, task, none)

/-- GetTask of the manager. -/
def TaskManager.GetTask (tm : TaskManager) (taskID : String) : Except String Task :=
  match tm.cache.GetTask taskID with
  | none => .error ("任务不存在: " ++ taskID)
  | some task => .ok task

/-- CancelTask of the manager: the new state and the returned error; `none`
when the store's `CancelTask` panics. -/
def TaskManager.CancelTask (tm : TaskManager) (taskID : String) (now : Time) :
    Option (TaskManager × Option String) :=
  match tm.cache.CancelTask taskID now with
  | none => none
  | some (c, success) =>
    if !success then
      some ({ tm with cache := c },
        some ("取消任务失败: " ++ taskID ++ "，任务可能不存在或已完成"))
    else some ({ tm with cache := c }, none)

/-- Wrap-around of a 64-bit signed integer. -/
def wrapInt64 (x : Int) : Int := (x + 2 ^ 63) % 2 ^ 64 - 2 ^ 63

/-- `time.Second`, in nanoseconds. -/
def Second : Int := 1000000000

/-- Lines 107-110: the duration of the run's context. -/
def taskTimeout (t : Int) : Int :=
  let timeout := wrapInt64 (t * Second)
  if timeout ≤ 0 then 30 * Second else timeout

/-- What the environment supplies to one step of a goroutine: the clock
reading, the outside world seen by an executor call, and the milliseconds
measured by `time.Since(startTime)`. -/
structure Env where
  now : Time
  world : World
  elapsed : Int
  deriving DecidableEq

/-- executeTaskItem. -/
def TaskManager.executeTaskItem (tm : TaskManager) (env : Env) (item : TaskItem) :
    Except String TaskResult :=
  match tm.executorFactory.Create item.Typ with
  | .error err => .error ("创建执行器失败: " ++ err)
  | .ok executor =>
    match executor.Execute env.world item with
    | (_, some err) => .error err
    | (executionResult, none) =>
      .ok { ItemID := item.ID, Status := executionResult.Status,
            Value := executionResult.Value, Message := executionResult.Message,
            Details := executionResult.Details, Duration := env.elapsed }

/-- Lines 135-148: the result the loop appends for `item`. -/
def TaskManager.itemResult (tm : TaskManager) (env : Env) (item : TaskItem) : TaskResult :=
  match tm.executeTaskItem env item with
  | .error err =>
    { ItemID := item.ID, Status := .Failed, Value := "",
      Message := "执行失败: " ++ err, Details := "任务项执行错误: " ++ err, Duration := 0 }
  | .ok result => result

/-- The error text written at line 163. -/
def timeoutError : String := "任务执行超时"

/-- The callback body built by `sendCallback`. -/
def callbackOf (task : Task) : TaskCallback :=
  { TaskID := task.ID, Status := task.Status, Results := task.Results,
    StartTime := task.StartTime, EndTime := task.EndTime, Error := task.Error }

/-- One atomic step of the goroutine `executeTask(task)` of task `id`.  A
goroutine that is blocked (pool full) or has returned does not move. -/
def TaskManager.executeTask (tm : TaskManager) (id : String) (env : Env) : TaskManager :=
  match tm.runs id, tm.cache.tasks id with
  | some r, some task =>
    match r.pc with
    | .acquire =>
      if tm.workerPool < tm.maxWorkers then
        ({ tm with workerPool := tm.workerPool + 1 }).setRun id { r with pc := .start }
      else tm
    | .start =>
      ({ tm with cache := (tm.cache.UpdateTaskStatus id .Running env.now).1 }).setRun id
        { r with pc := .loopTop task.Items [], ctx := none, timeout := taskTimeout task.Timeout }
    | .loopTop [] results => tm.setRun id { r with pc := .persist results }
    | .loopTop (item :: rest) results =>
      if r.ctx ≠ none then tm.setRun id { r with pc := .persist results }
      else tm.setRun id { r with pc := .execItem item rest results }
    | .execItem item rest results =>
      tm.setRun id { r with pc := .loopTop rest (results ++ [tm.itemResult env item]) }
    | .persist results =>
      ({ tm with cache := (tm.cache.UpdateTaskResult id results).1 }).setRun id
        { r with pc := .checkCanceled }
    | .checkCanceled =>
      if r.ctx = some .Canceled then
        tm.setRun id { r with pc := .guardCanceled, err1 := r.ctx }
      else tm.setRun id { r with pc := .checkDeadline, err1 := r.ctx }
    | .guardCanceled =>
      if task.Status ≠ .Canceled then tm.setRun id { r with pc := .setCanceled }
      else tm.setRun id { r with pc := .callback }
    | .setCanceled =>
      ({ tm with cache := (tm.cache.UpdateTaskStatus id .Canceled env.now).1 }).setRun id
        { r with pc := .callback }
    | .checkDeadline =>
      if r.ctx = some .DeadlineExceeded then
        tm.setRun id { r with pc := .setFailed, err2 := r.ctx }
      else tm.setRun id { r with pc := .setCompleted, err2 := r.ctx }
    | .setFailed =>
      ({ tm with cache := (tm.cache.UpdateTaskStatus id .Failed env.now).1 }).setRun id
        { r with pc := .setError }
    | .setError =>
      ({ tm with cache := tm.cache.setTask id { task with Error := timeoutError } }).setRun id
        { r with pc := .callback }
    | .setCompleted =>
      ({ tm with cache := (tm.cache.UpdateTaskStatus id .Completed env.now).1 }).setRun id
        { r with pc := .callback }
    | .callback =>
      ({ tm with sent := if tm.callbackURL = "" then tm.sent
                         else tm.sent ++ [callbackOf task] }).setRun id
        { r with pc := .deferred }
    | .deferred =>
      ({ tm with workerPool := tm.workerPool - 1 }).setRun id
        { r with pc := .done, ctx := some (r.ctx.getD .Canceled) }
    | .done => tm
  | _, _ => tm

/-- Whether the context of the goroutine exists and the goroutine has not
returned: from the end of `start` up to the deferred `cancel()`. -/
def Pc.ctxLive : Pc → Bool
  | .acquire => false
  | .start => false
  | .done => false
  | _ => true

/-- The timer of `context.WithTimeout` fires. -/
def TaskManager.deadline (tm : TaskManager) (id : String) : TaskManager :=
  match tm.runs id with
  | some r =>
    if r.pc.ctxLive ∧ r.ctx = none then tm.setRun id { r with ctx := some .DeadlineExceeded }
    else tm
  | none => tm

/-- The watcher goroutine (lines 116-124) receives from the closed `Cancel`
channel and calls `cancel()`. -/
def TaskManager.watch (tm : TaskManager) (id : String) : TaskManager :=
  match tm.runs id, tm.cache.tasks id with
  | some r, some task =>
    if r.pc.ctxLive ∧ r.ctx = none ∧ task.Cancel = .closed then
      tm.setRun id { r with ctx := some .Canceled }
    else tm
  | _, _ => tm

/-- The atomic actions of the system. -/
inductive Event
  /-- a caller invokes `CreateTask` -/
  | create (taskID : String) (items : List TaskItem) (timeout : Int) (now : Time)
  /-- a caller invokes `CancelTask` -/
  | cancel (taskID : String) (now : Time)
  /-- the goroutine of the task takes its next step -/
  | run (taskID : String) (env : Env)
  /-- the deadline of the task's context passes -/
  | deadline (taskID : String)
  /-- the watcher of the task's context sees the cancel signal -/
  | watch (taskID : String)
  deriving DecidableEq

/-- One step of the system; `none` is a panic. -/
def TaskManager.step (tm : TaskManager) : Event → Option TaskManager
  | .create taskID items timeout now => some (tm.CreateTask taskID items timeout now).1
  | .cancel taskID now => (tm.CancelTask taskID now).map (·.1)
  | .run taskID env => some (tm.executeTask taskID env)
  | .deadline taskID => some (tm.deadline taskID)
  | .watch taskID => some (tm.watch taskID)

/-- An interleaving: the events are applied from left to right. -/
def TaskManager.exec (tm : TaskManager) : List Event → Option TaskManager
  | [] => some tm
  | e :: es => (tm.step e).bind (fun tm1 => tm1.exec es)

/-! ## biz/service/execute_task.go -/

/-- The duration of the context of the synchronous path
(`ExecuteTaskService.Run`, lines 43-46), from the request timeout. -/
def ExecuteTaskService.runTimeout (reqTimeout : Int) : Int :=
  let timeout := wrapInt64 (reqTimeout * Second)
  if timeout ≤ 0 then 30 * Second else timeout

/-- Modelled from the spec: the generated enum `candyAgent.TaskStatus`
(package hertz_gen/candyAgent, not under src/); the constants are those the
services name. -/
inductive RespTaskStatus
  | UNKNOWN
  | PENDING
  | RUNNING
  | COMPLETED
  | FAILED
  | CANCELED
  deriving DecidableEq

/-- Modelled from the spec: the generated enum `candyAgent.ResultStatus`
(package hertz_gen/candyAgent, not under src/); the constants are those
`Run` and `convertResultStatus` name. -/
inductive RespResultStatus
  | UNKNOWN
  | NORMAL
  | WARNING
  | FAILED
  deriving DecidableEq

/-- Modelled from the spec: the generated request item `candyAgent.TaskItem`
(package hertz_gen/candyAgent, not under src/), with the fields `Run` reads;
`Id` is an integer of the generated width. -/
structure ReqTaskItem where
  Id : Int
  Name : String
  Typ : String
  Params : List (String × ParamValue)
  deriving DecidableEq

/-- Modelled from the spec: the generated `candyAgent.TaskRequest` (package
hertz_gen/candyAgent, not under src/), with the fields `Run` reads. -/
structure TaskRequest where
  TaskId : String
  Items : List ReqTaskItem
  Timeout : Int
  deriving DecidableEq

/-- Modelled from the spec: the generated `candyAgent.TaskResult` (package
hertz_gen/candyAgent, not under src/), with the fields `Run` writes. -/
structure RespTaskResult where
  ItemId : Int
  Status : RespResultStatus
  Message : String
  Details : String
  Duration : Int
  deriving DecidableEq

/-- Modelled from the spec: the generated `candyAgent.TaskResponse` (package
hertz_gen/candyAgent, not under src/), with the fields `Run` writes;
`StartTime` and `EndTime` are the clock readings that `Run` formats. -/
structure TaskResponse where
  TaskId : String
  Status : RespTaskStatus
  Results : List RespTaskResult
  StartTime : Time
  EndTime : Time
  Message : String
  deriving DecidableEq

/-- convertResultStatus, on the four declared constants (the `default`
branch answers the other strings). -/
def ExecuteTaskService.convertResultStatus : ResultStatus → RespResultStatus
  | .Normal => .NORMAL
  | .Warning => .WARNING
  | .Critical => .FAILED
  | .Failed => .FAILED

/-- The text of a non-nil `ctx.Err()`. -/
def CtxErr.Error : CtxErr → String
  | .Canceled => "context canceled"
  | .DeadlineExceeded => "context deadline exceeded"

/-- What the environment supplies while one item of the synchronous path is
processed: `ctx.Err()` at line 68, the outside world seen by the executor
call, and the milliseconds measured at lines 84 and 92. -/
structure SyncEnv where
  ctxErr : Option CtxErr
  world : World
  sinceStart : Int
  executionDuration : Int
  deriving DecidableEq

/-- The clock readings of `Run` outside the loop: lines 31, 118 and 120. -/
structure SyncClock where
  startTime : Time
  endTime : Time
  total : Int
  deriving DecidableEq

/-- Lines 55-65: the model item built from a request item; `uint(item.Id)`
wraps into the 64-bit unsigned range. -/
def ExecuteTaskService.modelItem (item : ReqTaskItem) : TaskItem :=
  { ID := (item.Id % 2 ^ 64).toNat, Name := item.Name, Typ := item.Typ, Params := item.Params }

/-- Lines 75-114 for one item: whether the loop took one of its two error
branches (the result is then built from the error), and the result it
appends. -/
def ExecuteTaskService.runItem (f : ExecutorFactory) (senv : SyncEnv) (item : ReqTaskItem) :
    Bool × RespTaskResult :=
  match f.Create item.Typ with
  | .error err =>
    (true, { ItemId := item.Id, Status := .FAILED,
             Message := "Failed to get executor: " ++ err,
             Details := "Error creating executor of type " ++ item.Typ ++ ": " ++ err,
             Duration := senv.sinceStart })
  | .ok executor =>
    match executor.Execute senv.world (ExecuteTaskService.modelItem item) with
    | (_, some err) =>
      (true, { ItemId := item.Id, Status := .FAILED,
               Message := "Execution failed: " ++ err,
               Details := "Error executing task item: " ++ err,
               Duration := senv.executionDuration })
    | (result, none) =>
      (false, { ItemId := item.Id,
                Status := ExecuteTaskService.convertResultStatus result.Status,
                Message := result.Message, Details := result.Details,
                Duration := result.Duration })

/-- Lines 51-115: the loop over the items from the `i`-th on; `envs i` is the
environment of the `i`-th item. -/
def ExecuteTaskService.loop (f : ExecutorFactory) (envs : Nat → SyncEnv) :
    Nat → List ReqTaskItem → TaskResponse → TaskResponse
  | _, [], resp => resp
  | i, item :: rest, resp =>
    match (envs i).ctxErr with
    | some err => { resp with Status := .FAILED, Message := "Task interrupted: " ++ err.Error }
    | none =>
      ExecuteTaskService.loop f envs (i + 1) rest
        { resp with Results := resp.Results ++ [(ExecuteTaskService.runItem f (envs i) item).2] }

/-- ExecuteTaskService.Run: the response and the returned error. -/
def ExecuteTaskService.Run (f : ExecutorFactory) (req : TaskRequest) (clock : SyncClock)
    (envs : Nat → SyncEnv) : TaskResponse × Option String :=
  let resp0 : TaskResponse :=
    { TaskId := req.TaskId, Status := .COMPLETED, Results := [],
      StartTime := clock.startTime, EndTime := 0, Message := "" }
  let resp1 := ExecuteTaskService.loop f envs 0 req.Items resp0
  let resp2 := { resp1 with EndTime := clock.endTime,
                            Message := "Task completed in " ++ toString clock.total ++ " ms" }
  let hasFailures := resp2.Results.any (fun result => result.Status = .FAILED)
  if resp2.Status ≠ .FAILED ∧ hasFailures then
    ({ resp2 with Message := "Task completed with some failures" }, none)
  else (resp2, none)

/-! ## biz/executor/ssh.go -/

/-- The type assertion `item.Params[key].(string)`: the string stored under
the key, when there is one. -/
def TaskItem.paramString (item : TaskItem) (key : String) : Option String :=
  match item.Params.lookup key with
  | some (.str s) => some s
  | _ => none

/-- SSHExecutor: `since` is the measurement `time.Since(startTime)` in
milliseconds, and `remote` is everything from line 82 on (key parsing, dial,
session, command, threshold), a function of the outside world and of the
decoded host, port, username, password, private key and command. -/
structure SSHExecutor where
  since : World → Int
  remote : World → String → Int → String → String → String → String → TaskItem →
    TaskResult × Option String

/-- Execute of the SSH executor, lines 35-80, followed by `remote`. -/
def SSHExecutor.Execute (e : SSHExecutor) (w : World) (item : TaskItem) :
    TaskResult × Option String :=
  let result : TaskResult :=
    { ItemID := item.ID, Status := .Normal, Value := "", Message := "", Details := "",
      Duration := 0 }
  match item.paramString "host" with
  | none =>
    ({ result with Status := .Failed, Message := "Missing host parameter",
                   Duration := e.since w }, some "missing host parameter")
  | some host =>
    let port : Int :=
      match item.Params.lookup "port" with
      | some (.num portParam) => portParam
      | _ => 22
    match item.paramString "username" with
    | none =>
      ({ result with Status := .Failed, Message := "Missing username parameter",
                     Duration := e.since w }, some "missing username parameter")
    | some username =>
      let password := (item.paramString "password").getD ""
      let privateKey := (item.paramString "private_key").getD ""
      if password = "" ∧ privateKey = "" then
        ({ result with Status := .Failed,
                       Message := "Missing authentication method (password or private_key)",
                       Duration := e.since w }, some "missing authentication method")
      else
        match item.paramString "command" with
        | none =>
          ({ result with Status := .Failed, Message := "Missing command parameter",
                         Duration := e.since w }, some "missing command parameter")
        | some command => e.remote w host port username password privateKey command item

/-- The SSH executor as an `Executor`; `Name()` is "ssh". -/
def SSHExecutor.toExecutor (e : SSHExecutor) : Executor :=
  { Name := "ssh", Execute := e.Execute }

/-! ## biz/model/alert_rule.go, biz/dal/alertrule/k8s_manager.go,
biz/service/sync_alert_rule.go -/

/-- AlertRuleTypePrometheus. -/
def AlertRuleTypePrometheus : String := "prometheus"

/-- AlertRuleTypeVM. -/
def AlertRuleTypeVM : String := "vm"

/-- `schema.GroupVersionResource`. -/
structure GroupVersionResource where
  Group : String
  Version : String
  Resource : String
  deriving DecidableEq

/-- vmRuleGVR. -/
def vmRuleGVR : GroupVersionResource :=
  { Group := "operator.victoriametrics.com", Version := "v1beta1", Resource := "vmrules" }

/-- prometheusRuleGVR. -/
def prometheusRuleGVR : GroupVersionResource :=
  { Group := "monitoring.coreos.com", Version := "v1", Resource := "prometheusrules" }

/-- AlertRule, with the fields `ListRules` fills from its arguments. -/
structure AlertRule where
  Name : String
  Typ : String
  Namespace : String
  deriving DecidableEq

/-- K8sRuleManager: the dynamic client, as the function that lists the names
of the resources of a kind in a namespace under a label selector. -/
structure K8sRuleManager where
  client : GroupVersionResource → String → String → Except String (List String)

/-- getGVRByType. -/
def K8sRuleManager.getGVRByType (_m : K8sRuleManager) (ruleType : String) :
    Except String GroupVersionResource :=
  if ruleType = "victoriaMetrics" then .ok vmRuleGVR
  else if ruleType = "prometheus" then .ok prometheusRuleGVR
  else .error ("unsupported rule type: " ++ ruleType)

/-- ListRules. -/
def K8sRuleManager.ListRules (m : K8sRuleManager) (ruleType ns labelSelector : String) :
    Except String (List AlertRule) :=
  match m.getGVRByType ruleType with
  | .error err => .error err
  | .ok gvr =>
    let ns1 := if ns = "" then "monitoring" else ns
    match m.client gvr ns1 labelSelector with
    | .error err => .error err
    | .ok names =>
      .ok (names.map fun name => { Name := name, Typ := ruleType, Namespace := ns1 })

/-- The rule types `SyncService.Run` queries (line 50). -/
def SyncService.ruleTypes : List String := ["vm", "prometheus"]

/-- SyncService.Run over an initialised rule manager: the rules of the
response, from the `Namespace` and `ConfigMap` of the request. -/
def SyncService.Run (m : K8sRuleManager) (reqNamespace reqConfigMap : String) : List AlertRule :=
  let labelSelector0 := "app=candy-agent,managed-by=candy-agent"
  let labelSelector :=
    if reqConfigMap ≠ "" then labelSelector0 ++ ",config-map=" ++ reqConfigMap
    else labelSelector0
  SyncService.ruleTypes.foldl
    (fun allRules ruleType =>
      let ns := if reqNamespace = "" then "monitoring" else reqNamespace
      match m.ListRules ruleType ns labelSelector with
      | .error _ => allRules
      | .ok rules => allRules ++ rules)
    []

/-! ## biz/executor/prometheus.go, biz/executor/vm.go: the vector threshold check -/

/-- The variables of the loop over `allValues` (prometheus.go lines 104-106,
vm.go lines 176-178); an exceeding node is kept as the pair the code
formats. -/
structure VectorScan (α : Type) where
  exceedingNodes : List (String × α)
  highestValue : α
  highestInstance : String

/-- One iteration of the loop (prometheus.go lines 108-119, vm.go lines
180-190); the value is `none` when `ParseFloat` fails. -/
def scanInstance {α : Type} [LT α] [DecidableRel (fun a b : α => a < b)] (threshold : α)
    (s : VectorScan α) : String × Option α → VectorScan α
  | (_, none) => s
  | (node, some valueFloat) =>
    if threshold < valueFloat then
      let s1 := { s with exceedingNodes := s.exceedingNodes ++ [(node, valueFloat)] }
      if s.highestValue < valueFloat then
        { s1 with highestValue := valueFloat, highestInstance := node }
      else s1
    else s

/-- The loop over `allValues`, in the order the map is ranged over; the
float64 values are taken in any ordered type with a zero. -/
def scanVector {α : Type} [LT α] [DecidableRel (fun a b : α => a < b)] [Zero α] (threshold : α)
    (allValues : List (String × Option α)) : VectorScan α :=
  allValues.foldl (scanInstance threshold)
    { exceedingNodes := [], highestValue := 0, highestInstance := "" }

/-- The status after the vector check of a result that was Normal before it
(prometheus.go line 122, vm.go line 193). -/
def vectorStatus {α : Type} [LT α] [DecidableRel (fun a b : α => a < b)] [Zero α]
    (threshold : α) (allValues : List (String × Option α)) : ResultStatus :=
  if (scanVector threshold allValues).exceedingNodes.length > 0 then .Warning else .Normal

/-! ## Sequences of store operations -/

/-- The operations of the task store, as its callers invoke them. -/
inductive StoreOp
  /-- `AddTask` of the Pending task built by `CreateTask` -/
  | add (taskID : String) (items : List TaskItem) (timeout : Int) (now : Time)
  | updateStatus (taskID : String) (status : TaskStatus) (now : Time)
  | updateResult (taskID : String) (results : List TaskResult)
  | cancel (taskID : String) (now : Time)

/-- The Pending task built at lines 58-66 of `CreateTask`. -/
def newTask (taskID : String) (items : List TaskItem) (timeout : Int) (now : Time) : Task :=
  { ID := taskID, Status := .Pending, Items := items, Results := [], Error := "",
    StartTime := now, EndTime := 0, Timeout := timeout, Cancel := .opened }

/-- One store operation; `none` is a panic. -/
def TaskCache.apply (c : TaskCache) : StoreOp → Option TaskCache
  | .add taskID items timeout now => some (c.AddTask (newTask taskID items timeout now))
  | .updateStatus taskID status now => some (c.UpdateTaskStatus taskID status now).1
  | .updateResult taskID results => some (c.UpdateTaskResult taskID results).1
  | .cancel taskID now => (c.CancelTask taskID now).map (·.1)

/-- A sequence of store operations, applied from left to right. -/
def TaskCache.applyAll (c : TaskCache) : List StoreOp → Option TaskCache
  | [] => some c
  | op :: ops => (c.apply op).bind (fun c1 => c1.applyAll ops)

/-! ## The effect of a step on one task and its goroutine -/

/-- The task after `UpdateTaskStatus` has been applied to it. -/
def Task.withStatus (task : Task) (status : TaskStatus) (now : Time) : Task :=
  if status = .Completed ∨ status = .Failed ∨ status = .Canceled
  then { task with Status := status, EndTime := now } else { task with Status := status }

/-- The id an event is about. -/
def Event.target : Event → String
  | .create taskID _ _ _ => taskID
  | .cancel taskID _ => taskID
  | .run taskID _ => taskID
  | .deadline taskID => taskID
  | .watch taskID => taskID

/-- What one step of `executeTask` does to the task it runs and to its own
local state (a restatement of `TaskManager.executeTask`, see
`executeTask_view`). -/
def localRun (tm : TaskManager) (env : Env) (task : Task) (r : Run) : Task × Run :=
  match r.pc with
  | .acquire =>
    if tm.workerPool < tm.maxWorkers then (task, { r with pc := .start }) else (task, r)
  | .start =>
    (task.withStatus .Running env.now,
      { r with pc := .loopTop task.Items [], ctx := none, timeout := taskTimeout task.Timeout })
  | .loopTop [] results => (task, { r with pc := .persist results })
  | .loopTop (item :: rest) results =>
    if r.ctx ≠ none then (task, { r with pc := .persist results })
    else (task, { r with pc := .execItem item rest results })
  | .execItem item rest results =>
    (task, { r with pc := .loopTop rest (results ++ [tm.itemResult env item]) })
  | .persist results => ({ task with Results := results }, { r with pc := .checkCanceled })
  | .checkCanceled =>
    if r.ctx = some .Canceled then (task, { r with pc := .guardCanceled, err1 := r.ctx })
    else (task, { r with pc := .checkDeadline, err1 := r.ctx })
  | .guardCanceled =>
    if task.Status ≠ .Canceled then (task, { r with pc := .setCanceled })
    else (task, { r with pc := .callback })
  | .setCanceled => (task.withStatus .Canceled env.now, { r with pc := .callback })
  | .checkDeadline =>
    if r.ctx = some .DeadlineExceeded then (task, { r with pc := .setFailed, err2 := r.ctx })
    else (task, { r with pc := .setCompleted, err2 := r.ctx })
  | .setFailed => (task.withStatus .Failed env.now, { r with pc := .setError })
  | .setError => ({ task with Error := timeoutError }, { r with pc := .callback })
  | .setCompleted => (task.withStatus .Completed env.now, { r with pc := .callback })
  | .callback => (task, { r with pc := .deferred })
  | .deferred => (task, { r with pc := .done, ctx := some (r.ctx.getD .Canceled) })
  | .done => (task, r)

/-- What an event about a task does to that task and its goroutine; `none` is
a panic (a restatement of `TaskManager.step`, see `step_view`). -/
def localStep (tm : TaskManager) (e : Event) (task : Task) (r : Run) : Option (Task × Run) :=
  match e with
  | .create _ _ _ _ => some (task, r)
  | .cancel _ now =>
    if task.Status ≠ .Running then some (task, r)
    else
      match task.Cancel.close with
      | none => none
      | some ch => some ({ task with Cancel := ch, Status := .Canceled, EndTime := now }, r)
  | .run _ env => some (localRun tm env task r)
  | .deadline _ =>
    if r.pc.ctxLive ∧ r.ctx = none then some (task, { r with ctx := some .DeadlineExceeded })
    else some (task, r)
  | .watch _ =>
    if r.pc.ctxLive ∧ r.ctx = none ∧ task.Cancel = .closed then
      some (task, { r with ctx := some .Canceled })
    else some (task, r)

/-- Every stored task has its goroutine, and every goroutine its task. -/
def Paired (tm : TaskManager) : Prop :=
  ∀ k, tm.cache.tasks k = none ↔ tm.runs k = none

/-- The cancel channel of a Running task is open, and a task whose goroutine
has not yet marked it Running is Pending with its channel open. -/
def SignalInv (t : Task) (r : Run) : Prop :=
  (t.Status = .Running → t.Cancel = .opened) ∧
  (r.pc = .acquire ∨ r.pc = .start → t.Status = .Pending ∧ t.Cancel = .opened)

/-- Bookkeeping of the loop: the results gathered so far answer, one by one
and in order, to the items already passed (`Q` relates an item to its
result); when the loop stopped before the last item, the context was done. -/
def LoopInv (Q : TaskItem → TaskResult → Prop) (t : Task) (r : Run) : Prop :=
  match r.pc with
  | .acquire => t.Results = []
  | .start => t.Results = []
  | .loopTop rest acc =>
    t.Results = [] ∧ ∃ done, t.Items = done ++ rest ∧ List.Forall₂ Q done acc
  | .execItem item rest acc =>
    t.Results = [] ∧ ∃ done, t.Items = done ++ item :: rest ∧ List.Forall₂ Q done acc
  | .persist acc =>
    t.Results = [] ∧ ∃ done rest, t.Items = done ++ rest ∧ List.Forall₂ Q done acc ∧
      (rest ≠ [] → r.ctx ≠ none)
  | .checkCanceled =>
    ∃ done rest, t.Items = done ++ rest ∧ List.Forall₂ Q done t.Results ∧
      (rest ≠ [] → r.ctx ≠ none)
  | _ =>
    ∃ done rest, t.Items = done ++ rest ∧ List.Forall₂ Q done t.Results ∧
      (rest ≠ [] → r.err1 ≠ none)

/-- Lines 155-167 as a function of the two values read from `ctx.Err()`. -/
def finalStatus (e1 e2 : Option CtxErr) : TaskStatus :=
  if e1 = some .Canceled then .Canceled
  else if e2 = some .DeadlineExceeded then .Failed else .Completed

/-- Bookkeeping of the final status computation. -/
def FinalInv (t : Task) (r : Run) : Prop :=
  match r.pc with
  | .guardCanceled => r.err1 = some .Canceled
  | .setCanceled => r.err1 = some .Canceled
  | .checkDeadline => r.err1 ≠ some .Canceled ∧ (r.err1 ≠ none → r.ctx = r.err1)
  | .setFailed => r.err1 ≠ some .Canceled ∧ r.err2 = some .DeadlineExceeded
  | .setError => r.err1 ≠ some .Canceled ∧ r.err2 = some .DeadlineExceeded ∧ t.Status = .Failed
  | .setCompleted => r.err1 = none ∧ r.err2 ≠ some .DeadlineExceeded
  | .callback | .deferred | .done =>
    t.Status = finalStatus r.err1 r.err2 ∧ (t.Status = .Failed → t.Error = timeoutError) ∧
      (r.err1 = some .DeadlineExceeded → r.err2 = some .DeadlineExceeded)
  | _ => True

/-- What relates an item to the result the loop records for it. -/
def Recorded (f : ExecutorFactory) (item : TaskItem) (res : TaskResult) : Prop :=
  res.ItemID = item.ID ∧ (f.executors item.Typ = none → res.Status = .Failed)

/-- The context of the goroutine is still live, and was live at both reads. -/
def CalmInv (_t : Task) (r : Run) : Prop :=
  r.err1 = none ∧ r.err2 = none ∧ (r.pc ≠ .done → r.ctx = none)

/-- The event is neither the expiry of a deadline nor a watcher's cancel. -/
def Event.keepsContext : Event → Prop
  | .deadline _ => False
  | .watch _ => False
  | _ => True

/-- Whether `Create` finds an executor for the item and that executor, in the
world `w`, returns no error. -/
def ExecutorFactory.succeeds (f : ExecutorFactory) (w : World) (item : TaskItem) : Bool :=
  match f.executors item.Typ with
  | some executor => (executor.Execute w item).2.isNone
  | none => false

/-- Whether the event is a `CancelTask` of `id`. -/
def Event.cancels (id : String) : Event → Bool
  | .cancel k _ => k = id
  | _ => false

/-- The result carries what a registered executor returned without error for
the item. -/
def ReportedBy (f : ExecutorFactory) (item : TaskItem) (res : TaskResult) : Prop :=
  ∃ executor w, f.executors item.Typ = some executor ∧ (executor.Execute w item).2 = none ∧
    res.ItemID = item.ID ∧ res.Status = (executor.Execute w item).1.Status ∧
    res.Value = (executor.Execute w item).1.Value ∧
    res.Message = (executor.Execute w item).1.Message ∧
    res.Details = (executor.Execute w item).1.Details

/-- Nobody has cancelled the task and its context is live. -/
def QuietInv (t : Task) (r : Run) : Prop :=
  t.Cancel = .opened ∧ CalmInv t r

/-- The event is neither the expiry of a deadline nor a `CancelTask`. -/
def Event.keepsQuiet : Event → Prop
  | .deadline _ => False
  | .cancel _ _ => False
  | _ => True

/-- Bookkeeping after the deadline has passed while `item` was executing,
with `acc` gathered before it and `rest` still to come. -/
def ExpiredInv (f : ExecutorFactory) (items : List TaskItem) (item : TaskItem)
    (rest : List TaskItem) (acc : List TaskResult) (t : Task) (r : Run) : Prop :=
  r.ctx = some .DeadlineExceeded ∧ t.Items = items ∧
  match r.pc with
  | .acquire => False
  | .start => False
  | .execItem item1 rest1 acc1 => item1 = item ∧ rest1 = rest ∧ acc1 = acc
  | .loopTop rest1 acc1 => rest1 = rest ∧ ∃ res, acc1 = acc ++ [res] ∧ Recorded f item res
  | .persist acc1 => ∃ res, acc1 = acc ++ [res] ∧ Recorded f item res
  | .checkCanceled => ∃ res, t.Results = acc ++ [res] ∧ Recorded f item res
  | _ => (∃ res, t.Results = acc ++ [res] ∧ Recorded f item res) ∧
      r.err1 = some .DeadlineExceeded

/-- The property of a store: a task has its end time set exactly when its
status is Completed, Failed or Canceled. -/
def EndTimeIffTerminal (c : TaskCache) : Prop :=
  ∀ id t, c.tasks id = some t → (t.EndTime ≠ 0 ↔ t.Status.isTerminal = true)

/-- The clock reading of the operation is not the zero time. -/
def StoreOp.clockPositive : StoreOp → Bool
  | .updateStatus _ _ now => decide (0 < now)
  | .cancel _ now => decide (0 < now)
  | _ => true

/-- The operation does not give a Pending or Running status to a task whose
end time is already set. -/
def StoreOp.keepsEnded (c : TaskCache) : StoreOp → Bool
  | .updateStatus id status _ =>
    status.isTerminal ||
      (match c.tasks id with
       | some t => decide (t.EndTime = 0)
       | none => true)
  | _ => true

/-- The operation does not mark Running a task whose cancel signal has
fired. -/
def StoreOp.keepsFired (c : TaskCache) : StoreOp → Bool
  | .updateStatus id status _ =>
    decide (status ≠ .Running) ||
      (match c.tasks id with
       | some t => decide (t.Cancel = .opened)
       | none => true)
  | _ => true

/-- The condition `P` holds of every operation of the sequence, in the store
it is applied to. -/
def TaskCache.allOps (P : TaskCache → StoreOp → Bool) : TaskCache → List StoreOp → Bool
  | _, [] => true
  | c, op :: ops =>
    P c op &&
      (match c.apply op with
       | some c1 => c1.allOps P ops
       | none => true)

/-- A Running task still has its cancel channel open. -/
def SignalGuard (c : TaskCache) : Prop :=
  ∀ id t, c.tasks id = some t → t.Status = .Running → t.Cancel = .opened

/-- The task canceled by `CancelTask`. -/
def Task.canceled (t : Task) (now : Time) : Task :=
  { t with Cancel := .closed, Status := .Canceled, EndTime := now }

/-- Every stored task and its goroutine satisfy `SignalInv`. -/
def SignalSafe (tm : TaskManager) : Prop :=
  Paired tm ∧ ∀ k t r, tm.cache.tasks k = some t → tm.runs k = some r → SignalInv t r

/-- An upper bound on the number of steps the goroutine of a task still has
to take before it has returned. -/
def stepsLeft (t : Task) (r : Run) : Nat :=
  match r.pc with
  | .acquire => 10 + 2 * t.Items.length
  | .start => 9 + 2 * t.Items.length
  | .loopTop rest _ => 8 + 2 * rest.length
  | .execItem _ rest _ => 9 + 2 * rest.length
  | .persist _ => 7
  | .checkCanceled => 6
  | .checkDeadline => 5
  | .guardCanceled => 4
  | .setFailed => 4
  | .setCanceled => 3
  | .setError => 3
  | .setCompleted => 3
  | .callback => 2
  | .deferred => 1
  | .done => 0

/-- The clock reading used by the event is not the zero time. -/
def Event.clockPositive : Event → Bool
  | .cancel _ now => decide (0 < now)
  | .run _ env => decide (0 < env.now)
  | _ => true

/-- The end time of the task is set exactly when its status is terminal, and
a task whose goroutine has not yet marked it Running is Pending. -/
def EndInv (t : Task) (r : Run) : Prop :=
  (t.EndTime ≠ 0 ↔ t.Status.isTerminal = true) ∧
  (r.pc = .acquire ∨ r.pc = .start → t.Status = .Pending)

/-- What relates an item to the result the loop records for it when the type
of the item has no registered executor. -/
def NamedUnknown (f : ExecutorFactory) (item : TaskItem) (res : TaskResult) : Prop :=
  f.executors item.Typ = none →
    res = { ItemID := item.ID, Status := .Failed, Value := "",
            Message := "执行失败: 创建执行器失败: executor not found: " ++ item.Typ,
            Details := "任务项执行错误: 创建执行器失败: executor not found: " ++ item.Typ,
            Duration := 0 }

/-- The pair the vector check notes for an instance: there is one when the
value parses and exceeds the threshold. -/
def exceeding {α : Type} [LT α] [DecidableRel (fun a b : α => a < b)] (threshold : α)
    (p : String × Option α) : Option (String × α) :=
  match p.2 with
  | some v => if threshold < v then some (p.1, v) else none
  | none => none

/-- Bookkeeping after the loop has found the context done at the turn of
`item`, with `acc` gathered before it and `rest` to come after it: the
goroutine never has an item in flight again, and the results it gathers and
stores are `acc`. -/
def StoppedInv (items : List TaskItem) (item : TaskItem) (rest : List TaskItem)
    (acc : List TaskResult) (t : Task) (r : Run) : Prop :=
  r.ctx ≠ none ∧ t.Items = items ∧
  match r.pc with
  | .acquire => False
  | .start => False
  | .execItem _ _ _ => False
  | .loopTop rest1 acc1 => rest1 = item :: rest ∧ acc1 = acc ∧ t.Results = []
  | .persist acc1 => acc1 = acc ∧ t.Results = []
  | _ => t.Results = acc

/-- Whether a goroutine at this point holds a slot of the worker pool: from
the send at line 97 up to the deferred receive. -/
def Pc.holdsSlot : Pc → Bool
  | .acquire => false
  | .done => false
  | _ => true

/-- Whether the goroutine of task `k` holds a slot of the worker pool. -/
def TaskManager.holds (tm : TaskManager) (k : String) : Bool :=
  match tm.runs k with
  | some r => r.pc.holdsSlot
  | none => false

/-- The tokens in the worker pool are one per goroutine that holds a slot,
and they are no more than the capacity. -/
def PoolInv (tm : TaskManager) : Prop :=
  Paired tm ∧ tm.workerPool ≤ tm.maxWorkers ∧
  ∃ holders : List String, holders.Nodup ∧ holders.length = tm.workerPool ∧
    ∀ k, k ∈ holders ↔ tm.holds k = true

/-- What relates an item to the result the loop records for it, with the
executor call spelled out: the result has the id of the item; when the type
of the item has no registered executor it is the Failed record built from the
error of `Create`; and when an executor is registered it is what that
executor's `Execute` returned for the item in the world of an environment
`env` with `W env`: its status, value, message and details under the measured
duration when it returned no error, and the Failed record built from its
error when it returned one. -/
def Attempted (f : ExecutorFactory) (W : Env → Prop) (item : TaskItem) (res : TaskResult) :
    Prop :=
  res.ItemID = item.ID ∧
  (f.executors item.Typ = none →
    res.Status = .Failed ∧
    res.Message = "执行失败: 创建执行器失败: executor not found: " ++ item.Typ) ∧
  (∀ executor, f.executors item.Typ = some executor →
    ∃ env, W env ∧
      (((executor.Execute env.world item).2 = none ∧
          res = { ItemID := item.ID, Status := (executor.Execute env.world item).1.Status,
                  Value := (executor.Execute env.world item).1.Value,
                  Message := (executor.Execute env.world item).1.Message,
                  Details := (executor.Execute env.world item).1.Details,
                  Duration := env.elapsed }) ∨
        (∃ err, (executor.Execute env.world item).2 = some err ∧
          res = { ItemID := item.ID, Status := .Failed, Value := "",
                  Message := "执行失败: " ++ err, Details := "任务项执行错误: " ++ err,
                  Duration := 0 })))

/-- Whether the event, if it is the step of the goroutine of `id` that
executes an item (the goroutine is at `execItem item`), finds a registered
executor for that item which returns no error in the world of that step. -/
def TaskManager.turnSucceeds (tm : TaskManager) (id : String) : Event → Bool
  | .run k env =>
    decide (k ≠ id) ||
      (match tm.runs id with
       | some r =>
         (match r.pc with
          | .execItem item _ _ => tm.executorFactory.succeeds env.world item
          | _ => true)
       | none => true)
  | _ => true

/-- The condition `P` holds of every event of the interleaving, in the state
it is applied to. -/
def TaskManager.allEvents (P : TaskManager → Event → Bool) : TaskManager → List Event → Bool
  | _, [] => true
  | tm, e :: es =>
    P tm e &&
      (match tm.step e with
       | some tm1 => tm1.allEvents P es
       | none => true)

/-- Whether, along the interleaving, every item of task `id` that is executed
is executed without error at its own turn. -/
def TaskManager.succeedsAtTurn (tm : TaskManager) (id : String) (evs : List Event) : Bool :=
  tm.allEvents (fun tm1 e => tm1.turnSucceeds id e) evs

/-! ## Sample data for the closed instances -/

/-- An executor registered as `ssh`: it answers Normal, and fails when the
outside world says so (any non-zero code). -/
def sampleExecutor : Executor :=
  { Name := "ssh"
    Execute := fun w item =>
      ({ ItemID := item.ID, Status := .Normal, Value := "ok", Message := "done",
         Details := "", Duration := 1 },
       if w = 0 then none else some "command execution timed out") }

/-- A registry holding `sampleExecutor` only. -/
def sampleFactory : ExecutorFactory := NewExecutorFactory.Register sampleExecutor

/-- A fresh manager over `sampleFactory` with the default pool. -/
def sampleManager : TaskManager := GetTaskManager sampleFactory 0 ""

/-- An item of the registered type. -/
def sshItem : TaskItem := { ID := 1, Name := "uptime", Typ := "ssh", Params := [] }

/-- An item of a type nobody registered. -/
def ghostItem : TaskItem := { ID := 2, Name := "spooky", Typ := "ghost", Params := [] }

/-- An environment in which executor calls succeed. -/
def calmEnv : Env := { now := 7, world := 0, elapsed := 3 }

/-- The status stored under `id`, if any. -/
def TaskManager.statusOf (tm : TaskManager) (id : String) : Option TaskStatus :=
  (tm.cache.tasks id).map (·.Status)

/-- The operations of the counterexample of C4. -/
def reviveOps : List StoreOp :=
  [.add "a" [] 30 1, .updateStatus "a" .Completed 5, .updateStatus "a" .Running 6]

/-- The operations of the counterexample of C5, up to the second cancel. -/
def rearmOps : List StoreOp :=
  [.add "a" [] 30 1, .updateStatus "a" .Running 2, .cancel "a" 3, .updateStatus "a" .Running 4]

/-- The state after an interleaving (the state itself if it panics). -/
def TaskManager.after (tm : TaskManager) (evs : List Event) : TaskManager :=
  (tm.exec evs).getD tm

/-- The task stored under `id` (a blank task if there is none). -/
def TaskManager.taskOf (tm : TaskManager) (id : String) : Task :=
  (tm.cache.tasks id).getD (newTask id [] 0 0)

/-- The goroutine of `id` (a fresh one if there is none). -/
def TaskManager.runOf (tm : TaskManager) (id : String) : Run :=
  (tm.runs id).getD Run.init

/-- `n` consecutive steps of the goroutine of `id`. -/
def stepsOf (id : String) (env : Env) (n : Nat) : List Event :=
  List.replicate n (.run id env)

/-- An environment in which executor calls return an error. -/
def stormEnv : Env := { now := 8, world := 1, elapsed := 1200 }

/-- A task with a registered and an unregistered item runs undisturbed. -/
def mixedTrace : List Event :=
  .create "t" [sshItem, ghostItem] 30 5 :: stepsOf "t" calmEnv 13

/-- A task whose only item has no executor runs undisturbed. -/
def ghostTrace : List Event :=
  .create "t" [ghostItem] 30 5 :: stepsOf "t" calmEnv 11

/-- A task whose only item succeeds runs undisturbed. -/
def sshTrace : List Event :=
  .create "t" [sshItem] 30 5 :: stepsOf "t" calmEnv 11

/-- A task with one item, up to the moment its item is executing. -/
def oneItemHead : List Event :=
  .create "t" [sshItem] 1 5 :: stepsOf "t" calmEnv 3

/-- A task with two items, up to the moment its first item is executing. -/
def twoItemHead : List Event :=
  .create "t" [sshItem, ghostItem] 1 5 :: stepsOf "t" calmEnv 3

/-- The deadline passes while the only item executes, then `CancelTask`
succeeds while the item is still executing. -/
def lateCancelTrace : List Event :=
  oneItemHead ++ [.deadline "t", .cancel "t" 9]

/-- The loop is over and the results are stored; `CancelTask` succeeds just
before the run reads `ctx.Err()`. -/
def cancelAtEndTrace : List Event :=
  .create "t" [sshItem] 30 5 :: stepsOf "t" calmEnv 6 ++ [.cancel "t" 9]

/-- The whole life of task `a` and a cancelled task `b`, as the task manager
drives the store. -/
def lifecycleOps : List StoreOp :=
  [.add "a" [] 30 1, .updateStatus "a" .Running 2, .updateResult "a" [],
   .updateStatus "a" .Completed 3, .add "b" [sshItem] 30 3, .updateStatus "b" .Running 4,
   .cancel "b" 5, .cancel "b" 6]

/-- The manager after a first `CreateTask "t"`. -/
def managerWithT : TaskManager := (sampleManager.CreateTask "t" [sshItem] 30 5).1

/-- A store holding one Running task `r` and one Pending task `p`. -/
def storeRP : TaskCache :=
  ((NewTaskCache.AddTask (newTask "r" [sshItem] 30 5)).AddTask
    (newTask "p" [] 30 6)).UpdateTaskStatus "r" .Running 7 |>.1

/-- Another executor that calls itself `ssh`; it always answers Warning. -/
def otherSshExecutor : Executor :=
  { Name := "ssh"
    Execute := fun _ item =>
      ({ ItemID := item.ID, Status := .Warning, Value := "", Message := "", Details := "",
         Duration := 0 }, none) }

/-- A manager whose goroutine for `t` has the first of two items in flight. -/
def managerExecutingTwo : TaskManager := sampleManager.after twoItemHead

/-- A store with a finished task that is past the retention window, one that
is not, and a Running task with an old end time. -/
def storeOld : TaskCache :=
  ((({ NewTaskCache with maxAge := 100 }.AddTask
      { newTask "old" [] 30 1 with Status := .Completed, EndTime := 10 }).AddTask
      { newTask "new" [] 30 1 with Status := .Failed, EndTime := 150 }).AddTask
      { newTask "run" [] 30 1 with Status := .Running, EndTime := 10 })

/-- A result, for the closed instances. -/
def sampleResult : TaskResult :=
  { ItemID := 1, Status := .Normal, Value := "ok", Message := "done", Details := "",
    Duration := 3 }

/-- The Running task `r` of `storeRP`. -/
def runningR : Task := { newTask "r" [sshItem] 30 5 with Status := .Running }

/-- An executor registered as `stray`: it answers Critical under an item id
of its own. -/
def strayExecutor : Executor :=
  { Name := "stray"
    Execute := fun _ _ =>
      ({ ItemID := 99, Status := .Critical, Value := "97", Message := "disk almost full",
         Details := "/var", Duration := 5 }, none) }

/-- A registry holding `sampleExecutor` and `strayExecutor`. -/
def strayFactory : ExecutorFactory := sampleFactory.Register strayExecutor

/-- An item of the type `stray`. -/
def strayItem : TaskItem := { ID := 4, Name := "disk", Typ := "stray", Params := [] }

/-- A manager over `strayFactory` whose goroutine for `t` has `strayItem` in
flight. -/
def managerExecutingStray : TaskManager :=
  (GetTaskManager strayFactory 0 "").after (.create "t" [strayItem] 30 5 :: stepsOf "t" calmEnv 3)

/-- A request item of the registered type `ssh`. -/
def sshRequestItem : ReqTaskItem := { Id := 1, Name := "uptime", Typ := "ssh", Params := [] }

/-- A request item of a type nobody registered. -/
def ghostRequestItem : ReqTaskItem := { Id := 2, Name := "spooky", Typ := "ghost", Params := [] }

/-- A request item of the type `stray`. -/
def strayRequestItem : ReqTaskItem := { Id := 4, Name := "disk", Typ := "stray", Params := [] }

/-- A request with a registered and an unregistered item. -/
def mixedRequest : TaskRequest :=
  { TaskId := "t", Items := [sshRequestItem, ghostRequestItem], Timeout := 30 }

/-- A request whose only item is answered Critical. -/
def strayRequest : TaskRequest := { TaskId := "t", Items := [strayRequestItem], Timeout := 30 }

/-- Clock readings of a synchronous run. -/
def sampleClock : SyncClock := { startTime := 5, endTime := 9, total := 4 }

/-- The context stays live and executor calls succeed. -/
def calmSync : Nat → SyncEnv :=
  fun _ => { ctxErr := none, world := 0, sinceStart := 2, executionDuration := 1 }

/-- The context stays live and executor calls return an error. -/
def stormSync : Nat → SyncEnv :=
  fun _ => { ctxErr := none, world := 1, sinceStart := 2, executionDuration := 1 }

/-- The deadline of the context passes while the first item executes. -/
def expiringSync : Nat → SyncEnv :=
  fun i => { ctxErr := if i = 0 then none else some .DeadlineExceeded, world := 0,
             sinceStart := 2, executionDuration := 1 }

/-- An SSH executor whose remote part always succeeds. -/
def sampleSSH : SSHExecutor :=
  { since := fun _ => 0
    remote := fun _ _ _ _ _ _ _ item =>
      ({ ItemID := item.ID, Status := .Normal, Value := "up 3 days",
         Message := "Command executed successfully", Details := "", Duration := 40 }, none) }

/-- A registry holding the SSH executor `sampleSSH`. -/
def sshFactory : ExecutorFactory := NewExecutorFactory.Register sampleSSH.toExecutor

/-- An SSH item with host, port, username and password but no command. -/
def noCommandItem : TaskItem :=
  { ID := 3, Name := "uptime", Typ := "ssh",
    Params := [("host", .str "h1"), ("port", .num 2222), ("username", .str "root"),
               ("password", .str "pw")] }

/-- A manager over `sshFactory` whose goroutine for `t` has `noCommandItem`
in flight. -/
def managerExecutingSSH : TaskManager :=
  (GetTaskManager sshFactory 0 "").after (.create "t" [noCommandItem] 30 5 :: stepsOf "t" calmEnv 3)

/-- A cluster with one VMRule and one PrometheusRule. -/
def sampleCluster : K8sRuleManager :=
  { client := fun gvr _ _ =>
      if gvr = vmRuleGVR then .ok ["vm-alerts"]
      else if gvr = prometheusRuleGVR then .ok ["prom-alerts"]
      else .error "the server could not find the requested resource" }

/-- The deadline passes between the two items of the task: the first item
has its result, the second is next. -/
def expiredBetweenItems : List Event :=
  twoItemHead ++ [.run "t" calmEnv, .deadline "t"]

/-- A manager over `sampleFactory` with a pool of one slot. -/
def smallManager : TaskManager := GetTaskManager sampleFactory 1 ""

/-- Two tasks are submitted to a pool of one slot; the run of `a` gets the
slot and marks `a` Running, the run of `b` finds the pool full. -/
def crowdedTrace : List Event :=
  [.create "a" [sshItem] 30 5, .create "b" [sshItem] 30 5, .run "a" calmEnv, .run "b" calmEnv,
   .run "a" calmEnv, .run "b" calmEnv]

/-- The store after the operations `rearmOps`: the task `a` is Running and
its cancel signal has fired. -/
def storeRearmed : TaskCache := (NewTaskCache.applyAll rearmOps).getD NewTaskCache

/-- The store operations of two calls `CreateTask("a", ...)` that race: both
find the id absent (line 53) before either inserts (line 69), so both insert
and both start a goroutine; the first goroutine marks the stored task Running
(line 104) and `CancelTask` succeeds; the second goroutine marks it Running
again, and `CancelTask` is called once more. -/
def racingCreatesOps : List StoreOp :=
  [.add "a" [sshItem] 30 1, .add "a" [sshItem] 30 1, .updateStatus "a" .Running 2,
   .cancel "a" 3, .updateStatus "a" .Running 4, .cancel "a" 5]

/-- The run has stored its results and read `ctx.Err()` at line 155 (nil);
`CancelTask` succeeds and the watcher cancels the context before the read at
line 160. -/
def cancelBetweenReadsTrace : List Event :=
  .create "t" [sshItem] 30 5 :: stepsOf "t" calmEnv 7 ++ [.cancel "t" 9, .watch "t"] ++
    stepsOf "t" calmEnv 4

/-- A task of two items: the outside world is such that executor calls fail,
except at the two steps that execute the items. -/
def turnsTrace : List Event :=
  [.create "t" [sshItem, sshItem] 30 5, .run "t" stormEnv, .run "t" stormEnv,
   .run "t" stormEnv, .run "t" calmEnv, .run "t" stormEnv, .run "t" calmEnv] ++
    stepsOf "t" stormEnv 7

/-! ## Basic facts about the store -/

@[simp] theorem setTask_tasks_same (c : TaskCache) (id : String) (task : Task) :
    (c.setTask id task).tasks id = some task := by
  simp [TaskCache.setTask]

@[simp] theorem setTask_tasks_other (c : TaskCache) (id k : String) (task : Task)
    (h : k ≠ id) : (c.setTask id task).tasks k = c.tasks k := by
  simp [TaskCache.setTask, h]

theorem setTask_tasks (c : TaskCache) (id k : String) (task : Task) :
    (c.setTask id task).tasks k = if k = id then some task else c.tasks k := rfl

theorem setTask_self (c : TaskCache) (id : String) (task : Task)
    (h : c.tasks id = some task) : c.setTask id task = c := by
  cases c with
  | mk tasks maxAge =>
    simp only [TaskCache.setTask, TaskCache.mk.injEq, and_true]
    funext k
    by_cases hk : k = id
    · subst hk; simpa using h.symm
    · simp [hk]

/-! ## The step function, seen from one id -/

theorem UpdateTaskStatus_eq (c : TaskCache) (id : String) (status : TaskStatus) (now : Time)
    (task : Task) (h : c.tasks id = some task) :
    c.UpdateTaskStatus id status now = (c.setTask id (task.withStatus status now), true) := by
  unfold TaskCache.UpdateTaskStatus Task.withStatus
  simp only [h]

@[simp] theorem setRun_runs (tm : TaskManager) (id k : String) (r : Run) :
    (tm.setRun id r).runs k = if k = id then some r else tm.runs k := rfl

@[simp] theorem setRun_cache (tm : TaskManager) (id : String) (r : Run) :
    (tm.setRun id r).cache = tm.cache := rfl

@[simp] theorem setRun_factory (tm : TaskManager) (id : String) (r : Run) :
    (tm.setRun id r).executorFactory = tm.executorFactory := rfl

/-- The goroutine step, seen from any id `k`. -/
theorem executeTask_view (tm : TaskManager) (id : String) (env : Env) (task : Task) (r : Run)
    (ht : tm.cache.tasks id = some task) (hr : tm.runs id = some r) (k : String) :
    (tm.executeTask id env).cache.tasks k
      = (if k = id then some (localRun tm env task r).1 else tm.cache.tasks k) ∧
    (tm.executeTask id env).runs k
      = (if k = id then some (localRun tm env task r).2 else tm.runs k) := by
  unfold TaskManager.executeTask localRun
  simp only [ht, hr]
  rcases r with ⟨pc, ctx, tmo, e1, e2⟩
  by_cases hk : k = id
  · subst hk
    cases pc <;> simp [UpdateTaskStatus_eq _ _ _ _ _ ht, TaskCache.UpdateTaskResult, ht, hr] <;>
      (repeat' split) <;> simp_all
  · cases pc <;> simp [UpdateTaskStatus_eq _ _ _ _ _ ht, TaskCache.UpdateTaskResult, ht, hr, hk] <;>
      (repeat' split) <;> simp_all

/-- A step leaves every id other than its target alone. -/
theorem step_other (s : TaskManager) (e : Event) (s1 : TaskManager)
    (hs : s.step e = some s1) (k : String) (hk : k ≠ e.target) :
    s1.cache.tasks k = s.cache.tasks k ∧ s1.runs k = s.runs k := by
  cases e with
  | create id items timeout now =>
    simp only [Event.target] at hk
    simp only [TaskManager.step, Option.some.injEq] at hs
    subst hs
    unfold TaskManager.CreateTask TaskCache.GetTask
    cases hid : s.cache.tasks id <;>
      simp [TaskCache.AddTask, TaskCache.setTask, hk]
  | cancel id now =>
    simp only [Event.target] at hk
    simp only [TaskManager.step, TaskManager.CancelTask, TaskCache.CancelTask] at hs
    cases hid : s.cache.tasks id with
    | none => simp [hid] at hs; subst hs; simp [hk]
    | some t =>
      simp only [hid] at hs
      by_cases hst : t.Status = .Running
      · cases hc : t.Cancel <;> simp [hst, hc, Chan.close] at hs
        subst hs; simp [hk]
      · simp [hst] at hs; subst hs; simp [hk]
  | run id env =>
    simp only [Event.target] at hk
    simp only [TaskManager.step, Option.some.injEq] at hs
    subst hs
    cases ht : s.cache.tasks id with
    | none =>
      have : s.executeTask id env = s := by
        unfold TaskManager.executeTask; simp only [ht]; split <;> simp_all
      simp [this, hk]
    | some t =>
      cases hr : s.runs id with
      | none =>
        have : s.executeTask id env = s := by
          unfold TaskManager.executeTask; simp [hr]
        simp [this, hk]
      | some r =>
        have := executeTask_view s id env t r ht hr k
        simp [hk] at this
        simp [this, hk]
  | deadline id =>
    simp only [Event.target] at hk
    simp only [TaskManager.step, Option.some.injEq] at hs
    subst hs
    unfold TaskManager.deadline
    split <;> (try split) <;> simp [hk]
  | watch id =>
    simp only [Event.target] at hk
    simp only [TaskManager.step, Option.some.injEq] at hs
    subst hs
    unfold TaskManager.watch
    split <;> (try split) <;> simp [hk]

/-- A step, seen from any id `k`: nothing happens to `k`, or `k` is created,
or the task and goroutine of `k` move by `localStep`. -/
theorem step_view (s : TaskManager) (e : Event) (s1 : TaskManager) (hp : Paired s)
    (hs : s.step e = some s1) (k : String) :
    (s1.cache.tasks k = s.cache.tasks k ∧ s1.runs k = s.runs k ∧
      (k ≠ e.target ∨ s.cache.tasks k = none)) ∨
    (k = e.target ∧ s.cache.tasks k = none ∧ s.runs k = none ∧
      ∃ items timeout now, s1.cache.tasks k = some (newTask k items timeout now) ∧
        s1.runs k = some Run.init) ∨
    (k = e.target ∧ ∃ t r t1 r1, s.cache.tasks k = some t ∧ s.runs k = some r ∧
      localStep s e t r = some (t1, r1) ∧
      s1.cache.tasks k = some t1 ∧ s1.runs k = some r1) := by
  by_cases hk : k = e.target
  swap
  · have h2 := step_other s e s1 hs k hk
    exact Or.inl ⟨h2.1, h2.2, Or.inl hk⟩
  · cases ht : s.cache.tasks k with
    | none =>
      have hr : s.runs k = none := (hp k).1 ht
      cases e with
      | create id items timeout now =>
        simp only [Event.target] at hk
        subst hk
        right; left
        simp only [TaskManager.step, Option.some.injEq] at hs
        subst hs
        refine ⟨rfl, rfl, hr, items, timeout, now, ?_⟩
        simp [TaskManager.CreateTask, TaskCache.GetTask, ht, TaskCache.AddTask, newTask]
      | cancel id now =>
        simp only [Event.target] at hk
        subst hk
        left
        simp [TaskManager.step, TaskManager.CancelTask, TaskCache.CancelTask, ht] at hs
        subst hs; simp [ht, hr]
      | run id env =>
        simp only [Event.target] at hk
        subst hk
        left
        simp only [TaskManager.step, Option.some.injEq] at hs
        subst hs
        have : s.executeTask k env = s := by
          unfold TaskManager.executeTask; simp [hr]
        simp [this, ht]
      | deadline id =>
        simp only [Event.target] at hk
        subst hk
        left
        simp only [TaskManager.step, Option.some.injEq] at hs
        subst hs
        simp [TaskManager.deadline, hr, ht]
      | watch id =>
        simp only [Event.target] at hk
        subst hk
        left
        simp only [TaskManager.step, Option.some.injEq] at hs
        subst hs
        simp [TaskManager.watch, hr, ht]
    | some t =>
      have hr0 : s.runs k ≠ none := fun h => by simpa [ht] using (hp k).2 h
      obtain ⟨r, hr⟩ := Option.ne_none_iff_exists'.1 hr0
      right; right
      refine ⟨hk, t, r, ?_⟩
      cases e with
      | create id items timeout now =>
        simp only [Event.target] at hk
        subst hk
        simp only [TaskManager.step, Option.some.injEq] at hs
        subst hs
        simp [TaskManager.CreateTask, TaskCache.GetTask, ht, hr, localStep]
      | cancel id now =>
        simp only [Event.target] at hk
        subst hk
        simp only [TaskManager.step, TaskManager.CancelTask, TaskCache.CancelTask, ht] at hs
        by_cases hst : t.Status = .Running
        · cases hc : t.Cancel <;> simp [hst, hc, Chan.close] at hs
          subst hs; simp [localStep, hst, hc, Chan.close, hr]
        · simp [hst] at hs; subst hs; simp [localStep, hst, ht, hr]
      | run id env =>
        simp only [Event.target] at hk
        subst hk
        simp only [TaskManager.step, Option.some.injEq] at hs
        subst hs
        have := executeTask_view s k env t r ht hr k
        simp at this
        simp [localStep, this, ht, hr]
      | deadline id =>
        simp only [Event.target] at hk
        subst hk
        simp only [TaskManager.step, Option.some.injEq] at hs
        subst hs
        simp only [TaskManager.deadline, hr, localStep]
        split <;> simp [ht, hr]
      | watch id =>
        simp only [Event.target] at hk
        subst hk
        simp only [TaskManager.step, Option.some.injEq] at hs
        subst hs
        simp only [TaskManager.watch, hr, ht, localStep]
        split <;> simp [ht, hr]

theorem Paired_step (s : TaskManager) (e : Event) (s1 : TaskManager) (hp : Paired s)
    (hs : s.step e = some s1) : Paired s1 := by
  intro k
  rcases step_view s e s1 hp hs k with ⟨h1, h2, _⟩ | ⟨_, _, _, _, _, _, h1, h2⟩ |
    ⟨_, _, _, _, _, _, _, _, h1, h2⟩
  · rw [h1, h2]; exact hp k
  · simp [h1, h2]
  · simp [h1, h2]

theorem Paired_init (f : ExecutorFactory) (n : Int) (url : String) :
    Paired (GetTaskManager f n url) := by
  intro k; simp [GetTaskManager, NewTaskCache]

/-- A step never touches the registry. -/
theorem step_factory (s : TaskManager) (e : Event) (s1 : TaskManager)
    (hs : s.step e = some s1) : s1.executorFactory = s.executorFactory := by
  cases e with
  | create id items timeout now =>
    simp only [TaskManager.step, Option.some.injEq] at hs
    subst hs
    unfold TaskManager.CreateTask
    split <;> simp
  | cancel id now =>
    simp only [TaskManager.step, TaskManager.CancelTask] at hs
    cases hc : s.cache.CancelTask id now with
    | none => simp [hc] at hs
    | some p =>
      obtain ⟨c, ok⟩ := p
      cases ok <;> simp [hc] at hs <;> subst hs <;> rfl
  | run id env =>
    simp only [TaskManager.step, Option.some.injEq] at hs
    subst hs
    unfold TaskManager.executeTask
    repeat' split
    all_goals simp
  | deadline id =>
    simp only [TaskManager.step, Option.some.injEq] at hs
    subst hs
    unfold TaskManager.deadline
    repeat' split
    all_goals simp
  | watch id =>
    simp only [TaskManager.step, Option.some.injEq] at hs
    subst hs
    unfold TaskManager.watch
    repeat' split
    all_goals simp

/-- Induction over an interleaving. -/
theorem exec_invariant (Inv : TaskManager → Prop) (ok : Event → Prop)
    (hstep : ∀ s e s1, Inv s → ok e → s.step e = some s1 → Inv s1) :
    ∀ (evs : List Event) (s s1 : TaskManager), Inv s → (∀ e ∈ evs, ok e) →
      s.exec evs = some s1 → Inv s1 := by
  intro evs
  induction evs with
  | nil =>
    intro s s1 hs _ h
    simp [TaskManager.exec] at h
    exact h ▸ hs
  | cons e es ih =>
    intro s s1 hs hok h
    simp only [TaskManager.exec] at h
    cases hse : s.step e with
    | none => simp [hse] at h
    | some s2 =>
      simp only [hse, Option.some_bind] at h
      exact ih s2 s1 (hstep s e s2 hs (hok e (by simp)) hse)
        (fun e1 he1 => hok e1 (by simp [he1])) h

/-- Invariants of one task and its goroutine: a property that holds of a
freshly created pair and is kept by every `localStep` holds along every
interleaving. -/
theorem local_invariant (k : String) (f : ExecutorFactory) (P : Task → Run → Prop)
    (ok : Event → Prop)
    (hstep : ∀ tm e t r t1 r1, tm.executorFactory = f → ok e → P t r →
      localStep tm e t r = some (t1, r1) → P t1 r1)
    (evs : List Event) (s0 s : TaskManager) (hpair : Paired s0)
    (hf : s0.executorFactory = f)
    (hnew : s0.cache.tasks k = none → ∀ items timeout now, P (newTask k items timeout now) Run.init)
    (h0 : ∀ t r, s0.cache.tasks k = some t → s0.runs k = some r → P t r)
    (hok : ∀ e ∈ evs, e.target = k → ok e)
    (hexec : s0.exec evs = some s) :
    ∀ t r, s.cache.tasks k = some t → s.runs k = some r → P t r := by
  have key := exec_invariant
    (fun tm => Paired tm ∧ tm.executorFactory = f ∧
      (tm.cache.tasks k = none → ∀ items timeout now, P (newTask k items timeout now) Run.init) ∧
      (∀ t r, tm.cache.tasks k = some t → tm.runs k = some r → P t r))
    (fun e => e.target = k → ok e)
    (by
      rintro tm e tm1 ⟨hp, hfac, hn, hi⟩ hoke hs
      refine ⟨Paired_step tm e tm1 hp hs, (step_factory tm e tm1 hs).trans hfac, ?_, ?_⟩
      · intro hnone
        rcases step_view tm e tm1 hp hs k with ⟨h1, _, _⟩ | ⟨_, h1, _⟩ |
          ⟨_, _, _, _, _, _, _, _, h1, _⟩
        · exact hn (h1 ▸ hnone)
        · exact hn h1
        · simp [h1] at hnone
      · intro t1 r1 ht1 hr1
        rcases step_view tm e tm1 hp hs k with ⟨h1, h2, _⟩ | ⟨_, hnone, _, items, timeout, now, h1, h2⟩ |
          ⟨hk, t, r, t2, r2, ht, hr, hl, h1, h2⟩
        · exact hi t1 r1 (h1 ▸ ht1) (h2 ▸ hr1)
        · rw [h1] at ht1; rw [h2] at hr1
          cases ht1; cases hr1
          exact hn hnone items timeout now
        · rw [h1] at ht1; rw [h2] at hr1
          cases ht1; cases hr1
          exact hstep tm e t r t1 r1 hfac (hoke hk.symm) (hi t r ht hr) hl)
    evs s0 s ⟨hpair, hf, hnew, h0⟩ hok hexec
  exact key.2.2.2

theorem SignalInv_step (tm : TaskManager) (e : Event) (t : Task) (r : Run) (t1 : Task)
    (r1 : Run) (hP : SignalInv t r) (hl : localStep tm e t r = some (t1, r1)) :
    SignalInv t1 r1 := by
  rcases r with ⟨pc, ctx, tmo, e1, e2⟩
  cases e with
  | create id items timeout now =>
    simp only [localStep, Option.some.injEq, Prod.mk.injEq] at hl
    obtain ⟨rfl, rfl⟩ := hl; exact hP
  | cancel id now =>
    simp only [localStep] at hl
    split at hl
    · simp only [Option.some.injEq, Prod.mk.injEq] at hl
      obtain ⟨rfl, rfl⟩ := hl; exact hP
    · rename_i hrun
      simp only [ne_eq, not_not] at hrun
      have hopen := hP.1 hrun
      simp only [hopen, Chan.close, Option.some.injEq, Prod.mk.injEq] at hl
      obtain ⟨rfl, rfl⟩ := hl
      refine ⟨by simp, ?_⟩
      intro hpc
      have := (hP.2 hpc).1
      simp [hrun] at this
  | run id env =>
    simp only [localStep, Option.some.injEq] at hl
    unfold SignalInv at hP ⊢
    cases pc <;> simp only [localRun] at hl <;> (repeat' split at hl) <;>
      (simp only [Prod.mk.injEq] at hl; obtain ⟨rfl, rfl⟩ := hl) <;>
      simp_all [Task.withStatus]
  | deadline id =>
    simp only [localStep] at hl
    unfold SignalInv at hP ⊢
    split at hl <;> (simp only [Option.some.injEq, Prod.mk.injEq] at hl; obtain ⟨rfl, rfl⟩ := hl) <;>
      simp_all
  | watch id =>
    simp only [localStep] at hl
    unfold SignalInv at hP ⊢
    split at hl <;> (simp only [Option.some.injEq, Prod.mk.injEq] at hl; obtain ⟨rfl, rfl⟩ := hl) <;>
      simp_all

theorem LoopInv_step (Q : TaskItem → TaskResult → Prop) (tm : TaskManager) (e : Event)
    (t : Task) (r : Run) (t1 : Task) (r1 : Run)
    (hQ : ∀ id env item, e = .run id env → Q item (tm.itemResult env item))
    (hP : LoopInv Q t r) (hl : localStep tm e t r = some (t1, r1)) :
    LoopInv Q t1 r1 := by
  rcases r with ⟨pc, ctx, tmo, e1, e2⟩
  cases e with
  | create id items timeout now =>
    simp only [localStep, Option.some.injEq, Prod.mk.injEq] at hl
    obtain ⟨rfl, rfl⟩ := hl; exact hP
  | cancel id now =>
    simp only [localStep] at hl
    split at hl
    · simp only [Option.some.injEq, Prod.mk.injEq] at hl
      obtain ⟨rfl, rfl⟩ := hl; exact hP
    · split at hl
      · simp at hl
      · simp only [Option.some.injEq, Prod.mk.injEq] at hl
        obtain ⟨rfl, rfl⟩ := hl
        unfold LoopInv at hP ⊢
        cases pc <;> simpa using hP
  | run id env =>
    simp only [localStep, Option.some.injEq] at hl
    have hq := fun item => hQ id env item rfl
    unfold LoopInv at hP ⊢
    cases pc with
    | execItem item rest acc =>
      simp only [localRun, Prod.mk.injEq] at hl
      obtain ⟨rfl, rfl⟩ := hl
      simp only at hP ⊢
      obtain ⟨h1, done, h2, h3⟩ := hP
      refine ⟨h1, done ++ [item], by simp [h2], ?_⟩
      exact List.rel_append h3 (List.Forall₂.cons (hq item) List.Forall₂.nil)
    | loopTop rest acc =>
      cases rest with
      | nil =>
        simp only [localRun, Prod.mk.injEq] at hl
        obtain ⟨rfl, rfl⟩ := hl
        simp only at hP ⊢
        obtain ⟨h1, done, h2, h3⟩ := hP
        exact ⟨h1, done, [], h2, h3, by simp⟩
      | cons item rest =>
        simp only [localRun] at hl
        split at hl <;> (simp only [Prod.mk.injEq] at hl; obtain ⟨rfl, rfl⟩ := hl) <;>
          simp only at hP ⊢
        · obtain ⟨h1, done, h2, h3⟩ := hP
          exact ⟨h1, done, item :: rest, h2, h3, fun _ => by assumption⟩
        · exact hP
    | _ =>
      simp only [localRun] at hl
      (repeat' split at hl) <;>
        (simp only [Prod.mk.injEq] at hl; obtain ⟨rfl, rfl⟩ := hl) <;>
        simp_all [Task.withStatus]
  | deadline id =>
    simp only [localStep] at hl
    unfold LoopInv at hP ⊢
    split at hl <;> (simp only [Option.some.injEq, Prod.mk.injEq] at hl; obtain ⟨rfl, rfl⟩ := hl)
    · cases pc with
      | persist acc =>
        obtain ⟨h0, done, rest, h1, h2, _⟩ := hP
        exact ⟨h0, done, rest, h1, h2, fun _ => by simp⟩
      | checkCanceled =>
        obtain ⟨done, rest, h1, h2, _⟩ := hP
        exact ⟨done, rest, h1, h2, fun _ => by simp⟩
      | _ => exact hP
    · exact hP
  | watch id =>
    simp only [localStep] at hl
    unfold LoopInv at hP ⊢
    split at hl <;> (simp only [Option.some.injEq, Prod.mk.injEq] at hl; obtain ⟨rfl, rfl⟩ := hl)
    · cases pc with
      | persist acc =>
        obtain ⟨h0, done, rest, h1, h2, _⟩ := hP
        exact ⟨h0, done, rest, h1, h2, fun _ => by simp⟩
      | checkCanceled =>
        obtain ⟨done, rest, h1, h2, _⟩ := hP
        exact ⟨done, rest, h1, h2, fun _ => by simp⟩
      | _ => exact hP
    · exact hP

theorem finalStatus_ne_running (e1 e2 : Option CtxErr) : finalStatus e1 e2 ≠ .Running := by
  unfold finalStatus; split
  · simp
  · split <;> simp

theorem FinalInv_step (tm : TaskManager) (e : Event) (t : Task) (r : Run) (t1 : Task)
    (r1 : Run) (hP : FinalInv t r) (hl : localStep tm e t r = some (t1, r1)) :
    FinalInv t1 r1 := by
  rcases r with ⟨pc, ctx, tmo, e1, e2⟩
  cases e with
  | create id items timeout now =>
    simp only [localStep, Option.some.injEq, Prod.mk.injEq] at hl
    obtain ⟨rfl, rfl⟩ := hl; exact hP
  | cancel id now =>
    simp only [localStep] at hl
    split at hl
    · simp only [Option.some.injEq, Prod.mk.injEq] at hl
      obtain ⟨rfl, rfl⟩ := hl; exact hP
    · rename_i hrun
      simp only [ne_eq, not_not] at hrun
      split at hl
      · simp at hl
      · simp only [Option.some.injEq, Prod.mk.injEq] at hl
        obtain ⟨rfl, rfl⟩ := hl
        unfold FinalInv at hP ⊢
        have hne := finalStatus_ne_running e1 e2
        cases pc <;> simp_all
  | run id env =>
    simp only [localStep, Option.some.injEq] at hl
    unfold FinalInv at hP ⊢
    cases pc <;> simp only [localRun] at hl <;> (repeat' split at hl) <;>
      (simp only [Prod.mk.injEq] at hl; obtain ⟨rfl, rfl⟩ := hl) <;>
      simp_all [Task.withStatus, finalStatus]
    rcases e1 with _ | _ | _ <;> simp_all
  | deadline id =>
    simp only [localStep] at hl
    unfold FinalInv at hP ⊢
    split at hl <;> (simp only [Option.some.injEq, Prod.mk.injEq] at hl; obtain ⟨rfl, rfl⟩ := hl)
    · cases pc <;> simp_all
      rcases e1 with _ | _ | _ <;> simp_all
    · exact hP
  | watch id =>
    simp only [localStep] at hl
    unfold FinalInv at hP ⊢
    split at hl <;> (simp only [Option.some.injEq, Prod.mk.injEq] at hl; obtain ⟨rfl, rfl⟩ := hl)
    · cases pc <;> simp_all
      rcases e1 with _ | _ | _ <;> simp_all
    · exact hP

theorem itemResult_recorded (tm : TaskManager) (env : Env) (item : TaskItem) :
    Recorded tm.executorFactory item (tm.itemResult env item) := by
  unfold Recorded TaskManager.itemResult TaskManager.executeTaskItem ExecutorFactory.Create
  cases h : tm.executorFactory.executors item.Typ with
  | none => simp
  | some ex =>
    simp only
    rcases hx : ex.Execute env.world item with ⟨res, _ | err⟩ <;> simp

/-- The invariants of a pair reached from a fresh manager. -/
theorem reachable_invariants (f : ExecutorFactory) (n : Int) (url : String)
    (evs : List Event) (s : TaskManager)
    (hexec : (GetTaskManager f n url).exec evs = some s) (id : String) (t : Task) (r : Run)
    (ht : s.cache.tasks id = some t) (hr : s.runs id = some r) :
    SignalInv t r ∧ LoopInv (Recorded f) t r ∧ FinalInv t r := by
  refine local_invariant id f (fun t r => SignalInv t r ∧ LoopInv (Recorded f) t r ∧ FinalInv t r)
    (fun _ => True) ?_ evs _ s (Paired_init f n url) rfl ?_ ?_ (fun _ _ _ => trivial) hexec t r ht hr
  · rintro tm e t r t1 r1 hf - ⟨h1, h2, h3⟩ hl
    refine ⟨SignalInv_step tm e t r t1 r1 h1 hl, LoopInv_step _ tm e t r t1 r1 ?_ h2 hl,
      FinalInv_step tm e t r t1 r1 h3 hl⟩
    intro _ env item _
    exact hf ▸ itemResult_recorded tm env item
  · intro _ items timeout now
    simp [SignalInv, LoopInv, FinalInv, newTask, Run.init]
  · intro t r ht
    simp [GetTaskManager, NewTaskCache] at ht

theorem CalmInv_step (tm : TaskManager) (e : Event) (t : Task) (r : Run) (t1 : Task)
    (r1 : Run) (hok : e.keepsContext) (hP : CalmInv t r)
    (hl : localStep tm e t r = some (t1, r1)) : CalmInv t1 r1 := by
  rcases r with ⟨pc, ctx, tmo, e1, e2⟩
  cases e with
  | create id items timeout now =>
    simp only [localStep, Option.some.injEq, Prod.mk.injEq] at hl
    obtain ⟨rfl, rfl⟩ := hl; exact hP
  | cancel id now =>
    simp only [localStep] at hl
    split at hl
    · simp only [Option.some.injEq, Prod.mk.injEq] at hl
      obtain ⟨rfl, rfl⟩ := hl; exact hP
    · split at hl
      · simp at hl
      · simp only [Option.some.injEq, Prod.mk.injEq] at hl
        obtain ⟨rfl, rfl⟩ := hl
        exact hP
  | run id env =>
    simp only [localStep, Option.some.injEq] at hl
    unfold CalmInv at hP ⊢
    cases pc <;> simp only [localRun] at hl <;> (repeat' split at hl) <;>
      (simp only [Prod.mk.injEq] at hl; obtain ⟨rfl, rfl⟩ := hl) <;>
      simp_all
  | deadline id => exact absurd hok (by simp [Event.keepsContext])
  | watch id => exact absurd hok (by simp [Event.keepsContext])

/-- The conclusions shared by the runs whose context stays live: with the
loop bookkeeping `LoopInv Q`, the final-status bookkeeping and `CalmInv`, a
goroutine that has returned leaves a Completed task with one result per
item. -/
theorem calm_done (Q : TaskItem → TaskResult → Prop) (t : Task) (r : Run)
    (hloop : LoopInv Q t r) (hfinal : FinalInv t r) (hcalm : CalmInv t r)
    (hdone : r.pc = .done) :
    t.Status = .Completed ∧ List.Forall₂ Q t.Items t.Results := by
  rcases r with ⟨pc, ctx, tmo, e1, e2⟩
  simp only at hdone
  subst hdone
  obtain ⟨h1, h2, _⟩ := hcalm
  simp only at h1 h2
  subst h1 h2
  simp only [FinalInv, finalStatus] at hfinal
  simp only [LoopInv] at hloop
  obtain ⟨done, rest, hi, hq, hrest⟩ := hloop
  have : rest = [] := by
    by_contra hne
    exact hrest hne rfl
  subst this
  simp only [List.append_nil] at hi
  refine ⟨by simpa using hfinal.1, hi ▸ hq⟩

theorem forall₂_ids (f : ExecutorFactory) (items : List TaskItem) (results : List TaskResult)
    (h : List.Forall₂ (Recorded f) items results) :
    results.map (·.ItemID) = items.map (·.ID) := by
  induction h with
  | nil => rfl
  | cons hab _ ih => simp [hab.1, ih]

theorem forall₂_getElem? {α β : Type} (R : α → β → Prop) (l1 : List α) (l2 : List β)
    (h : List.Forall₂ R l1 l2) (i : Nat) (a : α) (ha : l1[i]? = some a) :
    ∃ b, l2[i]? = some b ∧ R a b := by
  induction h generalizing i with
  | nil => simp at ha
  | cons hab _ ih =>
    cases i with
    | zero => simp at ha; subst ha; exact ⟨_, by simp, hab⟩
    | succ j => simp at ha; simpa using ih j ha

theorem itemResult_reported (tm : TaskManager) (env : Env) (item : TaskItem)
    (h : tm.executorFactory.succeeds env.world item = true) :
    ReportedBy tm.executorFactory item (tm.itemResult env item) := by
  unfold ExecutorFactory.succeeds at h
  unfold ReportedBy TaskManager.itemResult TaskManager.executeTaskItem ExecutorFactory.Create
  cases hx : tm.executorFactory.executors item.Typ with
  | none => simp [hx] at h
  | some ex =>
    simp only [hx] at h
    rcases hr : ex.Execute env.world item with ⟨res, _ | err⟩
    · refine ⟨ex, env.world, rfl, by simp [hr], ?_⟩
      simp [hr]
    · simp [hr] at h

theorem QuietInv_step (tm : TaskManager) (e : Event) (t : Task) (r : Run) (t1 : Task)
    (r1 : Run) (hok : e.keepsQuiet) (hP : QuietInv t r)
    (hl : localStep tm e t r = some (t1, r1)) : QuietInv t1 r1 := by
  rcases r with ⟨pc, ctx, tmo, e1, e2⟩
  cases e with
  | create id items timeout now =>
    simp only [localStep, Option.some.injEq, Prod.mk.injEq] at hl
    obtain ⟨rfl, rfl⟩ := hl; exact hP
  | cancel id now => exact absurd hok (by simp [Event.keepsQuiet])
  | run id env =>
    simp only [localStep, Option.some.injEq] at hl
    unfold QuietInv CalmInv at hP ⊢
    cases pc <;> simp only [localRun] at hl <;> (repeat' split at hl) <;>
      (simp only [Prod.mk.injEq] at hl; obtain ⟨rfl, rfl⟩ := hl) <;>
      simp_all [Task.withStatus]
  | deadline id => exact absurd hok (by simp [Event.keepsQuiet])
  | watch id =>
    simp only [localStep] at hl
    have : t.Cancel ≠ .closed := by rw [hP.1]; simp
    simp only [this, and_false, if_false, Option.some.injEq, Prod.mk.injEq] at hl
    obtain ⟨rfl, rfl⟩ := hl; exact hP

theorem forall₂_of_mem {α β : Type} (R : α → β → Prop) (l : List α) :
    ∀ (l1 : List α) (l2 : List β), (∀ a ∈ l1, a ∈ l) →
      List.Forall₂ (fun a b => a ∈ l → R a b) l1 l2 → List.Forall₂ R l1 l2 := by
  intro l1 l2 hsub h
  induction h with
  | nil => exact List.Forall₂.nil
  | cons hab _ ih =>
    exact List.Forall₂.cons (hab (hsub _ (by simp)))
      (ih (fun a ha => hsub a (by simp [ha])))

theorem ExpiredInv_step (f : ExecutorFactory) (items : List TaskItem) (item : TaskItem)
    (rest : List TaskItem) (acc : List TaskResult) (tm : TaskManager) (e : Event)
    (t : Task) (r : Run) (t1 : Task) (r1 : Run) (hf : tm.executorFactory = f)
    (hP : ExpiredInv f items item rest acc t r)
    (hl : localStep tm e t r = some (t1, r1)) :
    ExpiredInv f items item rest acc t1 r1 := by
  rcases r with ⟨pc, ctx, tmo, e1, e2⟩
  cases e with
  | create id items timeout now =>
    simp only [localStep, Option.some.injEq, Prod.mk.injEq] at hl
    obtain ⟨rfl, rfl⟩ := hl; exact hP
  | cancel id now =>
    simp only [localStep] at hl
    split at hl
    · simp only [Option.some.injEq, Prod.mk.injEq] at hl
      obtain ⟨rfl, rfl⟩ := hl; exact hP
    · split at hl
      · simp at hl
      · simp only [Option.some.injEq, Prod.mk.injEq] at hl
        obtain ⟨rfl, rfl⟩ := hl
        unfold ExpiredInv at hP ⊢
        cases pc <;> simp at hP <;> simp [hP]
  | run id env =>
    simp only [localStep, Option.some.injEq] at hl
    have hrec := fun it => hf ▸ itemResult_recorded tm env it
    unfold ExpiredInv at hP ⊢
    cases pc with
    | execItem item1 rest1 acc1 =>
      simp only [localRun, Prod.mk.injEq] at hl
      obtain ⟨rfl, rfl⟩ := hl
      simp only at hP ⊢
      obtain ⟨h1, h2, rfl, rfl, rfl⟩ := hP
      exact ⟨h1, h2, rfl, _, rfl, hrec _⟩
    | _ =>
      simp only [localRun] at hl
      (repeat' split at hl) <;>
        (simp only [Prod.mk.injEq] at hl; obtain ⟨rfl, rfl⟩ := hl) <;>
        simp_all [Task.withStatus]
  | deadline id =>
    simp only [localStep] at hl
    have : ctx ≠ none := by have := hP.1; simp only at this; simp [this]
    simp only [this, and_false, if_false, Option.some.injEq, Prod.mk.injEq] at hl
    obtain ⟨rfl, rfl⟩ := hl; exact hP
  | watch id =>
    simp only [localStep] at hl
    have : ctx ≠ none := by have := hP.1; simp only at this; simp [this]
    simp only [this, false_and, and_false, if_false, Option.some.injEq, Prod.mk.injEq] at hl
    obtain ⟨rfl, rfl⟩ := hl; exact hP

end CandyAgent

namespace CandyAgent

theorem exec_append (s : TaskManager) (evs1 evs2 : List Event) :
    s.exec (evs1 ++ evs2) = (s.exec evs1).bind (fun s1 => s1.exec evs2) := by
  induction evs1 generalizing s with
  | nil => simp [TaskManager.exec]
  | cons e es ih =>
    simp only [List.cons_append, TaskManager.exec]
    cases s.step e with
    | none => simp
    | some s2 => simp [ih]

/-! ## Sequences of store operations: invariants -/

/-- A store operation, seen from any id: the task stored under the id
afterwards is the one stored before, or what the operation makes of it. -/
theorem apply_view (c : TaskCache) (op : StoreOp) (c1 : TaskCache)
    (hop : c.apply op = some c1) (id : String) (t1 : Task) (ht1 : c1.tasks id = some t1) :
    c.tasks id = some t1 ∨
    (∃ items timeout now, op = .add id items timeout now ∧
      t1 = newTask id items timeout now) ∨
    (∃ t status now, op = .updateStatus id status now ∧ c.tasks id = some t ∧
      t1 = t.withStatus status now) ∨
    (∃ t results, op = .updateResult id results ∧ c.tasks id = some t ∧
      t1 = { t with Results := results }) ∨
    (∃ t now, op = .cancel id now ∧ c.tasks id = some t ∧ t.Status = .Running ∧
      t.Cancel = .opened ∧ t1 = t.canceled now) := by
  cases op with
  | add k items timeout now =>
    simp only [TaskCache.apply, Option.some.injEq] at hop
    subst hop
    simp only [TaskCache.AddTask, newTask, setTask_tasks] at ht1
    split at ht1
    · rename_i hid; subst hid; cases ht1
      exact Or.inr (Or.inl ⟨items, timeout, now, rfl, rfl⟩)
    · exact Or.inl ht1
  | updateStatus k status now =>
    simp only [TaskCache.apply, Option.some.injEq] at hop
    subst hop
    cases hk : c.tasks k with
    | none =>
      simp only [TaskCache.UpdateTaskStatus, hk] at ht1
      exact Or.inl ht1
    | some t0 =>
      rw [UpdateTaskStatus_eq _ _ _ _ _ hk] at ht1
      simp only [setTask_tasks] at ht1
      split at ht1
      · rename_i hid; subst hid; cases ht1
        exact Or.inr (Or.inr (Or.inl ⟨t0, status, now, rfl, hk, rfl⟩))
      · exact Or.inl ht1
  | updateResult k results =>
    simp only [TaskCache.apply, Option.some.injEq] at hop
    subst hop
    cases hk : c.tasks k with
    | none =>
      simp only [TaskCache.UpdateTaskResult, hk] at ht1
      exact Or.inl ht1
    | some t0 =>
      simp only [TaskCache.UpdateTaskResult, hk, setTask_tasks] at ht1
      split at ht1
      · rename_i hid; subst hid; cases ht1
        exact Or.inr (Or.inr (Or.inr (Or.inl ⟨t0, results, rfl, hk, rfl⟩)))
      · exact Or.inl ht1
  | cancel k now =>
    simp only [TaskCache.apply, TaskCache.CancelTask] at hop
    cases hk : c.tasks k with
    | none =>
      simp [hk] at hop; subst hop; exact Or.inl ht1
    | some t0 =>
      simp only [hk] at hop
      by_cases hst : t0.Status = .Running
      · cases hc : t0.Cancel <;> simp [hst, hc, Chan.close] at hop
        subst hop
        simp only [setTask_tasks] at ht1
        split at ht1
        · rename_i hid; subst hid; cases ht1
          exact Or.inr (Or.inr (Or.inr (Or.inr ⟨t0, now, rfl, hk, hst, hc, rfl⟩)))
        · exact Or.inl ht1
      · simp [hst] at hop; subst hop; exact Or.inl ht1

theorem terminal_has_end_step (c : TaskCache) (op : StoreOp) (c1 : TaskCache)
    (h : ∀ id t, c.tasks id = some t → t.Status.isTerminal = true → t.EndTime ≠ 0)
    (hclock : op.clockPositive = true) (hop : c.apply op = some c1) :
    ∀ id t, c1.tasks id = some t → t.Status.isTerminal = true → t.EndTime ≠ 0 := by
  intro id t1 ht1 hterm
  rcases apply_view c op c1 hop id t1 ht1 with h0 | ⟨items, timeout, now, rfl, rfl⟩ |
    ⟨t, status, now, rfl, ht, rfl⟩ | ⟨t, results, rfl, ht, rfl⟩ | ⟨t, now, rfl, ht, _, _, rfl⟩
  · exact h id t1 h0 hterm
  · simp [newTask, TaskStatus.isTerminal] at hterm
  · simp only [StoreOp.clockPositive, decide_eq_true_eq] at hclock
    have := h id t ht
    cases status <;> simp_all [Task.withStatus, TaskStatus.isTerminal] <;>
      exact Nat.pos_iff_ne_zero.1 hclock
  · exact h id t ht hterm
  · simp only [StoreOp.clockPositive, decide_eq_true_eq] at hclock
    exact Nat.pos_iff_ne_zero.1 hclock

theorem end_iff_terminal_step (c : TaskCache) (op : StoreOp) (c1 : TaskCache)
    (h : EndTimeIffTerminal c) (hclock : op.clockPositive = true)
    (hkeep : op.keepsEnded c = true) (hop : c.apply op = some c1) :
    EndTimeIffTerminal c1 := by
  intro id t1 ht1
  rcases apply_view c op c1 hop id t1 ht1 with h0 | ⟨items, timeout, now, rfl, rfl⟩ |
    ⟨t, status, now, rfl, ht, rfl⟩ | ⟨t, results, rfl, ht, rfl⟩ | ⟨t, now, rfl, ht, _, _, rfl⟩
  · exact h id t1 h0
  · simp [newTask, TaskStatus.isTerminal]
  · simp only [StoreOp.clockPositive, decide_eq_true_eq] at hclock
    simp only [StoreOp.keepsEnded, ht, Bool.or_eq_true, decide_eq_true_eq] at hkeep
    have h1 := h id t ht
    have hpos : now ≠ 0 := Nat.pos_iff_ne_zero.1 hclock
    cases status <;> simp_all [Task.withStatus, TaskStatus.isTerminal]
  · exact h id t ht
  · simp only [StoreOp.clockPositive, decide_eq_true_eq] at hclock
    have hpos : now ≠ 0 := Nat.pos_iff_ne_zero.1 hclock
    simp [Task.canceled, TaskStatus.isTerminal, hpos]

theorem signal_guard_step (c : TaskCache) (op : StoreOp) (c1 : TaskCache)
    (h : SignalGuard c) (hkeep : op.keepsFired c = true) (hop : c.apply op = some c1) :
    SignalGuard c1 := by
  intro id t1 ht1 hrun
  rcases apply_view c op c1 hop id t1 ht1 with h0 | ⟨items, timeout, now, rfl, rfl⟩ |
    ⟨t, status, now, rfl, ht, rfl⟩ | ⟨t, results, rfl, ht, rfl⟩ | ⟨t, now, rfl, ht, _, _, rfl⟩
  · exact h id t1 h0 hrun
  · rfl
  · simp only [StoreOp.keepsFired, ht, Bool.or_eq_true, decide_eq_true_eq] at hkeep
    cases status <;> simp_all [Task.withStatus]
  · exact h id t ht hrun
  · simp [Task.canceled] at hrun

/-- With the guard, `CancelTask` never panics. -/
theorem CancelTask_total (c : TaskCache) (h : SignalGuard c) (id : String) (now : Time) :
    ∃ c1 ok, c.CancelTask id now = some (c1, ok) := by
  cases ht : c.tasks id with
  | none => exact ⟨c, false, by simp [TaskCache.CancelTask, ht]⟩
  | some t =>
    by_cases hr : t.Status = .Running
    · exact ⟨c.setTask id (t.canceled now), true,
        by simp [TaskCache.CancelTask, ht, hr, h id t ht hr, Chan.close, Task.canceled]⟩
    · exact ⟨c, false, by simp [TaskCache.CancelTask, ht, hr]⟩

/-- With the guard, `CancelTask` on a task whose signal has fired returns
false and changes nothing. -/
theorem CancelTask_fired (c : TaskCache) (h : SignalGuard c) (id : String) (now : Time)
    (t : Task) (ht : c.tasks id = some t) (hfired : t.Cancel = .closed) :
    c.CancelTask id now = some (c, false) := by
  have hne : t.Status ≠ .Running := by
    intro hr
    have := h id t ht hr
    rw [hfired] at this
    cases this
  simp [TaskCache.CancelTask, ht, hne]

theorem SignalSafe_step (s : TaskManager) (e : Event) (s1 : TaskManager) (h : SignalSafe s)
    (hs : s.step e = some s1) : SignalSafe s1 := by
  refine ⟨Paired_step s e s1 h.1 hs, ?_⟩
  intro k t1 r1 ht1 hr1
  rcases step_view s e s1 h.1 hs k with ⟨h1, h2, _⟩ | ⟨_, _, _, items, timeout, now, h1, h2⟩ |
    ⟨_, t, r, t2, r2, ht, hr, hl, h1, h2⟩
  · exact h.2 k t1 r1 (h1 ▸ ht1) (h2 ▸ hr1)
  · rw [h1] at ht1; rw [h2] at hr1
    cases ht1; cases hr1
    simp [SignalInv, newTask, Run.init]
  · rw [h1] at ht1; rw [h2] at hr1
    cases ht1; cases hr1
    exact SignalInv_step s e t r t1 r1 (h.2 k t r ht hr) hl

theorem SignalSafe_guard (tm : TaskManager) (h : SignalSafe tm) : SignalGuard tm.cache := by
  intro id t ht hrun
  have hr0 : tm.runs id ≠ none := fun hn => by simpa [ht] using (h.1 id).2 hn
  obtain ⟨r, hr⟩ := Option.ne_none_iff_exists'.1 hr0
  exact (h.2 id t r ht hr).1 hrun

theorem step_total (s : TaskManager) (e : Event) (h : SignalSafe s) :
    ∃ s1, s.step e = some s1 := by
  cases e with
  | cancel k now =>
    obtain ⟨c1, ok, h1⟩ := CancelTask_total s.cache (SignalSafe_guard s h) k now
    cases ok <;> simp [TaskManager.step, TaskManager.CancelTask, h1]
  | _ => exact ⟨_, rfl⟩

/-- No interleaving of `exec` panics: every interleaving of calls of
`CreateTask` (each one event) and `CancelTask`, goroutine steps, deadlines and
watcher wake-ups runs through, and in the state it reaches every Running task
still has its cancel channel open. -/
theorem exec_never_panics (f : ExecutorFactory) (n : Int) (url : String) (evs : List Event) :
    ∃ s, (GetTaskManager f n url).exec evs = some s ∧ SignalGuard s.cache := by
  have key : ∀ (evs : List Event) (s0 : TaskManager), SignalSafe s0 →
      ∃ s, s0.exec evs = some s ∧ SignalSafe s := by
    intro evs
    induction evs with
    | nil => intro s0 h; exact ⟨s0, rfl, h⟩
    | cons e es ih =>
      intro s0 h
      obtain ⟨s1, hs1⟩ := step_total s0 e h
      obtain ⟨s, hs, hsafe⟩ := ih s1 (SignalSafe_step s0 e s1 h hs1)
      exact ⟨s, by simp [TaskManager.exec, hs1, hs], hsafe⟩
  obtain ⟨s, hs, hsafe⟩ := key evs (GetTaskManager f n url)
    ⟨Paired_init f n url, by simp [GetTaskManager, NewTaskCache]⟩
  exact ⟨s, hs, SignalSafe_guard s hsafe⟩

theorem EndInv_step (tm : TaskManager) (e : Event) (t : Task) (r : Run) (t1 : Task)
    (r1 : Run) (hok : e.clockPositive = true) (hP : EndInv t r)
    (hl : localStep tm e t r = some (t1, r1)) : EndInv t1 r1 := by
  rcases r with ⟨pc, ctx, tmo, e1, e2⟩
  cases e with
  | create id items timeout now =>
    simp only [localStep, Option.some.injEq, Prod.mk.injEq] at hl
    obtain ⟨rfl, rfl⟩ := hl; exact hP
  | cancel id now =>
    simp only [Event.clockPositive, decide_eq_true_eq] at hok
    have hpos : now ≠ 0 := Nat.pos_iff_ne_zero.1 hok
    simp only [localStep] at hl
    split at hl
    · simp only [Option.some.injEq, Prod.mk.injEq] at hl
      obtain ⟨rfl, rfl⟩ := hl; exact hP
    · rename_i hrun
      simp only [ne_eq, not_not] at hrun
      split at hl
      · simp at hl
      · simp only [Option.some.injEq, Prod.mk.injEq] at hl
        obtain ⟨rfl, rfl⟩ := hl
        refine ⟨by simp [TaskStatus.isTerminal, hpos], ?_⟩
        intro hpc
        have := hP.2 hpc
        simp [hrun] at this
  | run id env =>
    simp only [Event.clockPositive, decide_eq_true_eq] at hok
    have hpos : env.now ≠ 0 := Nat.pos_iff_ne_zero.1 hok
    simp only [localStep, Option.some.injEq] at hl
    unfold EndInv at hP ⊢
    cases pc <;> simp only [localRun] at hl <;> (repeat' split at hl) <;>
      (simp only [Prod.mk.injEq] at hl; obtain ⟨rfl, rfl⟩ := hl) <;>
      simp_all [Task.withStatus, TaskStatus.isTerminal]
  | deadline id =>
    simp only [localStep] at hl
    unfold EndInv at hP ⊢
    split at hl <;> (simp only [Option.some.injEq, Prod.mk.injEq] at hl; obtain ⟨rfl, rfl⟩ := hl) <;>
      simp_all
  | watch id =>
    simp only [localStep] at hl
    unfold EndInv at hP ⊢
    split at hl <;> (simp only [Option.some.injEq, Prod.mk.injEq] at hl; obtain ⟨rfl, rfl⟩ := hl) <;>
      simp_all

/-- In every state the task manager reaches (clock readings non-zero), the end
time of a stored task is set if and only if its status is Completed, Failed
or Canceled: the run routine marks a task Running only while it is Pending. -/
theorem manager_end_time_iff_terminal (f : ExecutorFactory) (n : Int) (url : String)
    (evs : List Event) (s : TaskManager)
    (hexec : (GetTaskManager f n url).exec evs = some s)
    (hclock : ∀ e ∈ evs, e.clockPositive = true) : EndTimeIffTerminal s.cache := by
  intro id t ht
  have hp : Paired s :=
    exec_invariant Paired (fun _ => True) (fun s e s1 h _ hs => Paired_step s e s1 h hs)
      evs _ s (Paired_init f n url) (fun _ _ => trivial) hexec
  have hr0 : s.runs id ≠ none := fun h => by simpa [ht] using (hp id).2 h
  obtain ⟨r, hr⟩ := Option.ne_none_iff_exists'.1 hr0
  have key : EndInv t r := by
    refine local_invariant id f EndInv (fun e => e.clockPositive = true) ?_ evs _ s
      (Paired_init f n url) rfl ?_ ?_ (fun e he _ => hclock e he) hexec t r ht hr
    · intro tm e t r t1 r1 _ hok hP hl
      exact EndInv_step tm e t r t1 r1 hok hP hl
    · intro _ items timeout now
      simp [EndInv, newTask, Run.init, TaskStatus.isTerminal]
    · intro t r ht
      simp [GetTaskManager, NewTaskCache] at ht
  exact key.1

theorem localRun_progress (tm : TaskManager) (env : Env) (t : Task) (r : Run)
    (hfree : r.pc = .acquire → tm.workerPool < tm.maxWorkers) :
    (localRun tm env t r).2.pc ≠ .acquire ∧
    stepsLeft (localRun tm env t r).1 (localRun tm env t r).2 ≤ stepsLeft t r - 1 := by
  rcases r with ⟨pc, ctx, tmo, e1, e2⟩
  cases pc with
  | acquire =>
    have := hfree rfl
    simp [localRun, this, stepsLeft]
  | loopTop rest acc =>
    cases rest with
    | nil => simp [localRun, stepsLeft]
    | cons item rest =>
      simp only [localRun]
      split
      · simp [stepsLeft]
      · refine ⟨by simp, ?_⟩
        simp only [stepsLeft, List.length_cons]
        omega
  | _ =>
    simp only [localRun]
    (repeat' split) <;> simp [stepsLeft, Task.withStatus]

/-- Termination of a run: from any state in which the goroutine of a task
is not blocked on a full pool, `stepsLeft` steps of that goroutine (under any
environments) bring it to its return. -/
theorem run_terminates (envs : List Env) (s : TaskManager) (id : String) (t : Task) (r : Run)
    (ht : s.cache.tasks id = some t) (hr : s.runs id = some r)
    (hfree : r.pc = .acquire → s.workerPool < s.maxWorkers)
    (hlen : stepsLeft t r ≤ envs.length) :
    ∃ s1 t1 r1, s.exec (envs.map (Event.run id)) = some s1 ∧
      s1.cache.tasks id = some t1 ∧ s1.runs id = some r1 ∧ r1.pc = .done := by
  induction envs generalizing s t r with
  | nil =>
    refine ⟨s, t, r, rfl, ht, hr, ?_⟩
    simp only [List.length_nil, Nat.le_zero_eq] at hlen
    rcases r with ⟨pc, ctx, tmo, e1, e2⟩
    cases pc <;> simp [stepsLeft] at hlen ⊢
  | cons env envs ih =>
    have hv := executeTask_view s id env t r ht hr id
    simp only [if_true] at hv
    obtain ⟨hp1, hp2⟩ := localRun_progress s env t r hfree
    obtain ⟨s1, t1, r1, h1, h2, h3, h4⟩ :=
      ih (s.executeTask id env) _ _ hv.1 hv.2 (fun h => absurd h hp1)
        (by simp only [List.length_cons] at hlen; omega)
    exact ⟨s1, t1, r1, by simp [TaskManager.exec, TaskManager.step, h1], h2, h3, h4⟩

/-! ## The loop bookkeeping for any relation between items and results -/

/-- The loop bookkeeping `LoopInv Q` holds of every pair reached from a fresh
manager, for every relation `Q` that the result appended for an item
satisfies. -/
theorem reachable_loop (f : ExecutorFactory) (n : Int) (url : String)
    (Q : TaskItem → TaskResult → Prop)
    (hQ : ∀ (tm : TaskManager) (env : Env) (item : TaskItem), tm.executorFactory = f →
      Q item (tm.itemResult env item))
    (evs : List Event) (s : TaskManager)
    (hexec : (GetTaskManager f n url).exec evs = some s) (id : String) (t : Task) (r : Run)
    (ht : s.cache.tasks id = some t) (hr : s.runs id = some r) : LoopInv Q t r := by
  refine local_invariant id f (LoopInv Q) (fun _ => True) ?_ evs _ s (Paired_init f n url) rfl
    ?_ ?_ (fun _ _ _ => trivial) hexec t r ht hr
  · rintro tm e t r t1 r1 hf - h hl
    exact LoopInv_step Q tm e t r t1 r1 (fun _ env item _ => hQ tm env item hf) h hl
  · intro _ items timeout now
    simp [LoopInv, newTask, Run.init]
  · intro t r ht
    simp [GetTaskManager, NewTaskCache] at ht

/-- With the loop bookkeeping, the stored results answer one by one to a
prefix of the items. -/
theorem loop_results (Q : TaskItem → TaskResult → Prop) (t : Task) (r : Run)
    (hloop : LoopInv Q t r) :
    ∃ done rest, t.Items = done ++ rest ∧ List.Forall₂ Q done t.Results := by
  rcases r with ⟨pc, ctx, tmo, e1, e2⟩
  unfold LoopInv at hloop
  cases pc <;> simp only at hloop
  case acquire => exact ⟨[], t.Items, by simp, by simp [hloop]⟩
  case start => exact ⟨[], t.Items, by simp, by simp [hloop]⟩
  case loopTop => exact ⟨[], t.Items, by simp, by simp [hloop.1]⟩
  case execItem => exact ⟨[], t.Items, by simp, by simp [hloop.1]⟩
  case persist => exact ⟨[], t.Items, by simp, by simp [hloop.1]⟩
  all_goals
    obtain ⟨done, rest, h1, h2, _⟩ := hloop
    exact ⟨done, rest, h1, h2⟩

/-- The result at an index of a list related to a prefix of another list is
related to the element at that index. -/
theorem forall₂_prefix_getElem? {α β : Type} (R : α → β → Prop) (done rest : List α)
    (l2 : List β) (h : List.Forall₂ R done l2) (i : Nat) (a : α) (b : β)
    (ha : (done ++ rest)[i]? = some a) (hb : l2[i]? = some b) : R a b := by
  have hlen := h.length_eq
  have hi : i < l2.length := by
    by_contra hge
    rw [List.getElem?_eq_none (by omega)] at hb
    cases hb
  rw [List.getElem?_append_left (by omega)] at ha
  obtain ⟨b1, hb1, hR⟩ := forall₂_getElem? R done l2 h i a ha
  rw [hb] at hb1
  cases hb1
  exact hR

theorem itemResult_named (tm : TaskManager) (env : Env) (item : TaskItem) :
    NamedUnknown tm.executorFactory item (tm.itemResult env item) := by
  intro h
  have h1 : "执行失败: " ++ "创建执行器失败: " ++ "executor not found: "
      = "执行失败: 创建执行器失败: executor not found: " := by decide
  have h2 : "任务项执行错误: " ++ "创建执行器失败: " ++ "executor not found: "
      = "任务项执行错误: 创建执行器失败: executor not found: " := by decide
  simp only [TaskManager.itemResult, TaskManager.executeTaskItem, ExecutorFactory.Create, h,
    ← String.append_assoc, h1, h2]

theorem Paired_reachable (f : ExecutorFactory) (n : Int) (url : String) (evs : List Event)
    (s : TaskManager) (hexec : (GetTaskManager f n url).exec evs = some s) : Paired s :=
  exec_invariant Paired (fun _ => True) (fun s e s1 h _ hs => Paired_step s e s1 h hs)
    evs _ s (Paired_init f n url) (fun _ _ => trivial) hexec

theorem factory_reachable (f : ExecutorFactory) (n : Int) (url : String) (evs : List Event)
    (s : TaskManager) (hexec : (GetTaskManager f n url).exec evs = some s) :
    s.executorFactory = f :=
  exec_invariant (fun tm => tm.executorFactory = f) (fun _ => True)
    (fun s e s1 h _ hs => (step_factory s e s1 hs).trans h)
    evs _ s rfl (fun _ _ => trivial) hexec

/-! ## The synchronous path -/

/-- The loop of the synchronous path: what it appends to the results, and
the status it leaves. -/
theorem loop_spec (f : ExecutorFactory) (envs : Nat → SyncEnv) :
    ∀ (items : List ReqTaskItem) (i : Nat) (resp : TaskResponse),
    ∃ tail, (ExecuteTaskService.loop f envs i items resp).Results = resp.Results ++ tail ∧
      (∀ (k : Nat) (item : ReqTaskItem), items[k]? = some item →
        (∀ j, j ≤ k → (envs (i + j)).ctxErr = none) →
        tail[k]? = some (ExecuteTaskService.runItem f (envs (i + k)) item).2) ∧
      ((∀ j, j < items.length → (envs (i + j)).ctxErr = none) →
        (ExecuteTaskService.loop f envs i items resp).Status = resp.Status ∧
        tail.length = items.length) ∧
      (∀ j, j < items.length → (envs (i + j)).ctxErr ≠ none →
        (ExecuteTaskService.loop f envs i items resp).Status = .FAILED ∧
        tail.length < items.length) := by
  intro items
  induction items with
  | nil =>
    intro i resp
    refine ⟨[], by simp [ExecuteTaskService.loop], ?_, ?_, ?_⟩
    · intro k item hk; simp at hk
    · intro _; simp [ExecuteTaskService.loop]
    · intro j hj; simp at hj
  | cons item rest ih =>
    intro i resp
    cases hctx : (envs i).ctxErr with
    | some err =>
      refine ⟨[], by simp [ExecuteTaskService.loop, hctx], ?_, ?_, ?_⟩
      · intro k it _ hlive
        have := hlive 0 (Nat.zero_le k)
        simp [hctx] at this
      · intro hlive
        have := hlive 0 (by simp)
        simp [hctx] at this
      · intro j _ _
        simp [ExecuteTaskService.loop, hctx]
    | none =>
      obtain ⟨tail, h1, h2, h3, h4⟩ := ih (i + 1)
        { resp with Results := resp.Results ++ [(ExecuteTaskService.runItem f (envs i) item).2] }
      have hloop : ExecuteTaskService.loop f envs i (item :: rest) resp
          = ExecuteTaskService.loop f envs (i + 1) rest
              { resp with Results := resp.Results ++
                  [(ExecuteTaskService.runItem f (envs i) item).2] } := by
        simp [ExecuteTaskService.loop, hctx]
      rw [hloop]
      refine ⟨(ExecuteTaskService.runItem f (envs i) item).2 :: tail, by simp [h1], ?_, ?_, ?_⟩
      · intro k it hk hlive
        cases k with
        | zero =>
          simp at hk
          subst hk
          simp
        | succ k1 =>
          simp only [List.getElem?_cons_succ] at hk ⊢
          have := h2 k1 it hk (fun j hj => by
            have := hlive (j + 1) (by omega)
            rwa [show i + 1 + j = i + (j + 1) by omega])
          rwa [show i + 1 + k1 = i + (k1 + 1) by omega] at this
      · intro hlive
        have := h3 (fun j hj => by
          have := hlive (j + 1) (by simp; omega)
          rwa [show i + 1 + j = i + (j + 1) by omega])
        simp only at this
        exact ⟨this.1, by simp [this.2]⟩
      · intro j hj herr
        cases j with
        | zero => simp [hctx] at herr
        | succ j1 =>
          have := h4 j1 (by simp at hj; omega)
            (by rwa [show i + 1 + j1 = i + (j1 + 1) by omega])
          exact ⟨this.1, by simp; omega⟩

/-- The response of `Run` has the status and the results the loop leaves. -/
theorem Run_loop (f : ExecutorFactory) (req : TaskRequest) (clock : SyncClock)
    (envs : Nat → SyncEnv) :
    (ExecuteTaskService.Run f req clock envs).2 = none ∧
    (ExecuteTaskService.Run f req clock envs).1.Status
      = (ExecuteTaskService.loop f envs 0 req.Items
          { TaskId := req.TaskId, Status := .COMPLETED, Results := [],
            StartTime := clock.startTime, EndTime := 0, Message := "" }).Status ∧
    (ExecuteTaskService.Run f req clock envs).1.Results
      = (ExecuteTaskService.loop f envs 0 req.Items
          { TaskId := req.TaskId, Status := .COMPLETED, Results := [],
            StartTime := clock.startTime, EndTime := 0, Message := "" }).Results := by
  unfold ExecuteTaskService.Run
  simp only
  split <;> simp

/-- The results of `Run`, item by item, and its status. -/
theorem Run_spec (f : ExecutorFactory) (req : TaskRequest) (clock : SyncClock)
    (envs : Nat → SyncEnv) :
    (∀ (k : Nat) (item : ReqTaskItem), req.Items[k]? = some item →
      (∀ j, j ≤ k → (envs j).ctxErr = none) →
      (ExecuteTaskService.Run f req clock envs).1.Results[k]?
        = some (ExecuteTaskService.runItem f (envs k) item).2) ∧
    ((∀ j, j < req.Items.length → (envs j).ctxErr = none) →
      (ExecuteTaskService.Run f req clock envs).1.Status = .COMPLETED ∧
      (ExecuteTaskService.Run f req clock envs).1.Results.length = req.Items.length) ∧
    (∀ j, j < req.Items.length → (envs j).ctxErr ≠ none →
      (ExecuteTaskService.Run f req clock envs).1.Status = .FAILED ∧
      (ExecuteTaskService.Run f req clock envs).1.Results.length < req.Items.length) := by
  obtain ⟨_, hst, hres⟩ := Run_loop f req clock envs
  obtain ⟨tail, h1, h2, h3, h4⟩ := loop_spec f envs req.Items 0
    { TaskId := req.TaskId, Status := .COMPLETED, Results := [],
      StartTime := clock.startTime, EndTime := 0, Message := "" }
  simp only [List.nil_append, Nat.zero_add] at h1 h2 h3 h4
  rw [hst, hres, h1]
  exact ⟨h2, h3, h4⟩

/-- The error branches of the synchronous loop are taken exactly when
`executeTaskItem` of the asynchronous run returns an error, which is when the
type is unregistered or the executor returns an error. -/
theorem runItem_error_iff (tm : TaskManager) (senv : SyncEnv) (env : Env) (item : ReqTaskItem)
    (hw : env.world = senv.world) :
    ((ExecuteTaskService.runItem tm.executorFactory senv item).1 = true ↔
      ∃ err, tm.executeTaskItem env (ExecuteTaskService.modelItem item) = .error err) ∧
    ((ExecuteTaskService.runItem tm.executorFactory senv item).1 = true ↔
      (tm.executorFactory.executors item.Typ = none ∨
        ∃ executor err, tm.executorFactory.executors item.Typ = some executor ∧
          (executor.Execute senv.world (ExecuteTaskService.modelItem item)).2 = some err)) ∧
    ((ExecuteTaskService.runItem tm.executorFactory senv item).1 = true →
      (ExecuteTaskService.runItem tm.executorFactory senv item).2.Status = .FAILED ∧
      (tm.itemResult env (ExecuteTaskService.modelItem item)).Status = .Failed) ∧
    (ExecuteTaskService.runItem tm.executorFactory senv item).2.ItemId = item.Id ∧
    (tm.itemResult env (ExecuteTaskService.modelItem item)).ItemID
      = (ExecuteTaskService.modelItem item).ID := by
  unfold ExecuteTaskService.runItem TaskManager.itemResult TaskManager.executeTaskItem
    ExecutorFactory.Create
  have hty : (ExecuteTaskService.modelItem item).Typ = item.Typ := rfl
  rw [hty, hw]
  cases hx : tm.executorFactory.executors item.Typ with
  | none => simp
  | some ex =>
    simp only
    rcases hr : ex.Execute senv.world (ExecuteTaskService.modelItem item) with ⟨res, _ | err⟩ <;>
      simp [hr]

theorem CalmInv_reachable (f : ExecutorFactory) (n : Int) (url : String)
    (evs : List Event) (s : TaskManager) (id : String) (t : Task) (r : Run)
    (hexec : (GetTaskManager f n url).exec evs = some s)
    (hctx : ∀ e ∈ evs, e ≠ .deadline id ∧ e ≠ .watch id)
    (ht : s.cache.tasks id = some t) (hr : s.runs id = some r) : CalmInv t r := by
  refine local_invariant id f CalmInv Event.keepsContext ?_ evs _ s (Paired_init f n url) rfl
    ?_ ?_ ?_ hexec t r ht hr
  · intro tm e t r t1 r1 _ hok hP hl
    exact CalmInv_step tm e t r t1 r1 hok hP hl
  · intro _ items timeout now
    simp [CalmInv, Run.init]
  · intro t r ht
    simp [GetTaskManager, NewTaskCache] at ht
  · intro e he htarget
    have := hctx e he
    cases e <;> simp_all [Event.keepsContext, Event.target]

/-! ## The rule manager and the vector threshold check -/

/-- The rules `ListRules` returns carry the rule type it was asked for. -/
theorem ListRules_typ (m : K8sRuleManager) (ruleType ns labelSelector : String)
    (rules : List AlertRule) (h : m.ListRules ruleType ns labelSelector = .ok rules) :
    ∀ rule ∈ rules, rule.Typ = ruleType := by
  unfold K8sRuleManager.ListRules at h
  split at h
  · cases h
  · simp only at h
    split at h
    · cases h
    · simp only [Except.ok.injEq] at h
      subst h
      intro rule hrule
      simp only [List.mem_map] at hrule
      obtain ⟨_, _, rfl⟩ := hrule
      rfl

/-- The nodes the loop of the vector check has noted are those noted before
it, followed by the nodes of the list whose value parses and exceeds the
threshold. -/
theorem scan_exceeding {α : Type} [LT α] [DecidableRel (fun a b : α => a < b)] (threshold : α) :
    ∀ (allValues : List (String × Option α)) (s : VectorScan α),
      (allValues.foldl (scanInstance threshold) s).exceedingNodes
        = s.exceedingNodes ++ allValues.filterMap (exceeding threshold) := by
  intro allValues
  induction allValues with
  | nil => intro s; simp
  | cons p rest ih =>
    intro s
    obtain ⟨node, v⟩ := p
    simp only [List.foldl_cons]
    rw [ih]
    cases v with
    | none => simp [scanInstance, exceeding]
    | some v =>
      by_cases h : threshold < v
      · by_cases h2 : s.highestValue < v <;> simp [scanInstance, exceeding, h, h2]
      · simp [scanInstance, exceeding, h]

/-! ## A loop stopped by its context -/

theorem StoppedInv_step (items : List TaskItem) (item : TaskItem)
    (rest : List TaskItem) (acc : List TaskResult) (tm : TaskManager) (e : Event)
    (t : Task) (r : Run) (t1 : Task) (r1 : Run)
    (hP : StoppedInv items item rest acc t r)
    (hl : localStep tm e t r = some (t1, r1)) :
    StoppedInv items item rest acc t1 r1 := by
  rcases r with ⟨pc, ctx, tmo, e1, e2⟩
  cases e with
  | create id items timeout now =>
    simp only [localStep, Option.some.injEq, Prod.mk.injEq] at hl
    obtain ⟨rfl, rfl⟩ := hl; exact hP
  | cancel id now =>
    simp only [localStep] at hl
    split at hl
    · simp only [Option.some.injEq, Prod.mk.injEq] at hl
      obtain ⟨rfl, rfl⟩ := hl; exact hP
    · split at hl
      · simp at hl
      · simp only [Option.some.injEq, Prod.mk.injEq] at hl
        obtain ⟨rfl, rfl⟩ := hl
        unfold StoppedInv at hP ⊢
        cases pc <;> simp at hP <;> simp [hP]
  | run id env =>
    simp only [localStep, Option.some.injEq] at hl
    unfold StoppedInv at hP ⊢
    cases pc <;> simp only [localRun] at hl <;> (repeat' split at hl) <;>
      (simp only [Prod.mk.injEq] at hl; obtain ⟨rfl, rfl⟩ := hl) <;>
      simp_all [Task.withStatus]
  | deadline id =>
    simp only [localStep] at hl
    have : ctx ≠ none := hP.1
    simp only [this, and_false, if_false, Option.some.injEq, Prod.mk.injEq] at hl
    obtain ⟨rfl, rfl⟩ := hl; exact hP
  | watch id =>
    simp only [localStep] at hl
    have : ctx ≠ none := hP.1
    simp only [this, false_and, and_false, if_false, Option.some.injEq, Prod.mk.injEq] at hl
    obtain ⟨rfl, rfl⟩ := hl; exact hP

/-! ## The worker pool -/

@[simp] theorem setRun_workerPool (tm : TaskManager) (id : String) (r : Run) :
    (tm.setRun id r).workerPool = tm.workerPool := rfl

@[simp] theorem setRun_maxWorkers (tm : TaskManager) (id : String) (r : Run) :
    (tm.setRun id r).maxWorkers = tm.maxWorkers := rfl

/-- A goroutine step without its task or without its goroutine is no step. -/
theorem executeTask_absent (tm : TaskManager) (id : String) (env : Env)
    (h : tm.cache.tasks id = none ∨ tm.runs id = none) : tm.executeTask id env = tm := by
  unfold TaskManager.executeTask
  rcases h with h | h
  · simp only [h]; split <;> simp_all
  · simp [h]

/-- What a goroutine step does to the worker pool. -/
theorem executeTask_pool (tm : TaskManager) (id : String) (env : Env) (task : Task) (r : Run)
    (ht : tm.cache.tasks id = some task) (hr : tm.runs id = some r) :
    (tm.executeTask id env).maxWorkers = tm.maxWorkers ∧
    (tm.executeTask id env).workerPool
      = (match r.pc with
         | .acquire => if tm.workerPool < tm.maxWorkers then tm.workerPool + 1 else tm.workerPool
         | .deferred => tm.workerPool - 1
         | _ => tm.workerPool) := by
  unfold TaskManager.executeTask
  simp only [ht, hr]
  rcases r with ⟨pc, ctx, tmo, e1, e2⟩
  cases pc <;> simp only <;> (repeat' split) <;> simp_all

/-- Events other than goroutine steps leave the worker pool alone. -/
theorem step_pool_other (s : TaskManager) (e : Event) (s1 : TaskManager)
    (hs : s.step e = some s1) (hne : ∀ id env, e ≠ .run id env) :
    s1.maxWorkers = s.maxWorkers ∧ s1.workerPool = s.workerPool := by
  cases e with
  | create id items timeout now =>
    simp only [TaskManager.step, Option.some.injEq] at hs
    subst hs
    unfold TaskManager.CreateTask
    split <;> simp
  | cancel id now =>
    simp only [TaskManager.step, TaskManager.CancelTask] at hs
    cases hc : s.cache.CancelTask id now with
    | none => simp [hc] at hs
    | some p =>
      obtain ⟨c, ok⟩ := p
      cases ok <;> simp [hc] at hs <;> subst hs <;> exact ⟨rfl, rfl⟩
  | run id env => exact absurd rfl (hne id env)
  | deadline id =>
    simp only [TaskManager.step, Option.some.injEq] at hs
    subst hs
    unfold TaskManager.deadline
    repeat' split
    all_goals simp
  | watch id =>
    simp only [TaskManager.step, Option.some.injEq] at hs
    subst hs
    unfold TaskManager.watch
    repeat' split
    all_goals simp

/-- Events other than goroutine steps leave every program counter alone. -/
theorem localStep_pc (tm : TaskManager) (e : Event) (t : Task) (r : Run) (t1 : Task) (r1 : Run)
    (hne : ∀ id env, e ≠ .run id env) (hl : localStep tm e t r = some (t1, r1)) :
    r1.pc = r.pc := by
  cases e with
  | create id items timeout now =>
    simp only [localStep, Option.some.injEq, Prod.mk.injEq] at hl
    obtain ⟨rfl, rfl⟩ := hl; rfl
  | cancel id now =>
    simp only [localStep] at hl
    split at hl
    · simp only [Option.some.injEq, Prod.mk.injEq] at hl
      obtain ⟨rfl, rfl⟩ := hl; rfl
    · split at hl
      · simp at hl
      · simp only [Option.some.injEq, Prod.mk.injEq] at hl
        obtain ⟨rfl, rfl⟩ := hl; rfl
  | run id env => exact absurd rfl (hne id env)
  | deadline id =>
    simp only [localStep] at hl
    split at hl <;> (simp only [Option.some.injEq, Prod.mk.injEq] at hl; obtain ⟨rfl, rfl⟩ := hl) <;>
      rfl
  | watch id =>
    simp only [localStep] at hl
    split at hl <;> (simp only [Option.some.injEq, Prod.mk.injEq] at hl; obtain ⟨rfl, rfl⟩ := hl) <;>
      rfl

/-- Events other than goroutine steps leave the holders of slots alone. -/
theorem step_holds_other (s : TaskManager) (e : Event) (s1 : TaskManager) (hp : Paired s)
    (hs : s.step e = some s1) (hne : ∀ id env, e ≠ .run id env) (k : String) :
    s1.holds k = s.holds k := by
  unfold TaskManager.holds
  rcases step_view s e s1 hp hs k with ⟨_, h2, _⟩ | ⟨_, _, h0, _, _, _, _, h2⟩ |
    ⟨_, t, r, t1, r1, _, hr, hl, _, h2⟩
  · rw [h2]
  · rw [h2, h0]; rfl
  · rw [h2, hr]
    simp only [localStep_pc s e t r t1 r1 hne hl]

/-- A goroutine step that neither takes nor gives back a slot leaves the
goroutine a holder or a non-holder as it was. -/
theorem localRun_holds (tm : TaskManager) (env : Env) (t : Task) (r : Run)
    (h1 : r.pc ≠ .acquire) (h2 : r.pc ≠ .deferred) :
    (localRun tm env t r).2.pc.holdsSlot = r.pc.holdsSlot := by
  rcases r with ⟨pc, ctx, tmo, e1, e2⟩
  cases pc <;> simp only [localRun] <;> (repeat' split) <;> simp_all [Pc.holdsSlot]

theorem PoolInv_step (s : TaskManager) (e : Event) (s1 : TaskManager) (h : PoolInv s)
    (hs : s.step e = some s1) : PoolInv s1 := by
  obtain ⟨hp, hle, holders, hnd, hlen, hmem⟩ := h
  refine ⟨Paired_step s e s1 hp hs, ?_⟩
  by_cases hrun : ∀ id env, e ≠ .run id env
  · obtain ⟨hm, hw⟩ := step_pool_other s e s1 hs hrun
    rw [hm, hw]
    refine ⟨hle, holders, hnd, hlen, fun k => ?_⟩
    rw [step_holds_other s e s1 hp hs hrun k]
    exact hmem k
  · push_neg at hrun
    obtain ⟨id, env, rfl⟩ := hrun
    simp only [TaskManager.step, Option.some.injEq] at hs
    subst hs
    cases ht : s.cache.tasks id with
    | none =>
      rw [executeTask_absent s id env (Or.inl ht)]
      exact ⟨hle, holders, hnd, hlen, hmem⟩
    | some t =>
      cases hr : s.runs id with
      | none =>
        rw [executeTask_absent s id env (Or.inr hr)]
        exact ⟨hle, holders, hnd, hlen, hmem⟩
      | some r =>
        obtain ⟨hm, hw⟩ := executeTask_pool s id env t r ht hr
        have hv := fun k => (executeTask_view s id env t r ht hr k).2
        have hother : ∀ k, k ≠ id → (s.executeTask id env).holds k = s.holds k := by
          intro k hk
          unfold TaskManager.holds
          rw [hv k, if_neg hk]
        have hself : (s.executeTask id env).holds id = (localRun s env t r).2.pc.holdsSlot := by
          unfold TaskManager.holds
          rw [hv id, if_pos rfl]
        have hbefore : s.holds id = r.pc.holdsSlot := by
          unfold TaskManager.holds
          rw [hr]
        rw [hm, hw]
        by_cases hacq : r.pc = .acquire
        · rw [hacq]
          simp only
          by_cases hfree : s.workerPool < s.maxWorkers
          · rw [if_pos hfree]
            have hnot : id ∉ holders := by
              intro hin
              have := (hmem id).1 hin
              rw [hbefore, hacq] at this
              simp [Pc.holdsSlot] at this
            refine ⟨hfree, id :: holders, List.nodup_cons.2 ⟨hnot, hnd⟩, by simp [hlen], ?_⟩
            intro k
            by_cases hk : k = id
            · subst hk
              rw [hself]
              rcases r with ⟨pc, ctx, tmo, e1, e2⟩
              simp only at hacq
              subst hacq
              simp [localRun, hfree, Pc.holdsSlot]
            · rw [hother k hk]
              simp [hk, hmem k]
          · rw [if_neg hfree]
            refine ⟨hle, holders, hnd, hlen, fun k => ?_⟩
            by_cases hk : k = id
            · subst hk
              rw [hself, hmem k, hbefore]
              rcases r with ⟨pc, ctx, tmo, e1, e2⟩
              simp only at hacq
              subst hacq
              simp [localRun, hfree]
            · rw [hother k hk]
              exact hmem k
        · by_cases hdef : r.pc = .deferred
          · rw [hdef]
            simp only
            have hin : id ∈ holders := by
              rw [hmem id, hbefore, hdef]
              rfl
            refine ⟨by omega, holders.erase id, hnd.erase id, ?_, ?_⟩
            · rw [List.length_erase_of_mem hin, hlen]
            · intro k
              rw [hnd.mem_erase_iff]
              by_cases hk : k = id
              · subst hk
                rw [hself]
                rcases r with ⟨pc, ctx, tmo, e1, e2⟩
                simp only at hdef
                subst hdef
                simp [localRun, Pc.holdsSlot]
              · rw [hother k hk]
                simp [hk, hmem k]
          · have hsame : (match r.pc with
                | .acquire =>
                  if s.workerPool < s.maxWorkers then s.workerPool + 1 else s.workerPool
                | .deferred => s.workerPool - 1
                | _ => s.workerPool) = s.workerPool := by
              rcases r with ⟨pc, ctx, tmo, e1, e2⟩
              cases pc <;> simp_all
            rw [hsame]
            refine ⟨hle, holders, hnd, hlen, fun k => ?_⟩
            by_cases hk : k = id
            · subst hk
              rw [hself, localRun_holds s env t r hacq hdef, hmem k, hbefore]
            · rw [hother k hk]
              exact hmem k

theorem PoolInv_reachable (f : ExecutorFactory) (n : Int) (url : String) (evs : List Event)
    (s : TaskManager) (hexec : (GetTaskManager f n url).exec evs = some s) :
    PoolInv s ∧ s.maxWorkers = (GetTaskManager f n url).maxWorkers := by
  refine exec_invariant
    (fun tm => PoolInv tm ∧ tm.maxWorkers = (GetTaskManager f n url).maxWorkers)
    (fun _ => True) ?_ evs _ s ?_ (fun _ _ => trivial) hexec
  · rintro tm e tm1 ⟨h1, h2⟩ - hs
    refine ⟨PoolInv_step tm e tm1 h1 hs, ?_⟩
    by_cases hrun : ∀ id env, e ≠ .run id env
    · rw [(step_pool_other tm e tm1 hs hrun).1, h2]
    · push_neg at hrun
      obtain ⟨id, env, rfl⟩ := hrun
      simp only [TaskManager.step, Option.some.injEq] at hs
      subst hs
      cases ht : tm.cache.tasks id with
      | none => rw [executeTask_absent tm id env (Or.inl ht), h2]
      | some t =>
        cases hr : tm.runs id with
        | none => rw [executeTask_absent tm id env (Or.inr hr), h2]
        | some r => rw [(executeTask_pool tm id env t r ht hr).1, h2]
  · refine ⟨⟨Paired_init f n url, Nat.zero_le _, [], List.nodup_nil, rfl, fun k => ?_⟩, rfl⟩
    simp [TaskManager.holds, GetTaskManager]

/-- A goroutine that finds the pool full does not move. -/
theorem executeTask_blocked (tm : TaskManager) (id : String) (env : Env) (r : Run)
    (hr : tm.runs id = some r) (hpc : r.pc = .acquire) (hfull : ¬ tm.workerPool < tm.maxWorkers) :
    tm.executeTask id env = tm := by
  cases ht : tm.cache.tasks id with
  | none => exact executeTask_absent tm id env (Or.inl ht)
  | some t =>
    unfold TaskManager.executeTask
    simp only [ht, hr, hpc, if_neg hfull]

/-- The only step that takes a token out of the worker pool is the deferred
release of a goroutine. -/
theorem step_release (s : TaskManager) (e : Event) (s1 : TaskManager)
    (hs : s.step e = some s1) (hlt : s1.workerPool < s.workerPool) :
    ∃ id env r, e = .run id env ∧ s.runs id = some r ∧ r.pc = .deferred := by
  by_cases hrun : ∀ id env, e ≠ .run id env
  · rw [(step_pool_other s e s1 hs hrun).2] at hlt
    exact absurd hlt (Nat.lt_irrefl _)
  · push_neg at hrun
    obtain ⟨id, env, rfl⟩ := hrun
    simp only [TaskManager.step, Option.some.injEq] at hs
    subst hs
    cases ht : s.cache.tasks id with
    | none =>
      rw [executeTask_absent s id env (Or.inl ht)] at hlt
      exact absurd hlt (Nat.lt_irrefl _)
    | some t =>
      cases hr : s.runs id with
      | none =>
        rw [executeTask_absent s id env (Or.inr hr)] at hlt
        exact absurd hlt (Nat.lt_irrefl _)
      | some r =>
        refine ⟨id, env, r, rfl, hr, ?_⟩
        rw [(executeTask_pool s id env t r ht hr).2] at hlt
        rcases r with ⟨pc, ctx, tmo, e1, e2⟩
        cases pc <;> simp only at hlt <;> first
          | rfl
          | exact absurd hlt (Nat.lt_irrefl _)
          | (split at hlt <;> omega)

/-! ## The loop bookkeeping, item by item at its own turn -/

/-- The step lemma of `LoopInv`, asking `Q` of the appended result only for
the item in flight. -/
theorem LoopInv_step_at (Q : TaskItem → TaskResult → Prop) (tm : TaskManager) (e : Event)
    (t : Task) (r : Run) (t1 : Task) (r1 : Run)
    (hQ : ∀ id env item rest acc, e = .run id env → r.pc = .execItem item rest acc →
      Q item (tm.itemResult env item))
    (hP : LoopInv Q t r) (hl : localStep tm e t r = some (t1, r1)) :
    LoopInv Q t1 r1 := by
  rcases r with ⟨pc, ctx, tmo, e1, e2⟩
  cases e with
  | create id items timeout now =>
    simp only [localStep, Option.some.injEq, Prod.mk.injEq] at hl
    obtain ⟨rfl, rfl⟩ := hl; exact hP
  | cancel id now =>
    simp only [localStep] at hl
    split at hl
    · simp only [Option.some.injEq, Prod.mk.injEq] at hl
      obtain ⟨rfl, rfl⟩ := hl; exact hP
    · split at hl
      · simp at hl
      · simp only [Option.some.injEq, Prod.mk.injEq] at hl
        obtain ⟨rfl, rfl⟩ := hl
        unfold LoopInv at hP ⊢
        cases pc <;> simpa using hP
  | run id env =>
    simp only [localStep, Option.some.injEq] at hl
    unfold LoopInv at hP ⊢
    cases pc with
    | execItem item rest acc =>
      have hq := hQ id env item rest acc rfl rfl
      simp only [localRun, Prod.mk.injEq] at hl
      obtain ⟨rfl, rfl⟩ := hl
      simp only at hP ⊢
      obtain ⟨h1, done, h2, h3⟩ := hP
      refine ⟨h1, done ++ [item], by simp [h2], ?_⟩
      exact List.rel_append h3 (List.Forall₂.cons hq List.Forall₂.nil)
    | loopTop rest acc =>
      cases rest with
      | nil =>
        simp only [localRun, Prod.mk.injEq] at hl
        obtain ⟨rfl, rfl⟩ := hl
        simp only at hP ⊢
        obtain ⟨h1, done, h2, h3⟩ := hP
        exact ⟨h1, done, [], h2, h3, by simp⟩
      | cons item rest =>
        simp only [localRun] at hl
        split at hl <;> (simp only [Prod.mk.injEq] at hl; obtain ⟨rfl, rfl⟩ := hl) <;>
          simp only at hP ⊢
        · obtain ⟨h1, done, h2, h3⟩ := hP
          exact ⟨h1, done, item :: rest, h2, h3, fun _ => by assumption⟩
        · exact hP
    | _ =>
      simp only [localRun] at hl
      (repeat' split at hl) <;>
        (simp only [Prod.mk.injEq] at hl; obtain ⟨rfl, rfl⟩ := hl) <;>
        simp_all [Task.withStatus]
  | deadline id =>
    exact LoopInv_step Q tm (.deadline id) t _ t1 r1 (fun _ _ _ h => by cases h) hP hl
  | watch id =>
    exact LoopInv_step Q tm (.watch id) t _ t1 r1 (fun _ _ _ h => by cases h) hP hl

/-- The result the loop appends for an item is what `Attempted` describes,
in the world of the step. -/
theorem itemResult_attempted (tm : TaskManager) (env : Env) (item : TaskItem)
    (W : Env → Prop) (hW : W env) :
    Attempted tm.executorFactory W item (tm.itemResult env item) := by
  unfold Attempted
  cases hx : tm.executorFactory.executors item.Typ with
  | none =>
    have h := itemResult_named tm env item hx
    rw [h]
    exact ⟨rfl, fun _ => ⟨rfl, rfl⟩, fun executor he => (by cases he)⟩
  | some ex =>
    have hid : (tm.itemResult env item).ItemID = item.ID := (itemResult_recorded tm env item).1
    refine ⟨hid, fun h => (by cases h), ?_⟩
    intro executor he
    cases he
    refine ⟨env, hW, ?_⟩
    unfold TaskManager.itemResult TaskManager.executeTaskItem ExecutorFactory.Create
    simp only [hx]
    rcases hr : ex.Execute env.world item with ⟨res0, _ | err⟩
    · left; exact ⟨rfl, rfl⟩
    · right; exact ⟨err, rfl, rfl⟩

theorem forall₂_attempted_ids (f : ExecutorFactory) (W : Env → Prop) (items : List TaskItem)
    (results : List TaskResult) (h : List.Forall₂ (Attempted f W) items results) :
    results.map (·.ItemID) = items.map (·.ID) := by
  induction h with
  | nil => rfl
  | cons hab _ ih => simp [hab.1, ih]

/-- In every state reached from a fresh manager, the results gathered for a
task are those of its items, each executed in the world of one of the steps
of the task's goroutine in the interleaving. -/
theorem reachable_attempted (f : ExecutorFactory) (n : Int) (url : String)
    (evs : List Event) (s : TaskManager)
    (hexec : (GetTaskManager f n url).exec evs = some s) (id : String) (t : Task) (r : Run)
    (ht : s.cache.tasks id = some t) (hr : s.runs id = some r) :
    LoopInv (Attempted f (fun env => Event.run id env ∈ evs)) t r := by
  refine local_invariant id f (LoopInv (Attempted f (fun env => Event.run id env ∈ evs)))
    (fun e => e ∈ evs ∧ e.target = id) ?_ evs _ s (Paired_init f n url) rfl
    ?_ ?_ (fun e he ht => ⟨he, ht⟩) hexec t r ht hr
  · rintro tm e t r t1 r1 hf ⟨hmem, htarget⟩ h hl
    refine LoopInv_step _ tm e t r t1 r1 ?_ h hl
    intro k env item he
    subst he
    simp only [Event.target] at htarget
    subst htarget
    exact hf ▸ itemResult_attempted tm env item _ hmem
  · intro _ items timeout now
    simp [LoopInv, newTask, Run.init]
  · intro t r ht
    simp [GetTaskManager, NewTaskCache] at ht

/-- Induction over an interleaving, with a condition on each event that may
depend on the state the event is applied to. -/
theorem exec_invariant_at (Inv : TaskManager → Prop) (ok : Event → Prop)
    (P : TaskManager → Event → Bool)
    (hstep : ∀ s e s1, Inv s → ok e → P s e = true → s.step e = some s1 → Inv s1) :
    ∀ (evs : List Event) (s s1 : TaskManager), Inv s → (∀ e ∈ evs, ok e) →
      s.allEvents P evs = true → s.exec evs = some s1 → Inv s1 := by
  intro evs
  induction evs with
  | nil =>
    intro s s1 hs _ _ h
    simp [TaskManager.exec] at h
    exact h ▸ hs
  | cons e es ih =>
    intro s s1 hs hok hall h
    simp only [TaskManager.exec] at h
    cases hse : s.step e with
    | none => simp [hse] at h
    | some s2 =>
      simp only [hse, Option.some_bind] at h
      simp only [TaskManager.allEvents, hse, Bool.and_eq_true] at hall
      exact ih s2 s1 (hstep s e s2 hs (hok e (by simp)) hall.1 hse)
        (fun e1 he1 => hok e1 (by simp [he1])) hall.2 h

/-- When the deadline of task `id` does not pass, `CancelTask(id)` is not
called, and every item of the task is executed without error at its own turn,
the context of the goroutine stays live and every result gathered carries what
a registered executor reported for its item. -/
theorem turns_invariant (f : ExecutorFactory) (n : Int) (url : String)
    (evs : List Event) (s : TaskManager) (id : String) (t : Task) (r : Run)
    (hexec : (GetTaskManager f n url).exec evs = some s)
    (hquiet : ∀ e ∈ evs, e ≠ .deadline id ∧ e.cancels id = false)
    (hturn : (GetTaskManager f n url).succeedsAtTurn id evs = true)
    (ht : s.cache.tasks id = some t) (hr : s.runs id = some r) :
    QuietInv t r ∧ LoopInv (ReportedBy f) t r := by
  have key := exec_invariant_at
    (fun tm => Paired tm ∧ tm.executorFactory = f ∧
      ∀ t r, tm.cache.tasks id = some t → tm.runs id = some r →
        QuietInv t r ∧ LoopInv (ReportedBy f) t r)
    (fun e => e ≠ .deadline id ∧ e.cancels id = false)
    (fun tm e => tm.turnSucceeds id e)
    (by
      rintro tm e tm1 ⟨hp, hfac, hi⟩ ⟨hq1, hq2⟩ hP hs
      refine ⟨Paired_step tm e tm1 hp hs, (step_factory tm e tm1 hs).trans hfac, ?_⟩
      intro t1 r1 ht1 hr1
      rcases step_view tm e tm1 hp hs id with ⟨h1, h2, _⟩ | ⟨_, _, _, items, timeout, now, h1, h2⟩ |
        ⟨hk, t0, r0, t2, r2, ht0, hr0, hl, h1, h2⟩
      · exact hi t1 r1 (h1 ▸ ht1) (h2 ▸ hr1)
      · rw [h1] at ht1; rw [h2] at hr1
        cases ht1; cases hr1
        simp [QuietInv, CalmInv, LoopInv, newTask, Run.init]
      · rw [h1] at ht1; rw [h2] at hr1
        cases ht1; cases hr1
        obtain ⟨hQ0, hL0⟩ := hi t0 r0 ht0 hr0
        have hkeep : e.keepsQuiet := by
          cases e <;> simp_all [Event.keepsQuiet, Event.target, Event.cancels]
        refine ⟨QuietInv_step tm e t0 r0 t1 r1 hkeep hQ0 hl,
          LoopInv_step_at _ tm e t0 r0 t1 r1 ?_ hL0 hl⟩
        intro k env item rest acc he hpc
        subst he
        simp only [Event.target] at hk
        subst hk
        simp only [TaskManager.turnSucceeds, ne_eq, not_true_eq_false, decide_False,
          Bool.false_or, hr0, hpc] at hP
        exact hfac ▸ itemResult_reported tm env item (hfac ▸ hP))
    evs _ s ⟨Paired_init f n url, rfl, fun t r ht => by simp [GetTaskManager, NewTaskCache] at ht⟩
    hquiet hturn hexec
  exact key.2.2 t r ht hr

/-- Once the goroutine of a task has returned, the status of the task is the
one the final status computation chose from its two reads of `ctx.Err()`
(Canceled when line 155 read Canceled; otherwise Failed, with the timeout
error, when line 160 read DeadlineExceeded; otherwise Completed). -/
theorem final_status_of_reads (f : ExecutorFactory) (n : Int) (url : String)
    (evs : List Event) (s : TaskManager) (id : String) (t : Task) (r : Run)
    (hexec : (GetTaskManager f n url).exec evs = some s)
    (ht : s.cache.tasks id = some t) (hr : s.runs id = some r) (hdone : r.pc = .done) :
    t.Status = finalStatus r.err1 r.err2 ∧ (t.Status = .Failed → t.Error = timeoutError) := by
  have h := (reachable_invariants f n url evs s hexec id t r ht hr).2.2
  rcases r with ⟨pc, ctx, tmo, e1, e2⟩
  simp only at hdone
  subst hdone
  simp only [FinalInv] at h
  exact ⟨h.1, h.2.1⟩

/-! ## The claims

Each claim of the specification, in order, with its closed instance. -/

/-- Claim C1: `CreateTask` on an id that is already in the store returns the stored
task together with the error "任务已存在: id", and the whole manager state (the
store, hence the stored task with all its fields, and the set of goroutines)
is what it was before the call. -/
theorem CreateTask_existing_id (tm : TaskManager) (taskID : String) (items : List TaskItem)
    (timeout : Int) (now : Time) (existing : Task)
    (h : tm.cache.GetTask taskID = some existing) :
    tm.CreateTask taskID items timeout now = (tm, existing, some ("任务已存在: " ++ taskID)) ∧
    (tm.CreateTask taskID items timeout now).1.cache.GetTask taskID = some existing := by
  have h1 : tm.CreateTask taskID items timeout now
      = (tm, existing, some ("任务已存在: " ++ taskID)) := by
    simp [TaskManager.CreateTask, h]
  exact ⟨h1, by rw [h1]; exact h⟩

/-- Instance of C1 at a concrete manager: a second `CreateTask "t"` with other arguments. -/
theorem CreateTask_existing_id_witness :
    managerWithT.cache.GetTask "t" = some (newTask "t" [sshItem] 30 5) ∧
    (managerWithT.CreateTask "t" [ghostItem] 1 9
        = (managerWithT, newTask "t" [sshItem] 30 5, some ("任务已存在: " ++ "t")) ∧
      (managerWithT.CreateTask "t" [ghostItem] 1 9).1.cache.GetTask "t"
        = some (newTask "t" [sshItem] 30 5)) :=
  ⟨by decide, CreateTask_existing_id managerWithT "t" [ghostItem] 1 9
    (newTask "t" [sshItem] 30 5) (by decide)⟩

/-- Claim C3 fails on the code: a terminal status is left.  In
`lateCancelTrace` the deadline of the context passes while the only item is
executing and `CancelTask` then succeeds, so the task is Canceled; the final
status computation of the run reads `DeadlineExceeded` and calls
`UpdateTaskStatus(Failed)`, which overwrites Canceled (and stamps `EndTime`
again).  In `cancelAtEndTrace` the cancel arrives after the results are
stored and before the watcher has cancelled the context; the run then
overwrites Canceled by Completed. -/
theorem canceled_status_overwritten :
    (sampleManager.after lateCancelTrace).statusOf "t" = some .Canceled ∧
    ((sampleManager.after lateCancelTrace).taskOf "t").EndTime = 9 ∧
    (sampleManager.after (lateCancelTrace ++ stepsOf "t" stormEnv 9)).statusOf "t"
      = some .Failed ∧
    ((sampleManager.after (lateCancelTrace ++ stepsOf "t" stormEnv 9)).taskOf "t").EndTime
      = 8 ∧
    ((sampleManager.after (lateCancelTrace ++ stepsOf "t" stormEnv 9)).runOf "t").pc
      = .done ∧
    (sampleManager.after cancelAtEndTrace).statusOf "t" = some .Canceled ∧
    (sampleManager.after (cancelAtEndTrace ++ stepsOf "t" calmEnv 5)).statusOf "t"
      = some .Completed := by
  decide

/-- Claim C4 fails as stated: after `AddTask`, `UpdateTaskStatus(Completed)` at
time 5 and `UpdateTaskStatus(Running)` at time 6 (all clock readings non-zero)
the stored task is Running and its end time is still 5. -/
theorem end_time_set_on_running_task :
    (∀ op ∈ reviveOps, op.clockPositive = true) ∧
    ∃ c t, NewTaskCache.applyAll reviveOps = some c ∧ c.tasks "a" = some t ∧
      t.Status = .Running ∧ t.EndTime = 5 ∧ ¬ EndTimeIffTerminal c := by
  refine ⟨by decide, (NewTaskCache.applyAll reviveOps).getD NewTaskCache,
    { newTask "a" [] 30 1 with Status := .Running, EndTime := 5 }, rfl, by decide, rfl, rfl, ?_⟩
  intro h
  have := (h "a" { newTask "a" [] 30 1 with Status := .Running, EndTime := 5 } (by decide)).1
    (by decide)
  simp [TaskStatus.isTerminal] at this

/-- Claim C4, amended: in every store reached from the empty store by
inserting Pending tasks and applying `UpdateTaskStatus`, `UpdateTaskResult` and
`CancelTask` (with non-zero clock readings), every task whose status is
Completed, Failed or Canceled has its end time set; and if no
`UpdateTaskStatus` gave a Pending or Running status to a task whose end time
was already set (`keepsEnded`), the end time is set if and only if the status
is Completed, Failed or Canceled. -/
theorem end_time_of_terminal (ops : List StoreOp) (c : TaskCache)
    (hclock : ∀ op ∈ ops, op.clockPositive = true)
    (hops : NewTaskCache.applyAll ops = some c) :
    (∀ id t, c.tasks id = some t → t.Status.isTerminal = true → t.EndTime ≠ 0) ∧
    (NewTaskCache.allOps StoreOp.keepsEnded ops = true → EndTimeIffTerminal c) := by
  have key : ∀ (ops : List StoreOp) (c0 c : TaskCache),
      (∀ op ∈ ops, op.clockPositive = true) → c0.applyAll ops = some c →
      ((∀ id t, c0.tasks id = some t → t.Status.isTerminal = true → t.EndTime ≠ 0) →
        ∀ id t, c.tasks id = some t → t.Status.isTerminal = true → t.EndTime ≠ 0) ∧
      (EndTimeIffTerminal c0 → c0.allOps StoreOp.keepsEnded ops = true →
        EndTimeIffTerminal c) := by
    intro ops
    induction ops with
    | nil =>
      intro c0 c _ h
      simp only [TaskCache.applyAll, Option.some.injEq] at h
      subst h
      exact ⟨fun h => h, fun h _ => h⟩
    | cons op ops ih =>
      intro c0 c hclock h
      simp only [TaskCache.applyAll] at h
      cases hop : c0.apply op with
      | none => simp [hop] at h
      | some c1 =>
        simp only [hop, Option.some_bind] at h
        have hc := hclock op (by simp)
        obtain ⟨ih1, ih2⟩ := ih c1 c (fun o ho => hclock o (by simp [ho])) h
        refine ⟨fun h0 => ih1 (terminal_has_end_step c0 op c1 h0 hc hop), ?_⟩
        intro h0 hall
        simp only [TaskCache.allOps, hop, Bool.and_eq_true] at hall
        exact ih2 (end_iff_terminal_step c0 op c1 h0 hc hall.1 hop) hall.2
  obtain ⟨k1, k2⟩ := key ops NewTaskCache c hclock hops
  exact ⟨k1 (by simp [NewTaskCache]), k2 (by simp [EndTimeIffTerminal, NewTaskCache])⟩

/-- Instance of C4 amended: the store operations of a completed task and of a
cancelled task. -/
theorem end_time_of_terminal_witness :
    (∀ op ∈ lifecycleOps, op.clockPositive = true) ∧
    NewTaskCache.applyAll lifecycleOps
      = some ((NewTaskCache.applyAll lifecycleOps).getD NewTaskCache) ∧
    NewTaskCache.allOps StoreOp.keepsEnded lifecycleOps = true ∧
    (∀ id t, ((NewTaskCache.applyAll lifecycleOps).getD NewTaskCache).tasks id = some t →
      t.Status.isTerminal = true → t.EndTime ≠ 0) ∧
    EndTimeIffTerminal ((NewTaskCache.applyAll lifecycleOps).getD NewTaskCache) :=
  ⟨by decide, rfl, by decide,
    (end_time_of_terminal lifecycleOps _ (by decide) rfl).1,
    (end_time_of_terminal lifecycleOps _ (by decide) rfl).2 (by decide)⟩

/-- Claim C5 fails in the code: `CancelTask` guards `close(task.Cancel)` by
`Status == Running` alone.  After `CancelTask` has fired the signal of `a`, an
`UpdateTaskStatus(a, Running)` makes the next `CancelTask(a)` close the closed
channel again, which panics (`rearmOps`); the store operations of two racing
`CreateTask("a")` calls and their goroutines are such a sequence
(`racingCreatesOps`). -/
theorem second_cancel_panics :
    (∃ c t, NewTaskCache.applyAll rearmOps = some c ∧ c.tasks "a" = some t ∧
      t.Cancel = .closed ∧ c.CancelTask "a" 5 = none) ∧
    NewTaskCache.applyAll (rearmOps ++ [.cancel "a" 5]) = none ∧
    (∃ c t, NewTaskCache.applyAll (racingCreatesOps.take 5) = some c ∧
      c.tasks "a" = some t ∧ t.Status = .Running ∧ t.Cancel = .closed) ∧
    NewTaskCache.applyAll racingCreatesOps = none := by
  refine ⟨⟨(NewTaskCache.applyAll rearmOps).getD NewTaskCache,
    { newTask "a" [] 30 1 with Status := .Running, EndTime := 3, Cancel := .closed },
    rfl, by decide, rfl, ?_⟩, ?_, ⟨(NewTaskCache.applyAll (racingCreatesOps.take 5)).getD
      NewTaskCache,
    { newTask "a" [sshItem] 30 1 with Status := .Running, EndTime := 3, Cancel := .closed },
    rfl, by decide, rfl, rfl⟩, ?_⟩
  · rfl
  · rfl
  · rfl

/-- On the store alone: in every sequence of store operations in which
`UpdateTaskStatus(id, Running)` is applied only to tasks whose cancel signal
has not fired (`keepsFired`), no operation panics, and in the store reached a
`CancelTask` on a task whose signal has fired returns false and changes
nothing. -/
theorem cancel_signal_fires_once (ops : List StoreOp)
    (hkeep : NewTaskCache.allOps StoreOp.keepsFired ops = true) :
    ∃ c, NewTaskCache.applyAll ops = some c ∧
      ∀ id t now, c.tasks id = some t → t.Cancel = .closed →
        c.CancelTask id now = some (c, false) := by
  have key : ∀ (ops : List StoreOp) (c0 : TaskCache), SignalGuard c0 →
      c0.allOps StoreOp.keepsFired ops = true →
      ∃ c, c0.applyAll ops = some c ∧ SignalGuard c := by
    intro ops
    induction ops with
    | nil => intro c0 h _; exact ⟨c0, rfl, h⟩
    | cons op ops ih =>
      intro c0 h0 hall
      have hsome : ∃ c1, c0.apply op = some c1 := by
        cases op with
        | cancel k now =>
          obtain ⟨c1, ok, h1⟩ := CancelTask_total c0 h0 k now
          exact ⟨c1, by simp [TaskCache.apply, h1]⟩
        | _ => exact ⟨_, rfl⟩
      obtain ⟨c1, hop⟩ := hsome
      simp only [TaskCache.allOps, hop, Bool.and_eq_true] at hall
      obtain ⟨c, hc, hg⟩ := ih c1 (signal_guard_step c0 op c1 h0 hall.1 hop) hall.2
      exact ⟨c, by simp [TaskCache.applyAll, hop, hc], hg⟩
  obtain ⟨c, hc, hg⟩ := key ops NewTaskCache (by simp [SignalGuard, NewTaskCache]) hkeep
  exact ⟨c, hc, fun id t now ht hf => CancelTask_fired c hg id now t ht hf⟩

/-- An instance: `lifecycleOps` ends with two cancels of `b`. -/
theorem cancel_signal_fires_once_witness :
    NewTaskCache.allOps StoreOp.keepsFired lifecycleOps = true ∧
    ∃ c, NewTaskCache.applyAll lifecycleOps = some c ∧
      ∀ id t now, c.tasks id = some t → t.Cancel = .closed →
        c.CancelTask id now = some (c, false) :=
  ⟨by decide, cancel_signal_fires_once lifecycleOps (by decide)⟩

/-- Claim C6 fails in the code: the final status computation reads
`ctx.Err()` twice.  In `cancelBetweenReadsTrace` the read at line 155 returns
nil; `CancelTask` then succeeds (the task is Canceled) and the watcher cancels
the context; the read at line 160 returns `context.Canceled`, which is not
`DeadlineExceeded`, so the run takes the last branch and calls
`UpdateTaskStatus(Completed)`: the context was cancelled through the cancel
signal and the task ends Completed. -/
theorem cancel_between_reads_completed :
    sampleManager.exec cancelBetweenReadsTrace
      = some (sampleManager.after cancelBetweenReadsTrace) ∧
    (sampleManager.after (.create "t" [sshItem] 30 5 :: stepsOf "t" calmEnv 7)).runOf "t"
      = { pc := .checkDeadline, ctx := none, timeout := 30000000000, err1 := none,
          err2 := none } ∧
    (sampleManager.after
      (.create "t" [sshItem] 30 5 :: stepsOf "t" calmEnv 7 ++ [.cancel "t" 9])).statusOf "t"
      = some .Canceled ∧
    ((sampleManager.after
      (.create "t" [sshItem] 30 5 :: stepsOf "t" calmEnv 7 ++
        [.cancel "t" 9, .watch "t"])).runOf "t").ctx = some .Canceled ∧
    (sampleManager.after cancelBetweenReadsTrace).runOf "t"
      = { pc := .done, ctx := some .Canceled, timeout := 30000000000, err1 := none,
          err2 := some .Canceled } ∧
    (sampleManager.after cancelBetweenReadsTrace).statusOf "t" = some .Completed := by
  refine ⟨rfl, by decide, by decide, by decide, by decide, by decide⟩

/-- Claim C7: in every interleaving in which the context of the run of task
`id` neither expires nor is cancelled (no `deadline id`, no `watch id`), once
the goroutine has returned the task is Completed, the results are one per
item, in order, each with the id of its item; the result of every item whose
type has no registered executor is Failed; and every item whose type has a
registered executor was executed: its result is what that executor's
`Execute` returned for it in the world of one of the steps of the goroutine
(the reported status, value, message and details, or the Failed record built
from the returned error). -/
theorem unknown_executor_not_fatal (f : ExecutorFactory) (n : Int) (url : String)
    (evs : List Event) (s : TaskManager) (id : String) (t : Task) (r : Run)
    (hexec : (GetTaskManager f n url).exec evs = some s)
    (hctx : ∀ e ∈ evs, e ≠ .deadline id ∧ e ≠ .watch id)
    (ht : s.cache.tasks id = some t) (hr : s.runs id = some r) (hdone : r.pc = .done) :
    t.Status = .Completed ∧
    t.Results.map (·.ItemID) = t.Items.map (·.ID) ∧
    (∀ (i : Nat) (item : TaskItem), t.Items[i]? = some item → f.executors item.Typ = none →
      ∃ res, t.Results[i]? = some res ∧ res.ItemID = item.ID ∧ res.Status = .Failed) ∧
    (∀ (i : Nat) (item : TaskItem) (executor : Executor), t.Items[i]? = some item →
      f.executors item.Typ = some executor →
      ∃ res env, t.Results[i]? = some res ∧ Event.run id env ∈ evs ∧
        (((executor.Execute env.world item).2 = none ∧
            res = { ItemID := item.ID, Status := (executor.Execute env.world item).1.Status,
                    Value := (executor.Execute env.world item).1.Value,
                    Message := (executor.Execute env.world item).1.Message,
                    Details := (executor.Execute env.world item).1.Details,
                    Duration := env.elapsed }) ∨
          (∃ err, (executor.Execute env.world item).2 = some err ∧
            res = { ItemID := item.ID, Status := .Failed, Value := "",
                    Message := "执行失败: " ++ err, Details := "任务项执行错误: " ++ err,
                    Duration := 0 }))) := by
  obtain ⟨_, _, hfinal⟩ := reachable_invariants f n url evs s hexec id t r ht hr
  have hloop := reachable_attempted f n url evs s hexec id t r ht hr
  have hcalm : CalmInv t r := by
    refine local_invariant id f CalmInv Event.keepsContext ?_ evs _ s (Paired_init f n url) rfl
      ?_ ?_ ?_ hexec t r ht hr
    · intro tm e t r t1 r1 _ hok hP hl
      exact CalmInv_step tm e t r t1 r1 hok hP hl
    · intro _ items timeout now
      simp [CalmInv, Run.init]
    · intro t r ht
      simp [GetTaskManager, NewTaskCache] at ht
    · intro e he htarget
      have := hctx e he
      cases e <;> simp_all [Event.keepsContext, Event.target]
  obtain ⟨hst, hq⟩ := calm_done _ t r hloop hfinal hcalm hdone
  refine ⟨hst, forall₂_attempted_ids f _ _ _ hq, ?_, ?_⟩
  · intro i item hi hnone
    obtain ⟨res, hres, hatt⟩ := forall₂_getElem? _ _ _ hq i item hi
    exact ⟨res, hres, hatt.1, (hatt.2.1 hnone).1⟩
  · intro i item executor hi hsome
    obtain ⟨res, hres, hatt⟩ := forall₂_getElem? _ _ _ hq i item hi
    obtain ⟨env, hmem, hcases⟩ := hatt.2.2 executor hsome
    exact ⟨res, env, hres, hmem, hcases⟩

/-- Instance of C7: the task has a registered item and an unregistered one;
the first result is what the executor returned, the second is the Failed
record of the unknown type. -/
theorem unknown_executor_not_fatal_witness :
    (∀ e ∈ mixedTrace, e ≠ .deadline "t" ∧ e ≠ .watch "t") ∧
    ((sampleManager.after mixedTrace).runOf "t").pc = .done ∧
    ((sampleManager.after mixedTrace).taskOf "t").Items = [sshItem, ghostItem] ∧
    ((sampleManager.after mixedTrace).taskOf "t").Results
      = [{ ItemID := 1, Status := .Normal, Value := "ok", Message := "done", Details := "",
           Duration := 3 },
         { ItemID := 2, Status := .Failed, Value := "",
           Message := "执行失败: 创建执行器失败: executor not found: ghost",
           Details := "任务项执行错误: 创建执行器失败: executor not found: ghost",
           Duration := 0 }] ∧
    ((sampleManager.after mixedTrace).taskOf "t").Status = .Completed ∧
    ((sampleManager.after mixedTrace).taskOf "t").Results.map (·.ItemID)
      = ((sampleManager.after mixedTrace).taskOf "t").Items.map (·.ID) ∧
    (∀ (i : Nat) (item : TaskItem),
      ((sampleManager.after mixedTrace).taskOf "t").Items[i]? = some item →
      sampleFactory.executors item.Typ = none →
      ∃ res, ((sampleManager.after mixedTrace).taskOf "t").Results[i]? = some res ∧
        res.ItemID = item.ID ∧ res.Status = .Failed) ∧
    (∀ (i : Nat) (item : TaskItem) (executor : Executor),
      ((sampleManager.after mixedTrace).taskOf "t").Items[i]? = some item →
      sampleFactory.executors item.Typ = some executor →
      ∃ res env, ((sampleManager.after mixedTrace).taskOf "t").Results[i]? = some res ∧
        Event.run "t" env ∈ mixedTrace ∧
        (((executor.Execute env.world item).2 = none ∧
            res = { ItemID := item.ID, Status := (executor.Execute env.world item).1.Status,
                    Value := (executor.Execute env.world item).1.Value,
                    Message := (executor.Execute env.world item).1.Message,
                    Details := (executor.Execute env.world item).1.Details,
                    Duration := env.elapsed }) ∨
          (∃ err, (executor.Execute env.world item).2 = some err ∧
            res = { ItemID := item.ID, Status := .Failed, Value := "",
                    Message := "执行失败: " ++ err, Details := "任务项执行错误: " ++ err,
                    Duration := 0 }))) :=
  ⟨by decide, by decide, by decide, by decide,
    unknown_executor_not_fatal sampleFactory 0 "" mixedTrace (sampleManager.after mixedTrace)
      "t" ((sampleManager.after mixedTrace).taskOf "t")
      ((sampleManager.after mixedTrace).runOf "t") rfl (by decide) rfl rfl rfl⟩

/-- Claim C9 fails as stated: the deadline passes while the last (here the
only) item is executing; the run ends Failed, and the item in flight still
contributes its result, so the task has as many results as items, not fewer. -/
theorem deadline_during_last_item :
    (sampleManager.after oneItemHead).runOf "t"
      = { pc := .execItem sshItem [] [], ctx := none, timeout := 1000000000,
          err1 := none, err2 := none } ∧
    ((sampleManager.after (oneItemHead ++ .deadline "t" :: stepsOf "t" stormEnv 9)).runOf
      "t").pc = .done ∧
    (sampleManager.after (oneItemHead ++ .deadline "t" :: stepsOf "t" stormEnv 9)).statusOf
      "t" = some .Failed ∧
    ((sampleManager.after (oneItemHead ++ .deadline "t" :: stepsOf "t" stormEnv 9)).taskOf
      "t").Results.length = 1 ∧
    ((sampleManager.after (oneItemHead ++ .deadline "t" :: stepsOf "t" stormEnv 9)).taskOf
      "t").Items.length = 1 := by
  decide

/-- Claim C9, amended: if the deadline of the context passes while `item` is
executing (the goroutine is at `execItem item rest acc` with a live context),
then in every continuation, once the goroutine has returned, the task is
Failed with `Error = "任务执行超时"`, its results are those gathered before
plus one result for `item`, and none of the `rest` has a result: the results
are fewer than the items exactly when `item` is not the last item. -/
theorem deadline_during_item (f : ExecutorFactory) (n : Int) (url : String)
    (evs1 evs2 : List Event) (s1 s : TaskManager) (id : String) (r1 : Run)
    (item : TaskItem) (rest : List TaskItem) (acc : List TaskResult) (t : Task) (r : Run)
    (hexec1 : (GetTaskManager f n url).exec evs1 = some s1)
    (hr1 : s1.runs id = some r1) (hpc : r1.pc = .execItem item rest acc)
    (hlive : r1.ctx = none)
    (hexec2 : s1.exec (.deadline id :: evs2) = some s)
    (ht : s.cache.tasks id = some t) (hr : s.runs id = some r) (hdone : r.pc = .done) :
    t.Status = .Failed ∧ t.Error = timeoutError ∧
    (∃ res, t.Results = acc ++ [res] ∧ res.ItemID = item.ID) ∧
    t.Results.length + rest.length = t.Items.length := by
  have hp1 : Paired s1 :=
    exec_invariant Paired (fun _ => True) (fun s e s1 h _ hs => Paired_step s e s1 h hs)
      evs1 _ s1 (Paired_init f n url) (fun _ _ => trivial) hexec1
  have hf1 : s1.executorFactory = f :=
    exec_invariant (fun tm => tm.executorFactory = f) (fun _ => True)
      (fun s e s1 h _ hs => (step_factory s e s1 hs).trans h)
      evs1 _ s1 rfl (fun _ _ => trivial) hexec1
  have ht0 : s1.cache.tasks id ≠ none := fun h => by simpa [hr1] using (hp1 id).1 h
  obtain ⟨t0, ht0⟩ := Option.ne_none_iff_exists'.1 ht0
  obtain ⟨_, hloop1, _⟩ := reachable_invariants f n url evs1 s1 hexec1 id t0 r1 ht0 hr1
  have hexecAll : (GetTaskManager f n url).exec (evs1 ++ .deadline id :: evs2) = some s := by
    rw [exec_append, hexec1]; exact hexec2
  obtain ⟨_, _, hfinal⟩ := reachable_invariants f n url _ s hexecAll id t r ht hr
  rcases r1 with ⟨pc1, ctx1, tmo1, e11, e12⟩
  simp only at hpc hlive
  subst hpc hlive
  simp only [LoopInv] at hloop1
  obtain ⟨_, done, hitems, hdoneacc⟩ := hloop1
  -- the state right after the deadline
  simp only [TaskManager.exec, TaskManager.step, Option.some_bind] at hexec2
  have hstep1 : s1.step (.deadline id) = some (s1.deadline id) := rfl
  have htd : (s1.deadline id).cache.tasks id = some t0 := by
    simp [TaskManager.deadline, hr1, Pc.ctxLive, ht0]
  let rd : Run := { pc := .execItem item rest acc, ctx := some .DeadlineExceeded, timeout := tmo1, err1 := e11, err2 := e12 }
  have hrd : (s1.deadline id).runs id = some rd := by
    simp [TaskManager.deadline, hr1, Pc.ctxLive]
  have hexp : ExpiredInv f t0.Items item rest acc t r := by
    refine local_invariant id f (ExpiredInv f t0.Items item rest acc) (fun _ => True) ?_ evs2
      _ s (Paired_step s1 _ _ hp1 hstep1) ((step_factory s1 _ _ hstep1).trans hf1) ?_ ?_
      (fun _ _ _ => trivial) hexec2 t r ht hr
    · intro tm e t r t1 r1 hf _ hP hl
      exact ExpiredInv_step f _ item rest acc tm e t r t1 r1 hf hP hl
    · intro hnone; simp [htd] at hnone
    · intro t2 r2 ht2 hr2
      rw [htd] at ht2; rw [hrd] at hr2
      cases ht2; cases hr2
      simp [ExpiredInv]
  rcases r with ⟨pc, ctx, tmo, e1, e2⟩
  simp only at hdone
  subst hdone
  simp only [ExpiredInv] at hexp
  obtain ⟨_, hit, ⟨res, hres, hrec⟩, herr1⟩ := hexp
  simp only [FinalInv] at hfinal
  obtain ⟨h1, h2, h3⟩ := hfinal
  have herr2 := h3 herr1
  have hst : t.Status = .Failed := by simpa [finalStatus, herr1, herr2] using h1
  refine ⟨hst, h2 hst, ⟨res, hres, hrec.1⟩, ?_⟩
  have hlen := hdoneacc.length_eq
  rw [hit, hitems, hres]
  simp only [List.length_append, List.length_cons, List.length_nil]
  omega

/-- Instance of C9 amended: the deadline passes during the first of two
items. -/
theorem deadline_during_item_witness :
    ((sampleManager.after twoItemHead).runOf "t").pc = .execItem sshItem [ghostItem] [] ∧
    ((sampleManager.after twoItemHead).runOf "t").ctx = none ∧
    (((sampleManager.after twoItemHead).after (.deadline "t" :: stepsOf "t" stormEnv 9)).runOf
      "t").pc = .done ∧
    (((sampleManager.after twoItemHead).after (.deadline "t" :: stepsOf "t" stormEnv 9)).taskOf
      "t").Status = .Failed ∧
    (((sampleManager.after twoItemHead).after (.deadline "t" :: stepsOf "t" stormEnv 9)).taskOf
      "t").Error = timeoutError ∧
    (∃ res, (((sampleManager.after twoItemHead).after
        (.deadline "t" :: stepsOf "t" stormEnv 9)).taskOf "t").Results = [] ++ [res] ∧
      res.ItemID = sshItem.ID) ∧
    (((sampleManager.after twoItemHead).after (.deadline "t" :: stepsOf "t" stormEnv 9)).taskOf
      "t").Results.length + [ghostItem].length
      = (((sampleManager.after twoItemHead).after
          (.deadline "t" :: stepsOf "t" stormEnv 9)).taskOf "t").Items.length :=
  ⟨by decide, by decide, by decide,
    deadline_during_item sampleFactory 0 "" twoItemHead (stepsOf "t" stormEnv 9)
      (sampleManager.after twoItemHead)
      ((sampleManager.after twoItemHead).after (.deadline "t" :: stepsOf "t" stormEnv 9))
      "t" ((sampleManager.after twoItemHead).runOf "t") sshItem [ghostItem] []
      (((sampleManager.after twoItemHead).after
        (.deadline "t" :: stepsOf "t" stormEnv 9)).taskOf "t")
      (((sampleManager.after twoItemHead).after
        (.deadline "t" :: stepsOf "t" stormEnv 9)).runOf "t")
      rfl rfl rfl rfl rfl rfl rfl rfl⟩

/-- Claim C10: in every state the task manager reaches, the item ids of the
stored results of a task are the ids of a prefix of its items (the attempted
items), in the same order; hence there are never more results than items. -/
theorem results_follow_items (f : ExecutorFactory) (n : Int) (url : String)
    (evs : List Event) (s : TaskManager) (id : String) (t : Task)
    (hexec : (GetTaskManager f n url).exec evs = some s)
    (ht : s.cache.tasks id = some t) :
    (∃ attempted, attempted <+: t.Items ∧
      t.Results.map (·.ItemID) = attempted.map (·.ID)) ∧
    t.Results.length ≤ t.Items.length := by
  have hp : Paired s :=
    exec_invariant Paired (fun _ => True) (fun s e s1 h _ hs => Paired_step s e s1 h hs)
      evs _ s (Paired_init f n url) (fun _ _ => trivial) hexec
  have hr0 : s.runs id ≠ none := fun h => by simpa [ht] using (hp id).2 h
  obtain ⟨r, hr⟩ := Option.ne_none_iff_exists'.1 hr0
  obtain ⟨_, hloop, _⟩ := reachable_invariants f n url evs s hexec id t r ht hr
  have key : ∃ done rest, t.Items = done ++ rest ∧ List.Forall₂ (Recorded f) done t.Results := by
    rcases r with ⟨pc, ctx, tmo, e1, e2⟩
    unfold LoopInv at hloop
    cases pc <;> simp only at hloop
    case acquire => exact ⟨[], t.Items, by simp, by simp [hloop]⟩
    case start => exact ⟨[], t.Items, by simp, by simp [hloop]⟩
    case loopTop => exact ⟨[], t.Items, by simp, by simp [hloop.1]⟩
    case execItem => exact ⟨[], t.Items, by simp, by simp [hloop.1]⟩
    case persist => exact ⟨[], t.Items, by simp, by simp [hloop.1]⟩
    all_goals
      obtain ⟨done, rest, h1, h2, _⟩ := hloop
      exact ⟨done, rest, h1, h2⟩
  obtain ⟨done, rest, h1, h2⟩ := key
  refine ⟨⟨done, ⟨rest, h1.symm⟩, forall₂_ids f _ _ h2⟩, ?_⟩
  have := h2.length_eq
  rw [h1, List.length_append]
  omega

/-- Instance of C10: the run was cut short by the deadline after the first of
two items. -/
theorem results_follow_items_witness :
    sampleManager.exec (twoItemHead ++ .deadline "t" :: stepsOf "t" stormEnv 9)
      = some (sampleManager.after (twoItemHead ++ .deadline "t" :: stepsOf "t" stormEnv 9)) ∧
    (∃ attempted,
      attempted <+: ((sampleManager.after
        (twoItemHead ++ .deadline "t" :: stepsOf "t" stormEnv 9)).taskOf "t").Items ∧
      ((sampleManager.after
        (twoItemHead ++ .deadline "t" :: stepsOf "t" stormEnv 9)).taskOf "t").Results.map
          (·.ItemID) = attempted.map (·.ID)) ∧
    ((sampleManager.after
      (twoItemHead ++ .deadline "t" :: stepsOf "t" stormEnv 9)).taskOf "t").Results.length
      ≤ ((sampleManager.after
        (twoItemHead ++ .deadline "t" :: stepsOf "t" stormEnv 9)).taskOf "t").Items.length :=
  ⟨rfl, results_follow_items sampleFactory 0 ""
    (twoItemHead ++ .deadline "t" :: stepsOf "t" stormEnv 9)
    (sampleManager.after (twoItemHead ++ .deadline "t" :: stepsOf "t" stormEnv 9)) "t"
    ((sampleManager.after (twoItemHead ++ .deadline "t" :: stepsOf "t" stormEnv 9)).taskOf "t")
    rfl rfl⟩

/-- Claim C11: when the goroutine has `item` in flight (`execItem item rest
results`) and the executor that `Create` resolved for it returns the error
`e`, the step appends exactly one result to the results gathered so far; that
result has the id of the item, status Failed and the message
"执行失败: " followed by `e` (so the text of `e` occurs in it); the stored task
is untouched, and the goroutine is back at the top of the loop: when the
context is live and an item is left, its next step takes that item. -/
theorem executor_error_recorded (tm : TaskManager) (id : String) (env env2 : Env)
    (task : Task) (r : Run) (item : TaskItem) (rest : List TaskItem)
    (results : List TaskResult) (executor : Executor) (e : String)
    (ht : tm.cache.tasks id = some task) (hr : tm.runs id = some r)
    (hpc : r.pc = .execItem item rest results)
    (hres : tm.executorFactory.Create item.Typ = .ok executor)
    (herr : (executor.Execute env.world item).2 = some e) :
    ∃ res, tm.itemResult env item = res ∧
      res.ItemID = item.ID ∧ res.Status = .Failed ∧ res.Message = "执行失败: " ++ e ∧
      e.data <:+: res.Message.data ∧
      (tm.executeTask id env).runs id
        = some { r with pc := .loopTop rest (results ++ [res]) } ∧
      (tm.executeTask id env).cache.tasks id = some task ∧
      (∀ next rest2, rest = next :: rest2 → r.ctx = none →
        ((tm.executeTask id env).executeTask id env2).runs id
          = some { r with pc := .execItem next rest2 (results ++ [res]) }) := by
  have hitem : tm.itemResult env item
      = { ItemID := item.ID, Status := .Failed, Value := "", Message := "执行失败: " ++ e,
          Details := "任务项执行错误: " ++ e, Duration := 0 } := by
    unfold TaskManager.itemResult TaskManager.executeTaskItem
    rw [hres]
    rcases hx : executor.Execute env.world item with ⟨res0, err0⟩
    rw [hx] at herr
    simp only at herr
    subst herr
    simp only [hx]
  rcases r with ⟨pc, ctx, tmo, e1, e2⟩
  simp only at hpc
  subst hpc
  have hv := executeTask_view tm id env task _ ht hr id
  simp only [if_true, localRun] at hv
  refine ⟨_, rfl, ?_, ?_, ?_, ?_, hv.2, hv.1, ?_⟩
  · rw [hitem]
  · rw [hitem]
  · rw [hitem]
  · rw [hitem]
    simp only [String.data_append]
    exact List.suffix_append _ _ |>.isInfix
  · intro next rest2 hrest hctx
    simp only at hctx
    subst hrest hctx
    have hv2 := executeTask_view (tm.executeTask id env) id env2 task _ hv.1 hv.2 id
    simp only [if_true, localRun, ne_eq, not_true_eq_false, if_false] at hv2
    exact hv2.2

/-- Instance of C11: the executor of the first of two items returns an error. -/
theorem executor_error_recorded_witness :
    managerExecutingTwo.cache.tasks "t" = some (managerExecutingTwo.taskOf "t") ∧
    (managerExecutingTwo.runOf "t").pc = .execItem sshItem [ghostItem] [] ∧
    (sampleExecutor.Execute stormEnv.world sshItem).2 = some "command execution timed out" ∧
    ∃ res, managerExecutingTwo.itemResult stormEnv sshItem = res ∧
      res.ItemID = sshItem.ID ∧ res.Status = .Failed ∧
      res.Message = "执行失败: " ++ "command execution timed out" ∧
      "command execution timed out".data <:+: res.Message.data ∧
      (managerExecutingTwo.executeTask "t" stormEnv).runs "t"
        = some { managerExecutingTwo.runOf "t" with pc := .loopTop [ghostItem] ([] ++ [res]) } ∧
      (managerExecutingTwo.executeTask "t" stormEnv).cache.tasks "t"
        = some (managerExecutingTwo.taskOf "t") ∧
      (∀ next rest2, [ghostItem] = next :: rest2 → (managerExecutingTwo.runOf "t").ctx = none →
        ((managerExecutingTwo.executeTask "t" stormEnv).executeTask "t" calmEnv).runs "t"
          = some { managerExecutingTwo.runOf "t" with
                   pc := .execItem next rest2 ([] ++ [res]) }) :=
  ⟨rfl, by decide, by decide,
    executor_error_recorded managerExecutingTwo "t" stormEnv calmEnv
      (managerExecutingTwo.taskOf "t") (managerExecutingTwo.runOf "t") sshItem [ghostItem] []
      sampleExecutor "command execution timed out" rfl rfl rfl rfl rfl⟩

/-- Claim C12: `Create(t)` returns an error exactly when no executor is stored
under `t` (the error is "executor not found: t"), and when one is stored it
returns that executor and no error. -/
theorem Create_fails_iff_unregistered (f : ExecutorFactory) (t : String) :
    ((∃ err, f.Create t = .error err) ↔ f.executors t = none) ∧
    (f.executors t = none → f.Create t = .error ("executor not found: " ++ t)) ∧
    (∀ executor, f.executors t = some executor → f.Create t = .ok executor) := by
  unfold ExecutorFactory.Create
  cases h : f.executors t with
  | none => simp
  | some ex => simp

/-- Instance of C12: the registered type `ssh` and the unregistered type
`ghost`. -/
theorem Create_fails_iff_unregistered_witness :
    sampleFactory.executors "ghost" = none ∧
    sampleFactory.Create "ghost" = .error ("executor not found: " ++ "ghost") ∧
    sampleFactory.executors "ssh" = some sampleExecutor ∧
    sampleFactory.Create "ssh" = .ok sampleExecutor :=
  ⟨rfl, (Create_fails_iff_unregistered sampleFactory "ghost").2.1 rfl, rfl,
    (Create_fails_iff_unregistered sampleFactory "ssh").2.2 sampleExecutor rfl⟩

/-- Claim C13: after `Register(e)`, `Create(e.Name())` returns `e`, whatever
was stored under that name before; `Create(n)` is what it was for every other
name `n`; and registering `e` a second time leaves the registry as it is
after the first time. -/
theorem Register_then_Create (f : ExecutorFactory) (e : Executor) :
    (f.Register e).Create e.Name = .ok e ∧
    (∀ n, n ≠ e.Name → (f.Register e).Create n = f.Create n) ∧
    (f.Register e).Register e = f.Register e := by
  refine ⟨by simp [ExecutorFactory.Register, ExecutorFactory.Create], ?_, ?_⟩
  · intro n hn
    simp [ExecutorFactory.Register, ExecutorFactory.Create, hn]
  · simp only [ExecutorFactory.Register, ExecutorFactory.mk.injEq]
    funext k
    by_cases hk : k = e.Name <;> simp [hk]

/-- Instance of C13: a second executor named `ssh` replaces the first, and the
name `ghost` stays unregistered. -/
theorem Register_then_Create_witness :
    (sampleFactory.Register otherSshExecutor).Create otherSshExecutor.Name
      = .ok otherSshExecutor ∧
    ("ghost" ≠ otherSshExecutor.Name ∧
      (sampleFactory.Register otherSshExecutor).Create "ghost" = sampleFactory.Create "ghost") ∧
    (sampleFactory.Register otherSshExecutor).Register otherSshExecutor
      = sampleFactory.Register otherSshExecutor :=
  ⟨(Register_then_Create sampleFactory otherSshExecutor).1,
    ⟨by decide, (Register_then_Create sampleFactory otherSshExecutor).2.1 "ghost" (by decide)⟩,
    (Register_then_Create sampleFactory otherSshExecutor).2.2⟩

/-- Claim C14: `UpdateTaskStatus(id, s)` returns false and leaves the store as
it is when the id is absent; when a task is stored under the id it returns
true, the stored task gets status `s`, its end time becomes `now` when `s` is
Completed, Failed or Canceled and stays what it was when `s` is Pending or
Running, its other fields and all other tasks stay what they were. -/
theorem UpdateTaskStatus_effect (c : TaskCache) (taskID : String) (status : TaskStatus)
    (now : Time) :
    (c.tasks taskID = none → c.UpdateTaskStatus taskID status now = (c, false)) ∧
    (∀ task, c.tasks taskID = some task →
      ∃ task1, (c.UpdateTaskStatus taskID status now).2 = true ∧
        (c.UpdateTaskStatus taskID status now).1.tasks taskID = some task1 ∧
        task1.Status = status ∧
        (status = .Completed ∨ status = .Failed ∨ status = .Canceled → task1.EndTime = now) ∧
        (status = .Pending ∨ status = .Running → task1.EndTime = task.EndTime) ∧
        task1.ID = task.ID ∧ task1.Items = task.Items ∧ task1.Results = task.Results ∧
        task1.Error = task.Error ∧ task1.StartTime = task.StartTime ∧
        task1.Timeout = task.Timeout ∧ task1.Cancel = task.Cancel ∧
        (∀ k, k ≠ taskID → (c.UpdateTaskStatus taskID status now).1.tasks k = c.tasks k) ∧
        (c.UpdateTaskStatus taskID status now).1.maxAge = c.maxAge) := by
  refine ⟨fun h => by simp [TaskCache.UpdateTaskStatus, h], ?_⟩
  intro task ht
  rw [UpdateTaskStatus_eq c taskID status now task ht]
  refine ⟨task.withStatus status now, rfl, by simp, ?_⟩
  cases status <;> simp [Task.withStatus, TaskCache.setTask] <;>
    intro k hk <;> simp [hk]

/-- Instance of C14: the Running task `r` of `storeRP` is marked Completed at
time 9, and marked Running again at time 9. -/
theorem UpdateTaskStatus_effect_witness :
    storeRP.tasks "q" = none ∧ storeRP.UpdateTaskStatus "q" .Failed 9 = (storeRP, false) ∧
    storeRP.tasks "r" = some (storeRP.tasks "r" |>.getD (newTask "r" [] 0 0)) ∧
    (∃ task1, (storeRP.UpdateTaskStatus "r" .Completed 9).2 = true ∧
      (storeRP.UpdateTaskStatus "r" .Completed 9).1.tasks "r" = some task1 ∧
      task1.Status = .Completed ∧ task1.EndTime = 9) ∧
    (∃ task1, (storeRP.UpdateTaskStatus "r" .Running 9).2 = true ∧
      (storeRP.UpdateTaskStatus "r" .Running 9).1.tasks "r" = some task1 ∧
      task1.Status = .Running ∧ task1.EndTime = 0) := by
  refine ⟨rfl, (UpdateTaskStatus_effect storeRP "q" .Failed 9).1 rfl, rfl, ?_, ?_⟩
  · obtain ⟨task1, h1, h2, h3, h4, _⟩ :=
      (UpdateTaskStatus_effect storeRP "r" .Completed 9).2 _ rfl
    exact ⟨task1, h1, h2, h3, h4 (Or.inl rfl)⟩
  · obtain ⟨task1, h1, h2, h3, _, h5, _⟩ :=
      (UpdateTaskStatus_effect storeRP "r" .Running 9).2 _ rfl
    exact ⟨task1, h1, h2, h3, h5 (Or.inr rfl)⟩

/-- Claim C15 fails on the code: `AddTask` has no result and no check; given
a task whose id is taken it replaces the stored task. -/
theorem AddTask_replaces_existing :
    storeRP.tasks "r" = some { newTask "r" [sshItem] 30 5 with Status := .Running } ∧
    (storeRP.AddTask (newTask "r" [] 1 9)).tasks "r" = some (newTask "r" [] 1 9) ∧
    (storeRP.AddTask (newTask "r" [] 1 9)).tasks "r" ≠ storeRP.tasks "r" := by
  decide

/-- Claim C15, amended: `AddTask` stores the task under its id, whether or not
the id is taken, and touches no other id; for an absent id this inserts the
new task.  The existing task is returned, with the error "任务已存在: id" and
with the store unchanged, by `CreateTask`, which looks the id up before it
calls `AddTask`. -/
theorem AddTask_stores (c : TaskCache) (task : Task) :
    (c.AddTask task).tasks task.ID = some task ∧
    (∀ k, k ≠ task.ID → (c.AddTask task).tasks k = c.tasks k) ∧
    (c.AddTask task).maxAge = c.maxAge ∧
    (∀ (tm : TaskManager) (items : List TaskItem) (timeout : Int) (now : Time) (existing : Task),
      tm.cache = c → c.tasks task.ID = some existing →
      tm.CreateTask task.ID items timeout now
        = (tm, existing, some ("任务已存在: " ++ task.ID))) := by
  refine ⟨by simp [TaskCache.AddTask], fun k hk => by simp [TaskCache.AddTask, hk], rfl, ?_⟩
  intro tm items timeout now existing hc hex
  subst hc
  simp [TaskManager.CreateTask, TaskCache.GetTask, hex]

/-- Instance of C15 amended: a task enters `storeRP` under the free id `n`,
and `CreateTask` refuses the taken id `t`. -/
theorem AddTask_stores_witness :
    (storeRP.AddTask (newTask "n" [] 1 9)).tasks "n" = some (newTask "n" [] 1 9) ∧
    ("r" ≠ (newTask "n" [] 1 9).ID ∧
      (storeRP.AddTask (newTask "n" [] 1 9)).tasks "r" = storeRP.tasks "r") ∧
    (managerWithT.cache.tasks (newTask "t" [] 1 9).ID = some (newTask "t" [sshItem] 30 5) ∧
      managerWithT.CreateTask "t" [ghostItem] 1 9
        = (managerWithT, newTask "t" [sshItem] 30 5, some ("任务已存在: " ++ "t"))) :=
  ⟨(AddTask_stores storeRP (newTask "n" [] 1 9)).1,
    ⟨by decide, (AddTask_stores storeRP (newTask "n" [] 1 9)).2.1 "r" (by decide)⟩,
    ⟨by decide, (AddTask_stores managerWithT.cache (newTask "t" [] 1 9)).2.2.2 managerWithT
      [ghostItem] 1 9 (newTask "t" [sshItem] 30 5) rfl (by decide)⟩⟩

/-- Claim C16: after `cleanExpiredTasks` at time `now` the task stored under
an id is the task stored there before, unless that task was Completed, Failed
or Canceled with `EndTime + maxAge` before `now`, in which case the id is
free; a Pending or Running task always stays; the retention window is
untouched, and it is 24 hours in a new cache. -/
theorem cleanExpiredTasks_effect (c : TaskCache) (now : Time) (id : String) :
    (∀ t, (c.cleanExpiredTasks now).tasks id = some t ↔
      (c.tasks id = some t ∧
        ¬ ((t.Status = .Completed ∨ t.Status = .Failed ∨ t.Status = .Canceled) ∧
            t.EndTime + c.maxAge < now))) ∧
    (∀ t, c.tasks id = some t → (t.Status = .Pending ∨ t.Status = .Running) →
      (c.cleanExpiredTasks now).tasks id = some t) ∧
    (c.cleanExpiredTasks now).maxAge = c.maxAge ∧
    NewTaskCache.maxAge = 24 * Hour := by
  refine ⟨?_, ?_, rfl, rfl⟩
  · intro t
    simp only [TaskCache.cleanExpiredTasks]
    cases h : c.tasks id with
    | none => simp
    | some t0 =>
      simp only [Option.some.injEq]
      split
      · rename_i hexp
        constructor
        · intro h0; cases h0
        · rintro ⟨rfl, hn⟩; exact absurd hexp hn
      · rename_i hexp
        constructor
        · intro h0; cases h0; exact ⟨rfl, hexp⟩
        · rintro ⟨rfl, _⟩; rfl
  · intro t ht hst
    simp only [TaskCache.cleanExpiredTasks, ht]
    rcases hst with hst | hst <;> simp [hst]

/-- Instance of C16: at time 200 with a window of 100, the task that ended at
10 goes, the one that ended at 150 and the Running one stay. -/
theorem cleanExpiredTasks_effect_witness :
    (storeOld.cleanExpiredTasks 200).tasks "old" = none ∧
    (storeOld.cleanExpiredTasks 200).tasks "new" = storeOld.tasks "new" ∧
    (storeOld.tasks "run"
        = some { newTask "run" [] 30 1 with Status := .Running, EndTime := 10 } ∧
      (storeOld.cleanExpiredTasks 200).tasks "run"
        = some { newTask "run" [] 30 1 with Status := .Running, EndTime := 10 }) :=
  ⟨by decide, by decide, by decide,
    (cleanExpiredTasks_effect storeOld 200 "run").2.1 _ (by decide) (Or.inr rfl)⟩

/-- Claim C17 fails as stated: for the timeout 9223372037 s the product with
10^9 exceeds the 64-bit range and wraps to a negative duration, so the run
gets the 30 s default; for 18446744074 s it wraps to 290448384 ns; and for the
negative timeout -9223372037 s it wraps to a positive duration instead of the
default. -/
theorem taskTimeout_wraps :
    taskTimeout 9223372037 = 30 * Second ∧
    taskTimeout 18446744074 = 290448384 ∧
    taskTimeout (-9223372037) = 9223372036709551616 := by
  decide

/-- Claim C17, amended: for every timeout `t` whose product with 10^9 fits in
64 bits (`-9223372036 ≤ t ≤ 9223372036`), the duration of the run's context is
`t` seconds when `t > 0` and 30 seconds when `t ≤ 0`; and for every `t` the
synchronous path computes the same duration as the run. -/
theorem taskTimeout_in_range (t : Int) :
    (-9223372036 ≤ t → t ≤ 9223372036 →
      taskTimeout t = if 0 < t then t * Second else 30 * Second) ∧
    ExecuteTaskService.runTimeout t = taskTimeout t := by
  refine ⟨?_, rfl⟩
  intro hlo hhi
  have h63 : (2 : Int) ^ 63 = 9223372036854775808 := by norm_num
  have h64 : (2 : Int) ^ 64 = 18446744073709551616 := by norm_num
  have hwrap : wrapInt64 (t * Second) = t * Second := by
    unfold wrapInt64 Second
    rw [h63, h64, Int.emod_eq_of_lt (by omega) (by omega)]
    omega
  unfold taskTimeout
  simp only [hwrap]
  unfold Second
  split <;> split <;> omega

/-- Instance of C17 amended: 45 s, and the default for 0 s. -/
theorem taskTimeout_in_range_witness :
    (taskTimeout 45 = if (0 : Int) < 45 then 45 * Second else 30 * Second) ∧
    (taskTimeout 0 = if (0 : Int) < 0 then 0 * Second else 30 * Second) ∧
    ExecuteTaskService.runTimeout 45 = taskTimeout 45 :=
  ⟨(taskTimeout_in_range 45).1 (by decide) (by decide),
    (taskTimeout_in_range 0).1 (by decide) (by decide), (taskTimeout_in_range 45).2⟩

/-- Claim C18: `TaskManager.GetTask(id)` returns the stored task and no error
when a task is stored under the id, and the error "任务不存在: id" with no task
when none is; and in the state `CreateTask(id, ...)` leaves, `GetTask(id)`
returns the task that `CreateTask` returned (the new task when the call
succeeded). -/
theorem GetTask_returns_stored (tm : TaskManager) (taskID : String) :
    (∀ task, tm.cache.tasks taskID = some task → tm.GetTask taskID = .ok task) ∧
    (tm.cache.tasks taskID = none → tm.GetTask taskID = .error ("任务不存在: " ++ taskID)) ∧
    (∀ (items : List TaskItem) (timeout : Int) (now : Time),
      (tm.CreateTask taskID items timeout now).1.GetTask taskID
        = .ok (tm.CreateTask taskID items timeout now).2.1 ∧
      ((tm.CreateTask taskID items timeout now).2.2 = none →
        (tm.CreateTask taskID items timeout now).2.1 = newTask taskID items timeout now)) := by
  refine ⟨fun task h => by simp [TaskManager.GetTask, TaskCache.GetTask, h],
    fun h => by simp [TaskManager.GetTask, TaskCache.GetTask, h], ?_⟩
  intro items timeout now
  unfold TaskManager.CreateTask
  cases h : tm.cache.tasks taskID with
  | none =>
    simp [TaskCache.GetTask, h, TaskManager.GetTask, TaskCache.AddTask, newTask]
  | some ex =>
    simp [TaskCache.GetTask, h, TaskManager.GetTask]

/-- Instance of C18: the stored id `t`, the absent id `u`, and `GetTask` right
after `CreateTask "u"`. -/
theorem GetTask_returns_stored_witness :
    managerWithT.cache.tasks "t" = some (newTask "t" [sshItem] 30 5) ∧
    managerWithT.GetTask "t" = .ok (newTask "t" [sshItem] 30 5) ∧
    managerWithT.cache.tasks "u" = none ∧
    managerWithT.GetTask "u" = .error ("任务不存在: " ++ "u") ∧
    (managerWithT.CreateTask "u" [ghostItem] 3 8).2.2 = none ∧
    (managerWithT.CreateTask "u" [ghostItem] 3 8).1.GetTask "u"
      = .ok (managerWithT.CreateTask "u" [ghostItem] 3 8).2.1 ∧
    (managerWithT.CreateTask "u" [ghostItem] 3 8).2.1 = newTask "u" [ghostItem] 3 8 :=
  ⟨by decide,
    (GetTask_returns_stored managerWithT "t").1 (newTask "t" [sshItem] 30 5) (by decide),
    by decide,
    (GetTask_returns_stored managerWithT "u").2.1 (by decide), by decide,
    ((GetTask_returns_stored managerWithT "u").2.2 [ghostItem] 3 8).1,
    ((GetTask_returns_stored managerWithT "u").2.2 [ghostItem] 3 8).2 (by decide)⟩

/-- Claim C19: `UpdateTaskResult(id, rs)` returns false and leaves the store
as it is when the id is absent; when a task is stored under the id it returns
true, the stored task gets exactly `rs` as its results, and its status, items,
error, start time, end time (and id, timeout, cancel channel) as well as every
other stored task stay what they were. -/
theorem UpdateTaskResult_effect (c : TaskCache) (taskID : String) (rs : List TaskResult) :
    (c.tasks taskID = none → c.UpdateTaskResult taskID rs = (c, false)) ∧
    (∀ task, c.tasks taskID = some task →
      (c.UpdateTaskResult taskID rs).2 = true ∧
      (c.UpdateTaskResult taskID rs).1.tasks taskID = some { task with Results := rs } ∧
      (∀ k, k ≠ taskID → (c.UpdateTaskResult taskID rs).1.tasks k = c.tasks k) ∧
      (c.UpdateTaskResult taskID rs).1.maxAge = c.maxAge) := by
  refine ⟨fun h => by simp [TaskCache.UpdateTaskResult, h], ?_⟩
  intro task ht
  have h : c.UpdateTaskResult taskID rs
      = (c.setTask taskID { task with Results := rs }, true) := by
    simp [TaskCache.UpdateTaskResult, ht]
  rw [h]
  exact ⟨rfl, by simp, fun k hk => by simp [hk], rfl⟩

/-- Instance of C19: results for the stored id `r`, and for the absent id
`q`. -/
theorem UpdateTaskResult_effect_witness :
    storeRP.tasks "q" = none ∧ storeRP.UpdateTaskResult "q" [] = (storeRP, false) ∧
    storeRP.tasks "r" = some runningR ∧
    (storeRP.UpdateTaskResult "r" [sampleResult]).2 = true ∧
    (storeRP.UpdateTaskResult "r" [sampleResult]).1.tasks "r"
      = some { runningR with Results := [sampleResult] } ∧
    ("p" ≠ "r" ∧ (storeRP.UpdateTaskResult "r" [sampleResult]).1.tasks "p" = storeRP.tasks "p") :=
  ⟨rfl, (UpdateTaskResult_effect storeRP "q" []).1 rfl, by decide,
    ((UpdateTaskResult_effect storeRP "r" [sampleResult]).2 runningR (by decide)).1,
    ((UpdateTaskResult_effect storeRP "r" [sampleResult]).2 runningR (by decide)).2.1,
    ⟨by decide,
      ((UpdateTaskResult_effect storeRP "r" [sampleResult]).2 runningR (by decide)).2.2.1 "p"
        (by decide)⟩⟩

/-- Claim C20: `TaskCache.CancelTask` returns false, with the store (every
task and every cancel channel in it) unchanged, when the id is absent or the
task is not Running; whenever it returns, false is returned only with the
store unchanged; and `TaskManager.CancelTask` then returns: with the error
"取消任务失败: id，任务可能不存在或已完成" when the store returned false, with nil
when it returned true. -/
theorem CancelTask_false_is_noop (tm : TaskManager) (taskID : String) (now : Time) :
    (tm.cache.tasks taskID = none → tm.cache.CancelTask taskID now = some (tm.cache, false)) ∧
    (∀ task, tm.cache.tasks taskID = some task → task.Status ≠ .Running →
      tm.cache.CancelTask taskID now = some (tm.cache, false)) ∧
    (∀ c1 ok, tm.cache.CancelTask taskID now = some (c1, ok) →
      (ok = false → c1 = tm.cache) ∧
      ∃ err, tm.CancelTask taskID now = some ({ tm with cache := c1 }, err) ∧
        (err = none ↔ ok = true) ∧
        (ok = false →
          err = some ("取消任务失败: " ++ taskID ++ "，任务可能不存在或已完成"))) := by
  refine ⟨fun h => by simp [TaskCache.CancelTask, h],
    fun task h hs => by simp [TaskCache.CancelTask, h, hs], ?_⟩
  intro c1 ok h
  refine ⟨?_, ?_⟩
  · intro hok
    subst hok
    unfold TaskCache.CancelTask at h
    cases ht : tm.cache.tasks taskID with
    | none => simp [ht] at h; exact h.symm
    | some task =>
      simp only [ht] at h
      by_cases hs : task.Status = .Running
      · cases hc : task.Cancel <;> simp [hs, hc, Chan.close] at h
      · simp [hs] at h; exact h.symm
  · cases ok with
    | false => exact ⟨_, by simp [TaskManager.CancelTask, h], by simp, fun _ => rfl⟩
    | true => exact ⟨none, by simp [TaskManager.CancelTask, h], by simp, by simp⟩

/-- Instance of C20: cancelling the Pending task `t` of `managerWithT`. -/
theorem CancelTask_false_is_noop_witness :
    managerWithT.cache.tasks "t" = some (newTask "t" [sshItem] 30 5) ∧
    (newTask "t" [sshItem] 30 5).Status ≠ .Running ∧
    managerWithT.cache.CancelTask "t" 9 = some (managerWithT.cache, false) ∧
    ∃ err, managerWithT.CancelTask "t" 9
        = some ({ managerWithT with cache := managerWithT.cache }, err) ∧
      (err = none ↔ false = true) ∧
      (false = false → err = some ("取消任务失败: " ++ "t" ++ "，任务可能不存在或已完成")) :=
  ⟨by decide, by decide,
    (CancelTask_false_is_noop managerWithT "t" 9).2.1 (newTask "t" [sshItem] 30 5)
      (by decide) (by decide),
    ((CancelTask_false_is_noop managerWithT "t" 9).2.2 managerWithT.cache false
      ((CancelTask_false_is_noop managerWithT "t" 9).2.1 (newTask "t" [sshItem] 30 5)
        (by decide) (by decide))).2⟩

/-- Claim C21: if the context of the run is done when the turn of `item`
comes (the goroutine is at the top of the loop with `item :: rest` to go,
`acc` gathered, and `ctx.Err()` non-nil), then in every continuation the
goroutine never has an item in flight again (the registry and the executors
are only consulted for the item in flight), the results it holds and stores
are `acc` and nothing else, `acc` answers to the items before `item`, and once
it has returned the stored results are `acc`: neither `item` nor any item of
`rest` has a result. -/
theorem done_context_stops_loop (f : ExecutorFactory) (n : Int) (url : String)
    (evs1 evs2 : List Event) (s1 s : TaskManager) (id : String) (r1 : Run)
    (item : TaskItem) (rest : List TaskItem) (acc : List TaskResult) (t : Task) (r : Run)
    (hexec1 : (GetTaskManager f n url).exec evs1 = some s1)
    (hr1 : s1.runs id = some r1) (hpc : r1.pc = .loopTop (item :: rest) acc)
    (hctx : r1.ctx ≠ none)
    (hexec2 : s1.exec evs2 = some s)
    (ht : s.cache.tasks id = some t) (hr : s.runs id = some r) :
    (∀ it rs ac, r.pc ≠ .execItem it rs ac) ∧
    (∀ rs ac, r.pc = .loopTop rs ac → rs = item :: rest ∧ ac = acc) ∧
    (∀ ac, r.pc = .persist ac → ac = acc) ∧
    (t.Results = [] ∨ t.Results = acc) ∧
    (∃ done, t.Items = done ++ item :: rest ∧ acc.map (·.ItemID) = done.map (·.ID)) ∧
    (r.pc = .done →
      t.Results = acc ∧ t.Results.length + (item :: rest).length = t.Items.length) := by
  have hp1 := Paired_reachable f n url evs1 s1 hexec1
  have hf1 := factory_reachable f n url evs1 s1 hexec1
  have ht0 : s1.cache.tasks id ≠ none := fun h => by simpa [hr1] using (hp1 id).1 h
  obtain ⟨t0, ht0⟩ := Option.ne_none_iff_exists'.1 ht0
  obtain ⟨_, hloop1, _⟩ := reachable_invariants f n url evs1 s1 hexec1 id t0 r1 ht0 hr1
  have hstop : StoppedInv t0.Items item rest acc t r := by
    refine local_invariant id f (StoppedInv t0.Items item rest acc) (fun _ => True) ?_ evs2
      _ s hp1 hf1 ?_ ?_ (fun _ _ _ => trivial) hexec2 t r ht hr
    · intro tm e t r t1 r1 _ _ hP hl
      exact StoppedInv_step _ item rest acc tm e t r t1 r1 hP hl
    · intro hnone; simp [ht0] at hnone
    · intro t2 r2 ht2 hr2
      rw [ht0] at ht2; rw [hr1] at hr2
      cases ht2; cases hr2
      rcases r1 with ⟨pc1, ctx1, tmo1, e11, e12⟩
      simp only at hpc hctx
      subst hpc
      simp only [LoopInv] at hloop1
      simp [StoppedInv, hctx, hloop1.1]
  rcases r1 with ⟨pc1, ctx1, tmo1, e11, e12⟩
  simp only at hpc
  subst hpc
  simp only [LoopInv] at hloop1
  obtain ⟨_, done, hitems, hdoneacc⟩ := hloop1
  rcases r with ⟨pc, ctx, tmo, e1, e2⟩
  obtain ⟨_, hit, hrest⟩ := hstop
  have hids : acc.map (·.ItemID) = done.map (·.ID) := forall₂_ids f _ _ hdoneacc
  have hlen := hdoneacc.length_eq
  refine ⟨?_, ?_, ?_, ?_, ⟨done, by rw [hit, hitems], hids⟩, ?_⟩
  · intro it rs ac hpc
    simp only at hpc
    subst hpc
    exact hrest
  · intro rs ac hpc
    simp only at hpc
    subst hpc
    exact ⟨hrest.1, hrest.2.1⟩
  · intro ac hpc
    simp only at hpc
    subst hpc
    exact hrest.1
  · cases pc <;> simp only at hrest <;> first
      | exact absurd hrest id
      | exact Or.inr hrest
      | exact Or.inl hrest.2.2
      | exact Or.inl hrest.2
  · intro hpc
    simp only at hpc
    subst hpc
    simp only at hrest
    refine ⟨hrest, ?_⟩
    rw [hrest, hit, hitems]
    simp only [List.length_append, List.length_cons]
    omega

/-- Instance of C21: the deadline passes between the two items; the second
item never gets a result. -/
theorem done_context_stops_loop_witness :
    ((sampleManager.after expiredBetweenItems).runOf "t").pc
      = .loopTop [ghostItem] [sampleResult] ∧
    ((sampleManager.after expiredBetweenItems).runOf "t").ctx = some .DeadlineExceeded ∧
    (((sampleManager.after expiredBetweenItems).after (stepsOf "t" calmEnv 8)).runOf "t").pc
      = .done ∧
    (((sampleManager.after expiredBetweenItems).after (stepsOf "t" calmEnv 8)).taskOf
      "t").Status = .Failed ∧
    (((sampleManager.after expiredBetweenItems).after (stepsOf "t" calmEnv 8)).taskOf
      "t").Results.length = 1 ∧
    ((∀ it rs ac, (((sampleManager.after expiredBetweenItems).after
        (stepsOf "t" calmEnv 8)).runOf "t").pc ≠ .execItem it rs ac) ∧
      (∀ rs ac, (((sampleManager.after expiredBetweenItems).after
          (stepsOf "t" calmEnv 8)).runOf "t").pc = .loopTop rs ac →
        rs = ghostItem :: [] ∧
        ac = [sampleResult]) ∧
      (∀ ac, (((sampleManager.after expiredBetweenItems).after
          (stepsOf "t" calmEnv 8)).runOf "t").pc = .persist ac →
        ac = [sampleResult]) ∧
      ((((sampleManager.after expiredBetweenItems).after (stepsOf "t" calmEnv 8)).taskOf
          "t").Results = [] ∨
        (((sampleManager.after expiredBetweenItems).after (stepsOf "t" calmEnv 8)).taskOf
          "t").Results
          = [sampleResult]) ∧
      (∃ done, (((sampleManager.after expiredBetweenItems).after
          (stepsOf "t" calmEnv 8)).taskOf "t").Items = done ++ ghostItem :: [] ∧
        List.map (·.ItemID) [sampleResult]
          = done.map (·.ID)) ∧
      ((((sampleManager.after expiredBetweenItems).after (stepsOf "t" calmEnv 8)).runOf
          "t").pc = .done →
        (((sampleManager.after expiredBetweenItems).after (stepsOf "t" calmEnv 8)).taskOf
          "t").Results
          = [sampleResult] ∧
        (((sampleManager.after expiredBetweenItems).after (stepsOf "t" calmEnv 8)).taskOf
          "t").Results.length + (ghostItem :: []).length
          = (((sampleManager.after expiredBetweenItems).after
              (stepsOf "t" calmEnv 8)).taskOf "t").Items.length)) :=
  ⟨by decide, by decide, by decide, by decide, by decide,
    done_context_stops_loop sampleFactory 0 "" expiredBetweenItems (stepsOf "t" calmEnv 8)
      (sampleManager.after expiredBetweenItems)
      ((sampleManager.after expiredBetweenItems).after (stepsOf "t" calmEnv 8))
      "t" ((sampleManager.after expiredBetweenItems).runOf "t") ghostItem []
      [sampleResult]
      (((sampleManager.after expiredBetweenItems).after (stepsOf "t" calmEnv 8)).taskOf "t")
      (((sampleManager.after expiredBetweenItems).after (stepsOf "t" calmEnv 8)).runOf "t")
      rfl rfl rfl (by decide) rfl rfl rfl⟩

/-- Claim C22: in every state the task manager reaches, the stored result of
an item whose type `T` has no registered executor is the record built at
lines 137-144 from the error of `Create`: its item id is the id of the item,
its status is Failed and its message is
"执行失败: 创建执行器失败: executor not found: " followed by `T`, so `T`
occurs in the message. -/
theorem unknown_type_named (f : ExecutorFactory) (n : Int) (url : String)
    (evs : List Event) (s : TaskManager) (id : String) (t : Task)
    (hexec : (GetTaskManager f n url).exec evs = some s)
    (ht : s.cache.tasks id = some t) :
    ∀ (i : Nat) (item : TaskItem) (res : TaskResult), t.Items[i]? = some item →
      t.Results[i]? = some res → f.executors item.Typ = none →
      res.ItemID = item.ID ∧ res.Status = .Failed ∧
      res.Message = "执行失败: 创建执行器失败: executor not found: " ++ item.Typ ∧
      item.Typ.data <:+: res.Message.data ∧
      ∀ env, res = s.itemResult env item := by
  have hp := Paired_reachable f n url evs s hexec
  have hfac := factory_reachable f n url evs s hexec
  have hr0 : s.runs id ≠ none := fun h => by simpa [ht] using (hp id).2 h
  obtain ⟨r, hr⟩ := Option.ne_none_iff_exists'.1 hr0
  have hloop := reachable_loop f n url (NamedUnknown f)
    (fun tm env item hf => hf ▸ itemResult_named tm env item) evs s hexec id t r ht hr
  obtain ⟨done, rest, h1, h2⟩ := loop_results _ t r hloop
  intro i item res hi hres hnone
  rw [h1] at hi
  have hnamed := forall₂_prefix_getElem? _ done rest _ h2 i item res hi hres hnone
  have hsame : ∀ env, res = s.itemResult env item := by
    intro env
    rw [hnamed]
    exact (itemResult_named s env item (hfac ▸ hnone)).symm
  subst hnamed
  refine ⟨rfl, rfl, rfl, ?_, hsame⟩
  simp only [String.data_append]
  exact (List.suffix_append _ _).isInfix

/-- Instance of C22: the second item of the finished task is of the type
`ghost`, which nobody registered. -/
theorem unknown_type_named_witness :
    ((sampleManager.after mixedTrace).taskOf "t").Items[1]? = some ghostItem ∧
    ((sampleManager.after mixedTrace).taskOf "t").Results[1]?
      = some { ItemID := 2, Status := .Failed, Value := "",
               Message := "执行失败: 创建执行器失败: executor not found: ghost",
               Details := "任务项执行错误: 创建执行器失败: executor not found: ghost",
               Duration := 0 } ∧
    ∀ (i : Nat) (item : TaskItem) (res : TaskResult),
      ((sampleManager.after mixedTrace).taskOf "t").Items[i]? = some item →
      ((sampleManager.after mixedTrace).taskOf "t").Results[i]? = some res →
      sampleFactory.executors item.Typ = none →
      res.ItemID = item.ID ∧ res.Status = .Failed ∧
      res.Message = "执行失败: 创建执行器失败: executor not found: " ++ item.Typ ∧
      item.Typ.data <:+: res.Message.data ∧
      ∀ env, res = (sampleManager.after mixedTrace).itemResult env item :=
  ⟨by decide, by decide,
    unknown_type_named sampleFactory 0 "" mixedTrace (sampleManager.after mixedTrace) "t"
      ((sampleManager.after mixedTrace).taskOf "t") rfl rfl⟩

/-- Claim C23: with a context that is never done, the synchronous `Run`
returns exactly one result per request item, in item order, each with the id
of its item; so does the asynchronous run for its task once the goroutine has
returned (no deadline, no watcher wake-up for the task); and for every item
and every outside world the synchronous loop takes one of its error branches
(a FAILED result built from the error, iteration continuing) exactly when
`executeTaskItem` of the asynchronous run returns an error (a Failed result
built from the error, iteration continuing), namely when the type of the item
is unregistered or its executor returns an error. -/
theorem sync_recovers_like_async (f : ExecutorFactory) (n : Int) (url : String)
    (req : TaskRequest) (clock : SyncClock) (envs : Nat → SyncEnv)
    (evs : List Event) (s : TaskManager) (id : String) (t : Task) (r : Run)
    (hlive : ∀ j, j < req.Items.length → (envs j).ctxErr = none)
    (hexec : (GetTaskManager f n url).exec evs = some s)
    (hctx : ∀ e ∈ evs, e ≠ .deadline id ∧ e ≠ .watch id)
    (ht : s.cache.tasks id = some t) (hr : s.runs id = some r) (hdone : r.pc = .done) :
    ((ExecuteTaskService.Run f req clock envs).1.Results.length = req.Items.length ∧
      ∀ (i : Nat) (item : ReqTaskItem), req.Items[i]? = some item →
        ∃ res, (ExecuteTaskService.Run f req clock envs).1.Results[i]? = some res ∧
          res.ItemId = item.Id ∧ res = (ExecuteTaskService.runItem f (envs i) item).2) ∧
    (t.Results.length = t.Items.length ∧
      ∀ (i : Nat) (item : TaskItem), t.Items[i]? = some item →
        ∃ res, t.Results[i]? = some res ∧ res.ItemID = item.ID) ∧
    ∀ (senv : SyncEnv) (env : Env) (item : ReqTaskItem), env.world = senv.world →
      ((ExecuteTaskService.runItem f senv item).1 = true ↔
        ∃ err, s.executeTaskItem env (ExecuteTaskService.modelItem item) = .error err) ∧
      ((ExecuteTaskService.runItem f senv item).1 = true ↔
        (f.executors item.Typ = none ∨
          ∃ executor err, f.executors item.Typ = some executor ∧
            (executor.Execute senv.world (ExecuteTaskService.modelItem item)).2 = some err)) ∧
      ((ExecuteTaskService.runItem f senv item).1 = true →
        (ExecuteTaskService.runItem f senv item).2.Status = .FAILED ∧
        (s.itemResult env (ExecuteTaskService.modelItem item)).Status = .Failed) := by
  have hfac := factory_reachable f n url evs s hexec
  obtain ⟨h1, h2, _⟩ := Run_spec f req clock envs
  refine ⟨⟨(h2 hlive).2, ?_⟩, ?_, ?_⟩
  · intro i item hi
    have hlt : i < req.Items.length := by
      by_contra hge
      rw [List.getElem?_eq_none (by omega)] at hi
      cases hi
    refine ⟨_, h1 i item hi (fun j hj => hlive j (by omega)), ?_, rfl⟩
    subst hfac
    exact (runItem_error_iff s (envs i) ⟨0, (envs i).world, 0⟩ item rfl).2.2.2.1
  · obtain ⟨_, hloop, hfinal⟩ := reachable_invariants f n url evs s hexec id t r ht hr
    have hcalm := CalmInv_reachable f n url evs s id t r hexec hctx ht hr
    obtain ⟨_, hq⟩ := calm_done (Recorded f) t r hloop hfinal hcalm hdone
    refine ⟨hq.length_eq.symm, ?_⟩
    intro i item hi
    obtain ⟨res, hres, hrec⟩ := forall₂_getElem? _ _ _ hq i item hi
    exact ⟨res, hres, hrec.1⟩
  · intro senv env item hw
    subst hfac
    obtain ⟨k1, k2, k3, _⟩ := runItem_error_iff s senv env item hw
    exact ⟨k1, k2, k3⟩

/-- Instance of C23: a registered item and an unregistered one, on the two
paths. -/
theorem sync_recovers_like_async_witness :
    (∀ j, j < mixedRequest.Items.length → (calmSync j).ctxErr = none) ∧
    (∀ e ∈ mixedTrace, e ≠ .deadline "t" ∧ e ≠ .watch "t") ∧
    ((sampleManager.after mixedTrace).runOf "t").pc = .done ∧
    (ExecuteTaskService.Run sampleFactory mixedRequest sampleClock calmSync).1.Results
      = [{ ItemId := 1, Status := .NORMAL, Message := "done", Details := "", Duration := 1 },
         { ItemId := 2, Status := .FAILED,
           Message := "Failed to get executor: executor not found: ghost",
           Details := "Error creating executor of type ghost: executor not found: ghost",
           Duration := 2 }] ∧
    ((sampleManager.after mixedTrace).taskOf "t").Results.map (·.Status) = [.Normal, .Failed] ∧
    ((ExecuteTaskService.Run sampleFactory mixedRequest sampleClock calmSync).1.Results.length
        = mixedRequest.Items.length ∧
      ∀ (i : Nat) (item : ReqTaskItem), mixedRequest.Items[i]? = some item →
        ∃ res, (ExecuteTaskService.Run sampleFactory mixedRequest sampleClock
            calmSync).1.Results[i]? = some res ∧
          res.ItemId = item.Id ∧
          res = (ExecuteTaskService.runItem sampleFactory (calmSync i) item).2) ∧
    (((sampleManager.after mixedTrace).taskOf "t").Results.length
        = ((sampleManager.after mixedTrace).taskOf "t").Items.length ∧
      ∀ (i : Nat) (item : TaskItem),
        ((sampleManager.after mixedTrace).taskOf "t").Items[i]? = some item →
        ∃ res, ((sampleManager.after mixedTrace).taskOf "t").Results[i]? = some res ∧
          res.ItemID = item.ID) ∧
    ∀ (senv : SyncEnv) (env : Env) (item : ReqTaskItem), env.world = senv.world →
      ((ExecuteTaskService.runItem sampleFactory senv item).1 = true ↔
        ∃ err, (sampleManager.after mixedTrace).executeTaskItem env
          (ExecuteTaskService.modelItem item) = .error err) ∧
      ((ExecuteTaskService.runItem sampleFactory senv item).1 = true ↔
        (sampleFactory.executors item.Typ = none ∨
          ∃ executor err, sampleFactory.executors item.Typ = some executor ∧
            (executor.Execute senv.world (ExecuteTaskService.modelItem item)).2 = some err)) ∧
      ((ExecuteTaskService.runItem sampleFactory senv item).1 = true →
        (ExecuteTaskService.runItem sampleFactory senv item).2.Status = .FAILED ∧
        ((sampleManager.after mixedTrace).itemResult env
          (ExecuteTaskService.modelItem item)).Status = .Failed) :=
  ⟨by decide, by decide, by decide, by decide, by decide,
    sync_recovers_like_async sampleFactory 0 "" mixedRequest sampleClock calmSync mixedTrace
      (sampleManager.after mixedTrace) "t" ((sampleManager.after mixedTrace).taskOf "t")
      ((sampleManager.after mixedTrace).runOf "t") (by decide) rfl (by decide) rfl rfl rfl⟩

/-- Claim C24 fails as stated: a result that the executor reports as
Critical reaches the caller of the synchronous path as FAILED, the status
that a result reported as Failed gets too. -/
theorem critical_reported_as_failed :
    (strayExecutor.Execute 0 (ExecuteTaskService.modelItem strayRequestItem)).1.Status
      = .Critical ∧
    (strayExecutor.Execute 0 (ExecuteTaskService.modelItem strayRequestItem)).2 = none ∧
    (ExecuteTaskService.Run strayFactory strayRequest sampleClock calmSync).1.Results
      = [{ ItemId := 4, Status := .FAILED, Message := "disk almost full", Details := "/var",
           Duration := 5 }] ∧
    ExecuteTaskService.convertResultStatus .Critical
      = ExecuteTaskService.convertResultStatus .Failed := by
  decide

/-- Claim C24, amended: for every item that its executor completes without
error on the synchronous path (the context being live up to the item), the
result returned to the caller has the id of the item, the message, details
and duration the executor reported, and the status NORMAL, WARNING or FAILED
when the executor reported Normal, Warning or Failed; a result reported as
Critical is returned as FAILED. -/
theorem sync_status_reported (f : ExecutorFactory) (req : TaskRequest) (clock : SyncClock)
    (envs : Nat → SyncEnv) (i : Nat) (item : ReqTaskItem) (executor : Executor)
    (res0 : TaskResult)
    (hi : req.Items[i]? = some item) (hlive : ∀ j, j ≤ i → (envs j).ctxErr = none)
    (hc : f.Create item.Typ = .ok executor)
    (hx : executor.Execute (envs i).world (ExecuteTaskService.modelItem item) = (res0, none)) :
    ∃ res, (ExecuteTaskService.Run f req clock envs).1.Results[i]? = some res ∧
      res.ItemId = item.Id ∧ res.Message = res0.Message ∧ res.Details = res0.Details ∧
      res.Duration = res0.Duration ∧
      (res0.Status = .Normal → res.Status = .NORMAL) ∧
      (res0.Status = .Warning → res.Status = .WARNING) ∧
      (res0.Status = .Failed → res.Status = .FAILED) ∧
      (res0.Status = .Critical → res.Status = .FAILED) := by
  obtain ⟨h1, _, _⟩ := Run_spec f req clock envs
  have hrun : ExecuteTaskService.runItem f (envs i) item
      = (false, { ItemId := item.Id,
                  Status := ExecuteTaskService.convertResultStatus res0.Status,
                  Message := res0.Message, Details := res0.Details,
                  Duration := res0.Duration }) := by
    unfold ExecuteTaskService.runItem
    rw [hc]
    simp only [hx]
  refine ⟨_, h1 i item hi hlive, ?_⟩
  rw [hrun]
  refine ⟨rfl, rfl, rfl, rfl, ?_, ?_, ?_, ?_⟩ <;> intro h <;> rw [h] <;> rfl

/-- Instance of C24 amended: the first item of the request is answered
Normal. -/
theorem sync_status_reported_witness :
    ∃ res, (ExecuteTaskService.Run sampleFactory mixedRequest sampleClock
        calmSync).1.Results[0]? = some res ∧
      res.ItemId = sshRequestItem.Id ∧ res.Message = "done" ∧ res.Details = "" ∧
      res.Duration = 1 ∧
      ((ResultStatus.Normal = .Normal) → res.Status = .NORMAL) ∧
      ((ResultStatus.Normal = .Warning) → res.Status = .WARNING) ∧
      ((ResultStatus.Normal = .Failed) → res.Status = .FAILED) ∧
      ((ResultStatus.Normal = .Critical) → res.Status = .FAILED) :=
  sync_status_reported sampleFactory mixedRequest sampleClock calmSync 0 sshRequestItem
    sampleExecutor
    { ItemID := 1, Status := .Normal, Value := "ok", Message := "done", Details := "",
      Duration := 1 } rfl (by decide) rfl rfl

/-- Claim C25: in every state the task manager reaches, whatever the tasks
submitted and the interleaving, the goroutines that have taken a slot of the
worker pool and not yet given it back are exactly as many as the tokens in
the pool, which are never more than the capacity fixed by `GetTaskManager`;
every Running task belongs to such a goroutine, so the Running tasks are never
more than the capacity; a goroutine that finds the pool full does not move and
its task stays Pending; and the only step that frees a slot is the deferred
release of a goroutine that held one. -/
theorem running_tasks_bounded (f : ExecutorFactory) (n : Int) (url : String)
    (evs : List Event) (s : TaskManager)
    (hexec : (GetTaskManager f n url).exec evs = some s) :
    s.maxWorkers = (GetTaskManager f n url).maxWorkers ∧
    (∃ holders : List String, holders.Nodup ∧ (∀ k, k ∈ holders ↔ s.holds k = true) ∧
      holders.length = s.workerPool ∧ holders.length ≤ s.maxWorkers) ∧
    (∀ ids : List String, ids.Nodup → (∀ k ∈ ids, s.holds k = true) →
      ids.length ≤ s.maxWorkers) ∧
    (∀ k t, s.cache.tasks k = some t → t.Status = .Running → s.holds k = true) ∧
    (∀ ids : List String, ids.Nodup →
      (∀ k ∈ ids, ∃ t, s.cache.tasks k = some t ∧ t.Status = .Running) →
      ids.length ≤ s.maxWorkers) ∧
    (∀ id r env, s.runs id = some r → r.pc = .acquire → s.workerPool = s.maxWorkers →
      s.executeTask id env = s ∧ ∀ t, s.cache.tasks id = some t → t.Status = .Pending) ∧
    (∀ e s1, s.step e = some s1 → s1.workerPool < s.workerPool →
      ∃ id env r, e = .run id env ∧ s.runs id = some r ∧ r.pc = .deferred) := by
  obtain ⟨⟨hp, hle, holders, hnd, hlen, hmem⟩, hmax⟩ := PoolInv_reachable f n url evs s hexec
  have hbound : ∀ ids : List String, ids.Nodup → (∀ k ∈ ids, s.holds k = true) →
      ids.length ≤ s.maxWorkers := by
    intro ids hids hall
    have hsub : ids ⊆ holders := fun k hk => (hmem k).2 (hall k hk)
    have := (List.subperm_of_subset hids hsub).length_le
    omega
  have hrunning : ∀ k t, s.cache.tasks k = some t → t.Status = .Running → s.holds k = true := by
    intro k t ht hst
    have hr0 : s.runs k ≠ none := fun h => by simpa [ht] using (hp k).2 h
    obtain ⟨r, hr⟩ := Option.ne_none_iff_exists'.1 hr0
    obtain ⟨hsig, _, hfinal⟩ := reachable_invariants f n url evs s hexec k t r ht hr
    unfold TaskManager.holds
    rw [hr]
    rcases r with ⟨pc, ctx, tmo, e1, e2⟩
    cases pc <;> simp only [Pc.holdsSlot]
    · have := (hsig.2 (Or.inl rfl)).1
      rw [hst] at this
      cases this
    · simp only [FinalInv] at hfinal
      exact absurd (hst ▸ hfinal.1).symm (finalStatus_ne_running e1 e2)
  refine ⟨hmax, ⟨holders, hnd, hmem, hlen, by omega⟩, hbound, hrunning, ?_, ?_, ?_⟩
  · intro ids hids hall
    refine hbound ids hids (fun k hk => ?_)
    obtain ⟨t, ht, hst⟩ := hall k hk
    exact hrunning k t ht hst
  · intro id r env hr hpc hfull
    refine ⟨executeTask_blocked s id env r hr hpc (by omega), ?_⟩
    intro t ht
    obtain ⟨hsig, _, _⟩ := reachable_invariants f n url evs s hexec id t r ht hr
    exact (hsig.2 (Or.inl hpc)).1
  · intro e s1 hs hlt
    exact step_release s e s1 hs hlt

/-- Instance of C25: two tasks are submitted to a pool of one slot; the run
of `a` holds the slot and `a` is Running, the run of `b` waits and `b` is
Pending. -/
theorem running_tasks_bounded_witness :
    (smallManager.after crowdedTrace).statusOf "a" = some .Running ∧
    (smallManager.after crowdedTrace).statusOf "b" = some .Pending ∧
    ((smallManager.after crowdedTrace).runOf "b").pc = .acquire ∧
    (smallManager.after crowdedTrace).workerPool = 1 ∧
    (smallManager.after crowdedTrace).maxWorkers = 1 ∧
    (smallManager.after crowdedTrace).holds "a" = true ∧
    (smallManager.after crowdedTrace).holds "b" = false ∧
    ((smallManager.after crowdedTrace).maxWorkers
        = (GetTaskManager sampleFactory 1 "").maxWorkers ∧
      (∃ holders : List String, holders.Nodup ∧
        (∀ k, k ∈ holders ↔ (smallManager.after crowdedTrace).holds k = true) ∧
        holders.length = (smallManager.after crowdedTrace).workerPool ∧
        holders.length ≤ (smallManager.after crowdedTrace).maxWorkers) ∧
      (∀ ids : List String, ids.Nodup →
        (∀ k ∈ ids, (smallManager.after crowdedTrace).holds k = true) →
        ids.length ≤ (smallManager.after crowdedTrace).maxWorkers) ∧
      (∀ k t, (smallManager.after crowdedTrace).cache.tasks k = some t →
        t.Status = .Running → (smallManager.after crowdedTrace).holds k = true) ∧
      (∀ ids : List String, ids.Nodup →
        (∀ k ∈ ids, ∃ t, (smallManager.after crowdedTrace).cache.tasks k = some t ∧
          t.Status = .Running) →
        ids.length ≤ (smallManager.after crowdedTrace).maxWorkers) ∧
      (∀ id r env, (smallManager.after crowdedTrace).runs id = some r → r.pc = .acquire →
        (smallManager.after crowdedTrace).workerPool
          = (smallManager.after crowdedTrace).maxWorkers →
        (smallManager.after crowdedTrace).executeTask id env = smallManager.after crowdedTrace ∧
        ∀ t, (smallManager.after crowdedTrace).cache.tasks id = some t →
          t.Status = .Pending) ∧
      (∀ e s1, (smallManager.after crowdedTrace).step e = some s1 →
        s1.workerPool < (smallManager.after crowdedTrace).workerPool →
        ∃ id env r, e = .run id env ∧ (smallManager.after crowdedTrace).runs id = some r ∧
          r.pc = .deferred)) :=
  ⟨by decide, by decide, by decide, by decide, by decide, by decide, by decide,
    running_tasks_bounded sampleFactory 1 "" crowdedTrace (smallManager.after crowdedTrace) rfl⟩

/-- Claim C26: when the params of an item lack a string under "host",
"username" or "command", or hold no non-empty string under either of
"password" and "private_key", `Execute` of the SSH executor returns a result
of status Failed together with an error that names what is missing
(host, username, authentication method or command, in the order of the
checks); the part of `Execute` that connects is not consulted; and in the run
loop, with the item in flight, the step appends one Failed result for the item
and leaves the stored task (its status included) untouched. -/
theorem ssh_missing_params (e : SSHExecutor) (w : World) (item : TaskItem)
    (h : item.paramString "host" = none ∨ item.paramString "username" = none ∨
      item.paramString "command" = none ∨
      ((item.paramString "password").getD "" = "" ∧
        (item.paramString "private_key").getD "" = "")) :
    ∃ msg err,
      e.Execute w item
        = ({ ItemID := item.ID, Status := .Failed, Value := "", Message := msg, Details := "",
             Duration := e.since w }, some err) ∧
      ((item.paramString "host" = none ∧ msg = "Missing host parameter" ∧
          err = "missing host parameter") ∨
        (item.paramString "username" = none ∧ msg = "Missing username parameter" ∧
          err = "missing username parameter") ∨
        (((item.paramString "password").getD "" = "" ∧
            (item.paramString "private_key").getD "" = "") ∧
          msg = "Missing authentication method (password or private_key)" ∧
          err = "missing authentication method") ∨
        (item.paramString "command" = none ∧ msg = "Missing command parameter" ∧
          err = "missing command parameter")) ∧
      (∀ e2 : SSHExecutor, e2.since = e.since → e2.Execute w item = e.Execute w item) ∧
      ∀ (tm : TaskManager) (id : String) (env : Env) (task : Task) (r : Run)
        (rest : List TaskItem) (results : List TaskResult),
        tm.cache.tasks id = some task → tm.runs id = some r →
        r.pc = .execItem item rest results →
        tm.executorFactory.Create item.Typ = .ok e.toExecutor → env.world = w →
        (tm.executeTask id env).runs id
          = some { r with pc := .loopTop rest (results ++
              [{ ItemID := item.ID, Status := .Failed, Value := "",
                 Message := "执行失败: " ++ err, Details := "任务项执行错误: " ++ err,
                 Duration := 0 }]) } ∧
        (tm.executeTask id env).cache.tasks id = some task := by
  have key : ∃ msg err,
      (∀ e2 : SSHExecutor, e2.Execute w item
        = ({ ItemID := item.ID, Status := .Failed, Value := "", Message := msg, Details := "",
             Duration := e2.since w }, some err)) ∧
      ((item.paramString "host" = none ∧ msg = "Missing host parameter" ∧
          err = "missing host parameter") ∨
        (item.paramString "username" = none ∧ msg = "Missing username parameter" ∧
          err = "missing username parameter") ∨
        (((item.paramString "password").getD "" = "" ∧
            (item.paramString "private_key").getD "" = "") ∧
          msg = "Missing authentication method (password or private_key)" ∧
          err = "missing authentication method") ∨
        (item.paramString "command" = none ∧ msg = "Missing command parameter" ∧
          err = "missing command parameter")) := by
    cases hh : item.paramString "host" with
    | none =>
      exact ⟨_, _, fun e2 => by simp [SSHExecutor.Execute, hh], Or.inl ⟨rfl, rfl, rfl⟩⟩
    | some host =>
      cases hu : item.paramString "username" with
      | none =>
        exact ⟨_, _, fun e2 => by simp [SSHExecutor.Execute, hh, hu],
          Or.inr (Or.inl ⟨rfl, rfl, rfl⟩)⟩
      | some username =>
        by_cases ha : (item.paramString "password").getD "" = "" ∧
            (item.paramString "private_key").getD "" = ""
        · exact ⟨_, _, fun e2 => by simp [SSHExecutor.Execute, hh, hu, ha],
            Or.inr (Or.inr (Or.inl ⟨ha, rfl, rfl⟩))⟩
        · cases hc : item.paramString "command" with
          | none =>
            exact ⟨_, _, fun e2 => by simp [SSHExecutor.Execute, hh, hu, ha, hc],
              Or.inr (Or.inr (Or.inr ⟨rfl, rfl, rfl⟩))⟩
          | some command =>
            rw [hh, hu, hc] at h
            simp [ha] at h
  obtain ⟨msg, err, hex, hwhat⟩ := key
  refine ⟨msg, err, hex e, hwhat, ?_, ?_⟩
  · intro e2 hs
    rw [hex e2, hex e, hs]
  · intro tm id env task r rest results ht hr hpc hcreate hw
    have hitem : tm.itemResult env item
        = { ItemID := item.ID, Status := .Failed, Value := "", Message := "执行失败: " ++ err,
            Details := "任务项执行错误: " ++ err, Duration := 0 } := by
      unfold TaskManager.itemResult TaskManager.executeTaskItem
      rw [hcreate]
      have : e.toExecutor.Execute env.world item = e.Execute w item := by rw [hw]; rfl
      simp only [this, hex e]
    rcases r with ⟨pc, ctx, tmo, e1, e2⟩
    simp only at hpc
    subst hpc
    have hv := executeTask_view tm id env task _ ht hr id
    simp only [if_true, localRun] at hv
    rw [hv.1, hv.2, hitem]
    exact ⟨rfl, rfl⟩

/-- Instance of C26: the item has host, port, username and password but no
command. -/
theorem ssh_missing_params_witness :
    noCommandItem.paramString "command" = none ∧
    sampleSSH.Execute 0 noCommandItem
      = ({ ItemID := 3, Status := .Failed, Value := "", Message := "Missing command parameter",
           Details := "", Duration := 0 }, some "missing command parameter") ∧
    (managerExecutingSSH.runOf "t").pc = .execItem noCommandItem [] [] ∧
    ((managerExecutingSSH.executeTask "t" calmEnv).runOf "t").pc
      = .loopTop [] [{ ItemID := 3, Status := .Failed, Value := "",
                       Message := "执行失败: missing command parameter",
                       Details := "任务项执行错误: missing command parameter",
                       Duration := 0 }] ∧
    (managerExecutingSSH.executeTask "t" calmEnv).statusOf "t" = some .Running ∧
    ∃ msg err,
      sampleSSH.Execute 0 noCommandItem
        = ({ ItemID := noCommandItem.ID, Status := .Failed, Value := "", Message := msg,
             Details := "", Duration := sampleSSH.since 0 }, some err) ∧
      ((noCommandItem.paramString "host" = none ∧ msg = "Missing host parameter" ∧
          err = "missing host parameter") ∨
        (noCommandItem.paramString "username" = none ∧ msg = "Missing username parameter" ∧
          err = "missing username parameter") ∨
        (((noCommandItem.paramString "password").getD "" = "" ∧
            (noCommandItem.paramString "private_key").getD "" = "") ∧
          msg = "Missing authentication method (password or private_key)" ∧
          err = "missing authentication method") ∨
        (noCommandItem.paramString "command" = none ∧ msg = "Missing command parameter" ∧
          err = "missing command parameter")) ∧
      (∀ e2 : SSHExecutor, e2.since = sampleSSH.since →
        e2.Execute 0 noCommandItem = sampleSSH.Execute 0 noCommandItem) ∧
      ∀ (tm : TaskManager) (id : String) (env : Env) (task : Task) (r : Run)
        (rest : List TaskItem) (results : List TaskResult),
        tm.cache.tasks id = some task → tm.runs id = some r →
        r.pc = .execItem noCommandItem rest results →
        tm.executorFactory.Create noCommandItem.Typ = .ok sampleSSH.toExecutor →
        env.world = 0 →
        (tm.executeTask id env).runs id
          = some { r with pc := .loopTop rest (results ++
              [{ ItemID := noCommandItem.ID, Status := .Failed, Value := "",
                 Message := "执行失败: " ++ err, Details := "任务项执行错误: " ++ err,
                 Duration := 0 }]) } ∧
        (tm.executeTask id env).cache.tasks id = some task :=
  ⟨by decide, by decide, by decide, by decide, by decide,
    ssh_missing_params sampleSSH 0 noCommandItem (Or.inr (Or.inr (Or.inl (by decide))))⟩

/-- Claim C27: when the goroutine has `item` in flight and the executor that
`Create` resolved for it returns the result `res0` without error, the result
that `executeTaskItem` returns and the loop appends has the id of the item
(not `res0.ItemID`), the status, value, message and details of `res0`, and as
duration the milliseconds measured by `executeTaskItem` itself (not
`res0.Duration`). -/
theorem executor_result_kept (tm : TaskManager) (id : String) (env : Env)
    (task : Task) (r : Run) (item : TaskItem) (rest : List TaskItem)
    (results : List TaskResult) (executor : Executor) (res0 : TaskResult)
    (ht : tm.cache.tasks id = some task) (hr : tm.runs id = some r)
    (hpc : r.pc = .execItem item rest results)
    (hres : tm.executorFactory.Create item.Typ = .ok executor)
    (hok : executor.Execute env.world item = (res0, none)) :
    ∃ res, tm.executeTaskItem env item = .ok res ∧
      res = { ItemID := item.ID, Status := res0.Status, Value := res0.Value,
              Message := res0.Message, Details := res0.Details, Duration := env.elapsed } ∧
      (tm.executeTask id env).runs id
        = some { r with pc := .loopTop rest (results ++ [res]) } := by
  have h1 : tm.executeTaskItem env item
      = .ok { ItemID := item.ID, Status := res0.Status, Value := res0.Value,
              Message := res0.Message, Details := res0.Details, Duration := env.elapsed } := by
    unfold TaskManager.executeTaskItem
    rw [hres]
    simp only [hok]
  have h2 : tm.itemResult env item
      = { ItemID := item.ID, Status := res0.Status, Value := res0.Value,
          Message := res0.Message, Details := res0.Details, Duration := env.elapsed } := by
    unfold TaskManager.itemResult
    rw [h1]
  rcases r with ⟨pc, ctx, tmo, e1, e2⟩
  simp only at hpc
  subst hpc
  have hv := executeTask_view tm id env task _ ht hr id
  simp only [if_true, localRun] at hv
  refine ⟨_, h1, rfl, ?_⟩
  rw [hv.2, h2]

/-- Instance of C27: the executor answers under the item id 99 with the
duration 5; the recorded result has the id 4 of the item and the measured
duration 3. -/
theorem executor_result_kept_witness :
    (managerExecutingStray.runOf "t").pc = .execItem strayItem [] [] ∧
    ∃ res, managerExecutingStray.executeTaskItem calmEnv strayItem = .ok res ∧
      res = { ItemID := strayItem.ID, Status := .Critical, Value := "97",
              Message := "disk almost full", Details := "/var",
              Duration := calmEnv.elapsed } ∧
      (managerExecutingStray.executeTask "t" calmEnv).runs "t"
        = some { managerExecutingStray.runOf "t" with pc := .loopTop [] ([] ++ [res]) } :=
  ⟨by decide,
    executor_result_kept managerExecutingStray "t" calmEnv (managerExecutingStray.taskOf "t")
      (managerExecutingStray.runOf "t") strayItem [] [] strayExecutor
      { ItemID := 99, Status := .Critical, Value := "97", Message := "disk almost full",
        Details := "/var", Duration := 5 } rfl rfl rfl rfl rfl⟩

/-- Claim C28: `ExecuteTaskService.Run` returns a nil error; the status of
its response is FAILED exactly when `ctx.Err()` was non-nil at the turn of
some item (the check of line 68), and the response then has fewer results
than the request has items; otherwise the status is COMPLETED and there is
one result per item, whatever the statuses of the results are. -/
theorem sync_status_failed_iff (f : ExecutorFactory) (req : TaskRequest) (clock : SyncClock)
    (envs : Nat → SyncEnv) :
    (ExecuteTaskService.Run f req clock envs).2 = none ∧
    ((ExecuteTaskService.Run f req clock envs).1.Status = .FAILED ↔
      ∃ j, j < req.Items.length ∧ (envs j).ctxErr ≠ none) ∧
    ((ExecuteTaskService.Run f req clock envs).1.Status = .FAILED →
      (ExecuteTaskService.Run f req clock envs).1.Results.length < req.Items.length) ∧
    ((ExecuteTaskService.Run f req clock envs).1.Status ≠ .FAILED →
      (ExecuteTaskService.Run f req clock envs).1.Status = .COMPLETED ∧
      (ExecuteTaskService.Run f req clock envs).1.Results.length = req.Items.length) := by
  obtain ⟨_, h2, h3⟩ := Run_spec f req clock envs
  refine ⟨(Run_loop f req clock envs).1, ?_⟩
  by_cases h : ∃ j, j < req.Items.length ∧ (envs j).ctxErr ≠ none
  · obtain ⟨j, hj, herr⟩ := h
    obtain ⟨hst, hlen⟩ := h3 j hj herr
    exact ⟨⟨fun _ => ⟨j, hj, herr⟩, fun _ => hst⟩, fun _ => hlen, fun hne => absurd hst hne⟩
  · have hlive : ∀ j, j < req.Items.length → (envs j).ctxErr = none := by
      intro j hj
      by_contra herr
      exact h ⟨j, hj, herr⟩
    obtain ⟨hst, hlen⟩ := h2 hlive
    refine ⟨⟨fun hf => ?_, fun hex => absurd hex h⟩, fun hf => ?_, fun _ => ⟨hst, hlen⟩⟩
    · rw [hst] at hf; cases hf
    · rw [hst] at hf; cases hf

/-- Instance of C28: with a live context every result is FAILED (an executor
error and an unregistered type) and the status is COMPLETED; when the deadline
passes during the first item the status is FAILED, with one result for two
items. -/
theorem sync_status_failed_iff_witness :
    (ExecuteTaskService.Run sampleFactory mixedRequest sampleClock stormSync).1.Results.map
      (·.Status) = [.FAILED, .FAILED] ∧
    (ExecuteTaskService.Run sampleFactory mixedRequest sampleClock stormSync).1.Status
      = .COMPLETED ∧
    (ExecuteTaskService.Run sampleFactory mixedRequest sampleClock expiringSync).1.Status
      = .FAILED ∧
    (ExecuteTaskService.Run sampleFactory mixedRequest sampleClock expiringSync).1.Results.length
      = 1 ∧
    (ExecuteTaskService.Run sampleFactory mixedRequest sampleClock stormSync).2 = none ∧
    ((ExecuteTaskService.Run sampleFactory mixedRequest sampleClock stormSync).1.Status
        = .FAILED ↔
      ∃ j, j < mixedRequest.Items.length ∧ (stormSync j).ctxErr ≠ none) ∧
    ((ExecuteTaskService.Run sampleFactory mixedRequest sampleClock stormSync).1.Status
        = .FAILED →
      (ExecuteTaskService.Run sampleFactory mixedRequest sampleClock stormSync).1.Results.length
        < mixedRequest.Items.length) ∧
    ((ExecuteTaskService.Run sampleFactory mixedRequest sampleClock stormSync).1.Status
        ≠ .FAILED →
      (ExecuteTaskService.Run sampleFactory mixedRequest sampleClock stormSync).1.Status
        = .COMPLETED ∧
      (ExecuteTaskService.Run sampleFactory mixedRequest sampleClock stormSync).1.Results.length
        = mixedRequest.Items.length) :=
  ⟨by decide, by decide, by decide, by decide,
    sync_status_failed_iff sampleFactory mixedRequest sampleClock stormSync⟩

/-- Claim C29 fails in the code: `getGVRByType` knows the rule types
"victoriaMetrics" and "prometheus" only, so the type "vm" (the constant
`AlertRuleTypeVM`, and the first type `SyncService.Run` queries) is answered
with the error "unsupported rule type: vm": `ListRules` fails for it, the sync
skips it, and every rule a sync returns is of the type "prometheus", also in
a cluster that holds a VMRule. -/
theorem vm_rule_type_rejected (m : K8sRuleManager) (reqNamespace reqConfigMap : String) :
    AlertRuleTypeVM ∈ SyncService.ruleTypes ∧
    m.getGVRByType AlertRuleTypeVM = .error "unsupported rule type: vm" ∧
    m.getGVRByType AlertRuleTypePrometheus = .ok prometheusRuleGVR ∧
    m.getGVRByType "victoriaMetrics" = .ok vmRuleGVR ∧
    (∀ ns labelSelector,
      m.ListRules AlertRuleTypeVM ns labelSelector = .error "unsupported rule type: vm") ∧
    (∀ rule ∈ SyncService.Run m reqNamespace reqConfigMap, rule.Typ = "prometheus") ∧
    sampleCluster.client vmRuleGVR "monitoring" "app=candy-agent,managed-by=candy-agent"
      = .ok ["vm-alerts"] ∧
    SyncService.Run sampleCluster "" ""
      = [{ Name := "prom-alerts", Typ := "prometheus", Namespace := "monitoring" }] := by
  have hvm : ∀ ns labelSelector,
      m.ListRules AlertRuleTypeVM ns labelSelector = .error "unsupported rule type: vm" := by
    intro ns labelSelector
    rfl
  refine ⟨by decide, rfl, rfl, rfl, hvm, ?_, rfl, by decide⟩
  intro rule hrule
  simp only [SyncService.Run, SyncService.ruleTypes, List.foldl_cons, List.foldl_nil] at hrule
  have h1 := hvm (if reqNamespace = "" then "monitoring" else reqNamespace)
    (if reqConfigMap ≠ "" then "app=candy-agent,managed-by=candy-agent" ++ ",config-map=" ++
      reqConfigMap else "app=candy-agent,managed-by=candy-agent")
  simp only [AlertRuleTypeVM] at h1
  rw [h1] at hrule
  simp only [List.nil_append] at hrule
  split at hrule
  · simp at hrule
  · rename_i rules hrules
    exact ListRules_typ m _ _ _ rules hrules rule hrule

/-- Claim C30 fails in the code: the status is Warning exactly when some
value that parses exceeds the threshold, but the running maximum starts at
zero (`var highestValue float64`), so when every exceeding value is zero or
negative no value replaces it: with the values node1 = -1 and threshold -5
(and with node1 = -1, node2 = -3) the status is Warning and the reported
highest instance is the empty string with the value 0, which is the value of
no instance. -/
theorem highest_value_starts_at_zero :
    vectorStatus (-5 : Int) [("node1", some (-1))] = .Warning ∧
    (scanVector (-5 : Int) [("node1", some (-1))]).exceedingNodes = [("node1", -1)] ∧
    (scanVector (-5 : Int) [("node1", some (-1))]).highestInstance = "" ∧
    (scanVector (-5 : Int) [("node1", some (-1))]).highestValue = 0 ∧
    (scanVector (-5 : Int) [("node1", some (-1)), ("node2", some (-3))]).exceedingNodes
      = [("node1", -1), ("node2", -3)] ∧
    (scanVector (-5 : Int) [("node1", some (-1)), ("node2", some (-3))]).highestInstance = "" ∧
    (scanVector (-5 : Int) [("node1", some (-1)), ("node2", some (-3))]).highestValue = 0 ∧
    (scanVector (5 : Int) [("node1", some 7), ("node2", some 9)]).highestInstance = "node2" ∧
    (scanVector (5 : Int) [("node1", some 7), ("node2", some 9)]).highestValue = 9 ∧
    ∀ (threshold : Int) (allValues : List (String × Option Int)),
      vectorStatus threshold allValues = .Warning ↔
        ∃ node v, (node, some v) ∈ allValues ∧ threshold < v := by
  refine ⟨by decide, by decide, by decide, by decide, by decide, by decide, by decide,
    by decide, by decide, ?_⟩
  intro threshold allValues
  unfold vectorStatus scanVector
  rw [scan_exceeding]
  simp only [List.nil_append]
  constructor
  · intro h
    split at h
    · rename_i hlen
      obtain ⟨q, hq⟩ := List.exists_mem_of_length_pos hlen
      simp only [List.mem_filterMap] at hq
      obtain ⟨⟨node, v⟩, hmem, hsome⟩ := hq
      cases v with
      | none => simp [exceeding] at hsome
      | some v =>
        by_cases hlt : threshold < v
        · exact ⟨node, v, hmem, hlt⟩
        · simp [exceeding, hlt] at hsome
    · cases h
  · rintro ⟨node, v, hmem, hlt⟩
    have hin : (node, v) ∈ allValues.filterMap (exceeding threshold) := by
      simp only [List.mem_filterMap]
      exact ⟨(node, some v), hmem, by simp [exceeding, hlt]⟩
    have hpos : (allValues.filterMap (exceeding threshold)).length > 0 :=
      List.length_pos_of_mem hin
    rw [if_pos hpos]

end CandyAgent
